import Mathlib

/-!
Shallow embedding of `src/pyworkflow/memory/backend.py` (class `MemoryBackend`),
an in-memory workflow backend.

Modelling conventions:
* wall-clock time is a `Nat` (seconds); every public operation takes the
  current time `now` explicitly (the Python code samples `datetime.now()`;
  we sample once per operation),
* Python `dict`s become association lists (`List (k, v)`), iterated in
  insertion order; `deque`s become `List`s with head = left end,
* process objects are mutable and shared between the store and the queues in
  Python; we model the object heap as `procs : List (Pid, Process)` keyed by
  process id (records are never dropped from the heap, mirroring objects that
  stay alive through references), while `live` models the key set of
  `running_processes`,
* Python exceptions become `Except (BErr, BState)`: the error carries the
  state at the point the exception was raised, since Python mutations
  performed before an exception are not rolled back,
* `str(uuid4())` becomes a fresh number drawn from a `nextId` counter,
* the unbounded recursion of `cancel_process` / `_cancel_process_internal`
  is given a fuel parameter; entry points pass `3 * live.length + 9`, far
  more than the recursion (bounded by the number of live processes) can use.
-/

abbrev Pid := Nat
abbrev RunId := Nat

deriving instance DecidableEq for Except

/-- Errors surfaced by the backend.  `keyError` is a plain Python `KeyError`
from a dict lookup; `typeError` is the `TypeError` raised by subscripting
`None`.  `unknownProcess` is part of the spec's error taxonomy but, as the
proofs below show, is never produced by this backend. -/
inductive BErr where
  | unknownActivity
  | unknownDecision
  | unknownProcess
  | keyError
  | typeError
  | fuelOut
deriving DecidableEq, Repr

/-- `ActivityExecution(activity, id, input)`. -/
structure ActivityExecution where
  activity : String
  id : String
  input : String
deriving DecidableEq, Repr

/-- A process template / record (Python class `Process`).  `copy_with_id`
replaces the id and history, keeping the other attributes. -/
structure ProcessTemplate where
  workflow : String
  id : Option Pid
  input : String
  tags : List String
  parent : Option Pid
deriving DecidableEq, Repr

/-- Decisions emitted by a decider (modelled from the spec's §4.7 list; the
decision classes live outside `src/`).  `scheduleActivity` is the only
decision with an `activity` attribute (the `hasattr(decision, 'activity')`
test in `complete_decision_task`). -/
inductive Decision where
  | scheduleActivity (activity : String) (id : String) (input : String)
      (category : Option String)
  | cancelActivity (id : String)
  | startChildProcess (process : ProcessTemplate)
  | timer (delay : Nat)
  | completeProcess (result : String)
  | cancelProcess (details : Option String)
deriving DecidableEq, Repr

/-- Activity outcomes. -/
inductive Outcome where
  | activityCompleted (result : String)
  | activityCanceled
  | activityTimedOut
  | activityFailed (reason : String)
deriving DecidableEq, Repr

/-- Results carried by `ChildProcessEvent`. -/
inductive ChildResult where
  | processCompleted (result : String)
  | processCanceled (details : Option String)
deriving DecidableEq, Repr

/-- First argument of `ActivityEvent`.  In the `CancelActivity` branch the
code appends `ActivityEvent(activity[0], ...)` where `activity` came from
`_activity_by_id`; when the activity was found in the *running* table that
is the `(run_id, entry)` pair, so `activity[0]` is the run id, not the
execution.  `runKey` records that case faithfully. -/
inductive ExecRef where
  | exec (e : ActivityExecution)
  | runKey (k : RunId)
deriving DecidableEq, Repr

/-- History events. -/
inductive Event where
  | processStarted
  | decisionStarted
  | decisionEvent (d : Decision)
  | activityStarted (e : ActivityExecution)
  | activityEvent (e : ExecRef) (o : Outcome)
  | signalEvent (signal : String) (data : Option String)
  | timerEvent (t : Option Decision)
  | childProcessEvent (process_id : Pid) (workflow : String)
      (tags : List String) (result : ChildResult)
deriving DecidableEq, Repr

/-- A live process record. -/
structure Process where
  id : Pid
  workflow : String
  input : String
  tags : List String
  parent : Option Pid
  history : List Event
deriving DecidableEq, Repr

/-- Registered workflow descriptor. -/
structure WorkflowDesc where
  category : String
  timeout : Nat
  decision_timeout : Nat
deriving DecidableEq, Repr

/-- Registered activity descriptor. -/
structure ActivityDesc where
  category : String
  scheduled_timeout : Nat
  execution_timeout : Nat
  heartbeat_timeout : Nat
deriving DecidableEq, Repr

/-- Entry of a scheduled-activity queue: `(execution, process, expiration)`. -/
structure ActEntry where
  execution : ActivityExecution
  process : Pid
  expiry : Nat
deriving DecidableEq, Repr

/-- Value of the running-activities table:
`(execution, process, expiration, heartbeat_expiration)`. -/
structure RunAct where
  execution : ActivityExecution
  process : Pid
  execExpiry : Nat
  hbExpiry : Nat
deriving DecidableEq, Repr

/-- Entry of a scheduled-decision queue:
`(process, start, expiration, timer)`. -/
structure DecEntry where
  process : Pid
  start : Option Nat
  expiry : Option Nat
  timer : Option Decision
deriving DecidableEq, Repr

/-- Value of the running-decisions table: `(process, expiration)`. -/
structure RunDec where
  process : Pid
  expiry : Nat
deriving DecidableEq, Repr

/-- Task returned by `poll_activity_task`. -/
structure ActivityTask where
  execution : ActivityExecution
  process_id : Pid
  run_id : RunId
deriving DecidableEq, Repr

/-- Task returned by `poll_decision_task` (carries the process object; we
keep its id). -/
structure DecisionTask where
  process_id : Pid
  run_id : RunId
deriving DecidableEq, Repr

/-- The whole `MemoryBackend` state. -/
structure BState where
  workflows : List (String × WorkflowDesc)
  activities : List (String × ActivityDesc)
  procs : List (Pid × Process)
  live : List Pid
  running_activities : List (RunId × RunAct)
  running_decisions : List (RunId × RunDec)
  scheduled_decisions : List (String × List DecEntry)
  scheduled_activities : List (String × List ActEntry)
  nextId : Nat
deriving DecidableEq, Repr

/-- `Defaults` bundle (module not under `src/`): the two default category
names used to seed the queues in `__init__`. -/
def DECISION_CATEGORY : String := "decision"

/-- Default activity category. -/
def ACTIVITY_CATEGORY : String := "activity"

/-- `MemoryBackend.__init__`. -/
def initBackend : BState :=
  { workflows := [], activities := [], procs := [], live := [],
    running_activities := [], running_decisions := [],
    scheduled_decisions := [(DECISION_CATEGORY, [])],
    scheduled_activities := [(ACTIVITY_CATEGORY, [])],
    nextId := 1 }

/-- Association-list lookup (Python dict `d[k]` / `d.get(k)`). -/
def lookupA {κ ν : Type} [DecidableEq κ] : List (κ × ν) → κ → Option ν
  | [], _ => none
  | (k, v) :: rest, key => if k = key then some v else lookupA rest key

/-- Association-list update (Python dict `d[k] = v`): replaces in place, or
appends when the key is new (insertion order of dicts). -/
def setA {κ ν : Type} [DecidableEq κ] : List (κ × ν) → κ → ν → List (κ × ν)
  | [], key, v => [(key, v)]
  | (k, w) :: rest, key, v =>
    if k = key then (k, v) :: rest else (k, w) :: setA rest key v

/-- Association-list delete (Python `del d[k]`; keys are unique). -/
def eraseA {κ ν : Type} [DecidableEq κ] : List (κ × ν) → κ → List (κ × ν)
  | [], _ => []
  | (k, w) :: rest, key =>
    if k = key then rest else (k, w) :: eraseA rest key

/-- Python `d.setdefault(k, v)`. -/
def setdefaultA {κ ν : Type} [DecidableEq κ]
    (l : List (κ × ν)) (key : κ) (v : ν) : List (κ × ν) :=
  match lookupA l key with
  | some _ => l
  | none => l ++ [(key, v)]

/-- Python `list.remove(x)`: drop the first occurrence of `x`. -/
def removeFirst {α : Type} [DecidableEq α] (a : α) : List α → List α
  | [] => []
  | x :: xs => if x = a then xs else x :: removeFirst a xs

/-- Read a process object from the heap by id (objects stay reachable even
after removal from `running_processes`). -/
def getProc (s : BState) (pid : Pid) : Option Process :=
  lookupA s.procs pid

/-- `MemoryBackend._managed_process`: `self.running_processes[pid]`,
a plain dict lookup (raises `KeyError` when absent). -/
def _managed_process (s : BState) (pid : Pid) : Option Process :=
  if pid ∈ s.live then getProc s pid else none

/-- Append an event to a process object's history (mutation of the shared
object: visible through every reference). -/
def appendHist (s : BState) (pid : Pid) (e : Event) : BState :=
  { s with procs := s.procs.map fun p =>
      if p.1 = pid then (p.1, { p.2 with history := p.2.history ++ [e] }) else p }

/-- Install a process object (Python `self.running_processes[id] = process`:
dict insert plus the object itself). -/
def installProc (s : BState) (p : Process) : BState :=
  { s with procs := setA s.procs p.id p,
           live := if p.id ∈ s.live then s.live else s.live ++ [p.id] }

/-- Sort key of a scheduled-decision entry: `d[1] or datetime.now()`. -/
def entryKey (now : Nat) (e : DecEntry) : Nat := e.start.getD now

/-- Insert into a list sorted by `entryKey`, before the first later entry
with a key that is not smaller (stable insertion: among equal keys the
original order is kept, matching Python's stable `sorted`). -/
def insertEntry (now : Nat) (e : DecEntry) : List DecEntry → List DecEntry
  | [] => [e]
  | y :: ys =>
    if entryKey now e ≤ entryKey now y then e :: y :: ys
    else y :: insertEntry now e ys

/-- Stable sort of a decision queue by start time
(`sorted(..., key=lambda d: d[1] or datetime.now())`). -/
def sortEntries (now : Nat) : List DecEntry → List DecEntry
  | [] => []
  | x :: xs => insertEntry now x (sortEntries now xs)

abbrev BRes (α : Type) := Except (BErr × BState) α

/-- `MemoryBackend._schedule_activity`. -/
def _schedule_activity (s : BState) (now : Nat) (process : Pid)
    (activity : String) (id : String) (input : String)
    (queue? : Option String) : BRes BState := do
  let some desc := lookupA s.activities activity | throw (.keyError, s)
  let expiration := now + desc.scheduled_timeout
  let execution : ActivityExecution := ⟨activity, id, input⟩
  let queue := queue?.getD desc.category
  let some q := lookupA s.scheduled_activities queue | throw (.keyError, s)
  let qs := setA s.scheduled_activities queue (q ++ [⟨execution, process, expiration⟩])
  pure { s with scheduled_activities := qs }

/-- Result of `MemoryBackend._activity_by_id`: the first matching element of
`running_activities.items()` (a key/value pair), else the first matching
entry of some scheduled queue, else `None`. -/
inductive ActLookup where
  | fromRunning (k : RunId) (a : RunAct)
  | fromScheduled (e : ActEntry)
  | notFound
deriving DecidableEq, Repr

/-- Scan the scheduled queues in order for an entry with the given
activity id. -/
def scanScheduled (id : String) : List (String × List ActEntry) → ActLookup
  | [] => .notFound
  | (_, q) :: rest =>
    match q.filter (fun e => e.execution.id = id) with
    | e :: _ => .fromScheduled e
    | [] => scanScheduled id rest

/-- `MemoryBackend._activity_by_id`. -/
def _activity_by_id (s : BState) (id : String) : ActLookup :=
  match s.running_activities.filter (fun p => p.2.execution.id = id) with
  | (k, a) :: _ => .fromRunning k a
  | [] => scanScheduled id s.scheduled_activities

/-- `activity[0]` on the result of `_activity_by_id`: the run id when the
match came from the running table, the execution when it came from a
scheduled queue, and a `TypeError` (`None[0]`) when nothing matched. -/
def actFirst : ActLookup → Option ExecRef
  | .fromRunning k _ => some (.runKey k)
  | .fromScheduled e => some (.exec e.execution)
  | .notFound => none

/-- `MemoryBackend._cancel_activity`: drop every matching entry from every
scheduled queue and from the running table. -/
def _cancel_activity (s : BState) (id : String) : BState :=
  { s with
    scheduled_activities := s.scheduled_activities.map fun p =>
      (p.1, p.2.filter fun e => ¬ e.execution.id = id),
    running_activities :=
      s.running_activities.filter fun p => ¬ p.2.execution.id = id }

/-- The `existing` / `matching` filters of `_schedule_decision`: entries of
the queue that belong to the process and whose `start` is null or has
already been reached at `start or now`. -/
def matchingOf (now : Nat) (process : Pid) (start : Option Nat)
    (q : List DecEntry) : List DecEntry :=
  (q.filter fun e => e.process = process).filter fun e =>
    match e.start with
    | none => true
    | some v => v ≤ start.getD now

/-- `MemoryBackend._schedule_decision`. -/
def _schedule_decision (s : BState) (now : Nat) (process : Pid)
    (start : Option Nat) (timer : Option Decision) : BRes BState := do
  let some pr := getProc s process | throw (.keyError, s)
  let some desc := lookupA s.workflows pr.workflow | throw (.keyError, s)
  let queue := desc.category
  let some q := lookupA s.scheduled_decisions queue | throw (.keyError, s)
  let matching := matchingOf now process start q
  if timer.isSome ∨ matching.length = 0 then
    let expiration : Option Nat :=
      if timer.isSome then none else some (now + desc.decision_timeout)
    let q' := sortEntries now (q ++ [⟨process, start, expiration, timer⟩])
    pure { s with scheduled_decisions := setA s.scheduled_decisions queue q' }
  else
    pure s

/-- `MemoryBackend._cancel_decision`: remove every entry for the process
from every category's queue. -/
def _cancel_decision (s : BState) (process : Pid) : BState :=
  { s with scheduled_decisions := s.scheduled_decisions.map fun p =>
      (p.1, p.2.filter fun e => ¬ e.process = process) }

/-- `MemoryBackend.register_workflow`. -/
def register_workflow (s : BState) (name : String) (category : String)
    (timeout : Nat) (decision_timeout : Nat) : BState :=
  { s with
    workflows := setA s.workflows name ⟨category, timeout, decision_timeout⟩,
    scheduled_decisions := setdefaultA s.scheduled_decisions category [] }

/-- `MemoryBackend.register_activity`. -/
def register_activity (s : BState) (name : String) (category : String)
    (scheduled_timeout execution_timeout heartbeat_timeout : Nat) : BState :=
  { s with
    activities := setA s.activities name
      ⟨category, scheduled_timeout, execution_timeout, heartbeat_timeout⟩,
    scheduled_activities := setdefaultA s.scheduled_activities category [] }

/-- `MemoryBackend.start_process`: fresh id, record with history
`[ProcessStartedEvent()]`, initial decision. -/
def start_process (s : BState) (now : Nat) (t : ProcessTemplate) :
    BRes (Pid × BState) := do
  let pid := s.nextId
  let p : Process :=
    ⟨pid, t.workflow, t.input, t.tags, t.parent, [.processStarted]⟩
  let s1 := installProc { s with nextId := s.nextId + 1 } p
  let s2 ← _schedule_decision s1 now pid none none
  pure (pid, s2)

/-- `MemoryBackend.signal_process`. -/
def signal_process (s : BState) (now : Nat) (pid : Pid) (signal : String)
    (data : Option String) : BRes BState := do
  let some _ := _managed_process s pid | throw (.keyError, s)
  let s1 := appendHist s pid (.signalEvent signal data)
  _schedule_decision s1 now pid none none

/-- Liveness filter used by `_cancel_process_internal` to find children:
`[p for p in running_processes.values() if p.parent == pid]`. -/
def childrenOf (s : BState) (pid : Pid) : List Pid :=
  s.live.filter fun q =>
    match getProc s q with
    | some p => p.parent = some pid
    | none => false

/-- Call selector for the mutually recursive cancellation routines
(`cancel_process`, `_cancel_process_internal`, and the children loop);
a single structurally recursive function keeps them kernel-evaluable. -/
inductive CancelCall where
  | go (pid : Pid) (details : Option String)
  | internal (pid : Pid)
  | list (cs : List Pid)

/-- The cancellation recursion (fuelled; the fuel strictly decreases on
every call, and the entry points supply far more than the recursion depth,
which is bounded by the number of live processes, can consume). -/
def cancelRun : Nat → BState → Nat → CancelCall → BRes BState
  | 0, s, _, _ => throw (.fuelOut, s)
  | fuel + 1, s, now, .go pid details => do
    let some _ := _managed_process s pid | throw (.keyError, s)
    let s1 := appendHist s pid (.decisionEvent (.cancelProcess details))
    cancelRun fuel s1 now (.internal pid)
  | fuel + 1, s, _now, .internal pid =>
    let s1 := _cancel_decision s pid
    if pid ∈ s1.live then
      let s2 := { s1 with live := s1.live.filter fun q => ¬ q = pid }
      cancelRun fuel s2 _now (.list (childrenOf s2 pid))
    else throw (.keyError, s1)
  | _fuel + 1, s, _, .list [] => pure s
  | fuel + 1, s, now, .list (c :: cs) => do
    let s' ← cancelRun fuel s now (.go c none)
    cancelRun fuel s' now (.list cs)

/-- `MemoryBackend.cancel_process` at a given fuel. -/
def cancelGo (fuel : Nat) (s : BState) (now : Nat) (pid : Pid)
    (details : Option String) : BRes BState :=
  cancelRun fuel s now (.go pid details)

/-- `MemoryBackend._cancel_process_internal` at a given fuel: remove the
scheduled decisions, remove the process from the store (`del` raises
`KeyError` when the id is absent), cancel the live children. -/
def cancelInternalGo (fuel : Nat) (s : BState) (now : Nat) (pid : Pid) :
    BRes BState :=
  cancelRun fuel s now (.internal pid)

/-- The `for c in children: self.cancel_process(c.id)` loop. -/
def cancelListGo (fuel : Nat) (s : BState) (now : Nat) (cs : List Pid) :
    BRes BState :=
  cancelRun fuel s now (.list cs)

/-- Fuel supplied at each entry point into the cancellation recursion. -/
def cancelFuel (s : BState) : Nat := 3 * s.live.length + 9

/-- `MemoryBackend._cancel_process_internal` as called from
`complete_decision_task`. -/
def _cancel_process_internal (s : BState) (now : Nat) (pid : Pid) :
    BRes BState :=
  cancelInternalGo (cancelFuel s) s now pid

/-- `MemoryBackend.cancel_process`. -/
def cancel_process (s : BState) (now : Nat) (pid : Pid)
    (details : Option String) : BRes BState :=
  cancelGo (cancelFuel s) s now pid details

/-- Update one scheduled-activity queue in place. -/
def updSchedAct (s : BState) (cat : String) (f : List ActEntry → List ActEntry) :
    BState :=
  match lookupA s.scheduled_activities cat with
  | none => s
  | some q => { s with scheduled_activities := setA s.scheduled_activities cat (f q) }

/-- Update one scheduled-decision queue in place. -/
def updSchedDec (s : BState) (cat : String) (f : List DecEntry → List DecEntry) :
    BState :=
  match lookupA s.scheduled_decisions cat with
  | none => s
  | some q => { s with scheduled_decisions := setA s.scheduled_decisions cat (f q) }

/-- Body of the first loop of `_time_out_activities` for one category:
for each entry of the pre-computed expired snapshot, remove it from the
queue, schedule a decision for its owner, append
`ActivityEvent(execution, ActivityTimedOut)` to the owner's history. -/
def sweepSchedActs (now : Nat) (cat : String) :
    List ActEntry → BState → BRes BState
  | [], s => pure s
  | e :: es, s => do
    let s1 := updSchedAct s cat (removeFirst e)
    let s2 ← _schedule_decision s1 now e.process none none
    let s3 := appendHist s2 e.process (.activityEvent (.exec e.execution) .activityTimedOut)
    sweepSchedActs now cat es s3

/-- First loop of `_time_out_activities` over all categories. -/
def sweepSchedActsAll (now : Nat) : List String → BState → BRes BState
  | [], s => pure s
  | c :: cs, s => do
    let q := (lookupA s.scheduled_activities c).getD []
    let s' ← sweepSchedActs now c (q.filter fun e => e.expiry < now) s
    sweepSchedActsAll now cs s'

/-- Second loop of `_time_out_activities`: expired running activities. -/
def sweepRunActs (now : Nat) : List (RunId × RunAct) → BState → BRes BState
  | [], s => pure s
  | (i, a) :: es, s => do
    let s1 := { s with running_activities := eraseA s.running_activities i }
    let s2 ← _schedule_decision s1 now a.process none none
    let s3 := appendHist s2 a.process (.activityEvent (.exec a.execution) .activityTimedOut)
    sweepRunActs now es s3

/-- `MemoryBackend._time_out_activities`. -/
def _time_out_activities (s : BState) (now : Nat) : BRes BState := do
  let s1 ← sweepSchedActsAll now (s.scheduled_activities.map Prod.fst) s
  let expired := s1.running_activities.filter fun p =>
    p.2.execExpiry < now ∨ p.2.hbExpiry < now
  sweepRunActs now expired s1

/-- First loop of `_time_out_decisions`: expired running decisions. -/
def sweepRunDecs (now : Nat) : List (RunId × RunDec) → BState → BRes BState
  | [], s => pure s
  | (i, d) :: es, s => do
    let s1 := { s with running_decisions := eraseA s.running_decisions i }
    let s2 ← _schedule_decision s1 now d.process none none
    sweepRunDecs now es s2

/-- The `.items()` snapshot held by the second loop of
`_time_out_decisions`: for each category, the contents of the snapshot
list object bound to the loop variable `queue`, and whether
`self.scheduled_decisions[cat]` still holds that very object.
`_schedule_decision` rebinds the slot to a fresh `sorted(...)` list on
every insert, after which the loop's `queue.remove(...)` mutates a dead
object that the real dict no longer sees. -/
abbrev AliasTab := List (String × List DecEntry × Bool)

/-- Contents of a category's snapshot object. -/
def aliasContents (al : AliasTab) (c : String) : List DecEntry :=
  match lookupA al c with
  | some pr => pr.1
  | none => []

/-- `queue.remove(expired)` on the snapshot object of `cat`. -/
def removeAliasedTab (al : AliasTab) (cat : String) (e : DecEntry) :
    AliasTab :=
  al.map fun pr =>
    if pr.1 = cat then (pr.1, removeFirst e pr.2.1, pr.2.2) else pr

/-- The dict's view of `queue.remove(expired)`: the removal reaches
`self.scheduled_decisions[cat]` only while the slot still holds the
snapshot object. -/
def removeAliasedSt (al : AliasTab) (s : BState) (cat : String)
    (e : DecEntry) : BState :=
  match lookupA al cat with
  | some (_, true) => updSchedDec s cat (removeFirst e)
  | _ => s

/-- `self._schedule_decision(expired[0])` as called inside the
scheduled-decisions sweep (`start = None`, `timer = None`), tracking the
snapshot aliases: an insert appends to the slot's current object — still
the snapshot object when the slot has not been rebound yet — and then
rebinds the slot to a fresh sorted list (line 75 of the source). -/
def schedDecAliased (al : AliasTab) (s : BState) (now : Nat) (p : Pid) :
    BRes (AliasTab × BState) := do
  let some pr := getProc s p | throw (.keyError, s)
  let some desc := lookupA s.workflows pr.workflow | throw (.keyError, s)
  let queue := desc.category
  let some q := lookupA s.scheduled_decisions queue | throw (.keyError, s)
  let matching := matchingOf now p none q
  if matching.length = 0 then
    let n : DecEntry := ⟨p, none, some (now + desc.decision_timeout), none⟩
    let al2 := al.map fun pr2 =>
      if pr2.1 = queue ∧ pr2.2.2 = true then (pr2.1, pr2.2.1 ++ [n], false)
      else pr2
    let q2 := sortEntries now (q ++ [n])
    pure (al2, { s with scheduled_decisions := setA s.scheduled_decisions queue q2 })
  else
    pure (al, s)

/-- Body of the second loop of `_time_out_decisions` for one category:
for each entry of the pre-computed expired snapshot, `queue.remove` it
through the snapshot alias, then re-schedule a decision for its owner. -/
def sweepSchedDecs (now : Nat) (cat : String) :
    List DecEntry → AliasTab → BState → BRes (AliasTab × BState)
  | [], al, s => pure (al, s)
  | e :: es, al, s => do
    let (al2, s2) ← schedDecAliased (removeAliasedTab al cat e)
      (removeAliasedSt al s cat e) now e.process
    sweepSchedDecs now cat es al2 s2

/-- Second loop of `_time_out_decisions` over the categories of the
`.items()` snapshot: each category's expired list is computed from its
snapshot object's contents at that point of the iteration. -/
def sweepSchedDecsAll (now : Nat) :
    List String → AliasTab → BState → BRes (AliasTab × BState)
  | [], al, s => pure (al, s)
  | c :: cs, al, s => do
    let q := aliasContents al c
    let (al2, s2) ← sweepSchedDecs now c
      (q.filter fun e => match e.expiry with | some v => v < now | none => false)
      al s
    sweepSchedDecsAll now cs al2 s2

/-- `MemoryBackend._time_out_decisions`.  The running loop runs before the
`.items()` snapshot of the scheduled queues is taken, so only the second
loop needs the alias tracking. -/
def _time_out_decisions (s : BState) (now : Nat) : BRes BState := do
  let expired := s.running_decisions.filter fun p => p.2.expiry < now
  let s1 ← sweepRunDecs now expired s
  let al := s1.scheduled_decisions.map fun pr => (pr.1, pr.2, true)
  let (_, s2) ← sweepSchedDecsAll now (s1.scheduled_decisions.map Prod.fst) al s1
  pure s2

/-- The `while True: popleft` loop of `poll_activity_task`: pop until a
non-expired entry is found; discarded (popped) entries are gone.  Returns
the found entry (if any) and what remains of the queue. -/
def pollActLoop (now : Nat) : List ActEntry → Option ActEntry × List ActEntry
  | [] => (none, [])
  | e :: rest => if now ≤ e.expiry then (some e, rest) else pollActLoop now rest

/-- `MemoryBackend.poll_activity_task`.  A missing category raises
`KeyError` inside the `try`, caught by the bare `except` (returns `None`). -/
def poll_activity_task (s : BState) (now : Nat) (category : String) :
    BRes (Option ActivityTask × BState) :=
  match lookupA s.scheduled_activities category with
  | none => pure (none, s)
  | some q =>
    match pollActLoop now q with
    | (none, _) =>
      pure (none, { s with scheduled_activities := setA s.scheduled_activities category [] })
    | (some e, q') => do
      let s1 := { s with scheduled_activities := setA s.scheduled_activities category q' }
      let run_id := s1.nextId
      let s2 := { s1 with nextId := s1.nextId + 1 }
      let some desc := lookupA s2.activities e.execution.activity | throw (.keyError, s2)
      let ra : RunAct := ⟨e.execution, e.process, now + desc.execution_timeout,
        now + desc.heartbeat_timeout⟩
      let s3 := { s2 with running_activities := setA s2.running_activities run_id ra }
      let s4 := appendHist s3 e.process (.activityStarted e.execution)
      pure (some ⟨e.execution, e.process, run_id⟩, s4)

/-- Eligibility scan of `poll_decision_task`: skip entries whose `start` is
in the future, take the first whose `expiration` is null or not yet past. -/
def findEligible (now : Nat) : List DecEntry → Option DecEntry
  | [] => none
  | e :: rest =>
    match e.start with
    | some st =>
      if now < st then findEligible now rest
      else if e.expiry.getD now ≥ now then some e else findEligible now rest
    | none =>
      if e.expiry.getD now ≥ now then some e else findEligible now rest

/-- The part of `poll_decision_task` after the two sweeps. -/
def pollDecisionCore (s : BState) (now : Nat) (category : String) :
    BRes (Option DecisionTask × BState) := do
  let some q := lookupA s.scheduled_decisions category | throw (.keyError, s)
  match findEligible now q with
  | none => pure (none, s)
  | some e => do
    let s1 := if e.start.isSome then appendHist s e.process (.timerEvent e.timer) else s
    let s2 := updSchedDec s1 category (removeFirst e)
    let run_id := s2.nextId
    let s3 := { s2 with nextId := s2.nextId + 1 }
    let some pr := getProc s3 e.process | throw (.keyError, s3)
    let some desc := lookupA s3.workflows pr.workflow | throw (.keyError, s3)
    let rd : RunDec := ⟨e.process, now + desc.timeout⟩
    let s4 := { s3 with running_decisions := setA s3.running_decisions run_id rd }
    let s5 := appendHist s4 e.process .decisionStarted
    pure (some ⟨e.process, run_id⟩, s5)

/-- `MemoryBackend.poll_decision_task`. -/
def poll_decision_task (s : BState) (now : Nat) (category : String) :
    BRes (Option DecisionTask × BState) := do
  let s1 ← _time_out_activities s now
  let s2 ← _time_out_decisions s1 now
  pollDecisionCore s2 now category

/-- `MemoryBackend.heartbeat_activity_task`.  When the run id is absent,
`running_activities.get` yields `None` and `activity[0]` raises
`TypeError` — after the sweep has already run. -/
def heartbeat_activity_task (s : BState) (now : Nat) (task : ActivityTask) :
    BRes BState := do
  let s0 ← _time_out_activities s now
  match lookupA s0.running_activities task.run_id with
  | none => throw (.typeError, s0)
  | some a => do
    let some desc := lookupA s0.activities a.execution.activity | throw (.keyError, s0)
    let new_timeout := now + desc.heartbeat_timeout
    let ra : RunAct := { a with hbExpiry := new_timeout }
    pure { s0 with running_activities := setA s0.running_activities task.run_id ra }

/-- `MemoryBackend.complete_activity_task`. -/
def complete_activity_task (s : BState) (now : Nat) (task : ActivityTask)
    (result : Outcome) : BRes BState := do
  let s0 ← _time_out_activities s now
  match lookupA s0.running_activities task.run_id with
  | none => throw (.unknownActivity, s0)
  | some a => do
    let s1 := { s0 with running_activities := eraseA s0.running_activities task.run_id }
    let s2 := appendHist s1 a.process (.activityEvent (.exec a.execution) result)
    _schedule_decision s2 now a.process none none

/-- One iteration of the decision loop of `complete_decision_task`:
append `DecisionEvent(decision)`, then apply the decision's side effect. -/
def applyDecision (s : BState) (now : Nat) (taskPid : Pid) (mp : Pid)
    (d : Decision) : BRes BState := do
  let s0 := appendHist s mp (.decisionEvent d)
  match d with
  | .scheduleActivity activity id input category =>
    _schedule_activity s0 now mp activity id input category
  | .cancelActivity id =>
    let found := _activity_by_id s0 id
    let s1 := _cancel_activity s0 id
    match actFirst found with
    | none => throw (.typeError, s1)
    | some ref => pure (appendHist s1 mp (.activityEvent ref .activityCanceled))
  | .completeProcess result =>
    if mp ∈ s0.live then do
      let s1 ← _cancel_process_internal s0 now mp
      let some pr := getProc s1 mp | throw (.keyError, s1)
      match pr.parent with
      | some par => do
        let some _ := _managed_process s1 par | throw (.keyError, s1)
        let ev : Event := .childProcessEvent mp pr.workflow pr.tags
          (.processCompleted result)
        let s2 := appendHist s1 par ev
        _schedule_decision s2 now par none none
      | none => pure s1
    else pure s0
  | .cancelProcess details =>
    if mp ∈ s0.live then do
      let s1 ← _cancel_process_internal s0 now mp
      let some pr := getProc s1 mp | throw (.keyError, s1)
      match pr.parent with
      | some par => do
        let some _ := _managed_process s1 par | throw (.keyError, s1)
        let ev : Event := .childProcessEvent mp pr.workflow pr.tags
          (.processCanceled details)
        let s2 := appendHist s1 par ev
        _schedule_decision s2 now par none none
      | none => pure s1
    else pure s0
  | .startChildProcess t =>
    let cid := t.id.getD s0.nextId
    let s1 := if t.id.isSome then s0 else { s0 with nextId := s0.nextId + 1 }
    let child : Process := ⟨cid, t.workflow, t.input, t.tags, some taskPid, []⟩
    let s2 := installProc s1 child
    _schedule_decision s2 now cid none none
  | .timer delay =>
    _schedule_decision s0 now mp (some (now + delay)) (some d)

/-- The `for decision in decisions` loop of `complete_decision_task`. -/
def decisionLoop (now : Nat) (taskPid : Pid) (mp : Pid) :
    List Decision → BState → BRes BState
  | [], s => pure s
  | d :: ds, s => do
    let s' ← applyDecision s now taskPid mp d
    decisionLoop now taskPid mp ds s'

/-- `MemoryBackend.complete_decision_task`. -/
def complete_decision_task (s : BState) (now : Nat) (task : DecisionTask)
    (decisions : List Decision) : BRes BState := do
  let s0 ← _time_out_decisions s now
  match lookupA s0.running_decisions task.run_id with
  | none => throw (.unknownDecision, s0)
  | some rd =>
    let s1 := { s0 with running_decisions := eraseA s0.running_decisions task.run_id }
    decisionLoop now task.process_id rd.process decisions s1

/-- `MemoryBackend.process_by_id`: a plain store lookup; an unknown id
raises `KeyError`. -/
def process_by_id (s : BState) (pid : Pid) : BRes Process :=
  match _managed_process s pid with
  | some p => pure p
  | none => throw (.keyError, s)

/-! ### Generic lemmas about the container embedding -/

/-- The scheduled-decision queue of a category (empty when the category has
no queue). -/
def queueOfD (s : BState) (c : String) : List DecEntry :=
  (lookupA s.scheduled_decisions c).getD []

/-- The scheduled-activity queue of a category. -/
def queueOfA (s : BState) (c : String) : List ActEntry :=
  (lookupA s.scheduled_activities c).getD []

theorem lookupA_setA {κ ν : Type} [DecidableEq κ] (l : List (κ × ν)) (k : κ)
    (v : ν) (k' : κ) :
    lookupA (setA l k v) k' = if k = k' then some v else lookupA l k' := by
  induction l with
  | nil =>
    by_cases h : k = k' <;> simp [setA, lookupA, h]
  | cons hd tl ih =>
    obtain ⟨a, b⟩ := hd
    by_cases hak : a = k
    · subst hak
      by_cases h : a = k' <;> simp [setA, lookupA, h]
    · by_cases h : a = k'
      · subst h
        have hk : ¬ k = a := fun hc => hak hc.symm
        simp [setA, lookupA, hak, hk]
      · simp [setA, lookupA, hak, h, ih]

theorem mem_setA {κ ν : Type} [DecidableEq κ] (l : List (κ × ν)) (k : κ)
    (v : ν) (p : κ × ν) (h : p ∈ setA l k v) : p ∈ l ∨ p = (k, v) := by
  induction l with
  | nil => simpa [setA] using h
  | cons hd tl ih =>
    obtain ⟨a, b⟩ := hd
    by_cases hak : a = k
    · subst hak
      rcases (by simpa [setA] using h : p = (a, v) ∨ p ∈ tl) with h1 | h1
      · exact Or.inr h1
      · exact Or.inl (List.mem_cons_of_mem _ h1)
    · rcases (by simpa [setA, hak] using h : p = (a, b) ∨ p ∈ setA tl k v) with h1 | h1
      · exact Or.inl (by simp [h1])
      · rcases ih h1 with h2 | h2
        · exact Or.inl (List.mem_cons_of_mem _ h2)
        · exact Or.inr h2

theorem eraseA_sublist {κ ν : Type} [DecidableEq κ] (l : List (κ × ν)) (k : κ) :
    List.Sublist (eraseA l k) l := by
  induction l with
  | nil => simp [eraseA]
  | cons hd tl ih =>
    obtain ⟨a, b⟩ := hd
    by_cases hak : a = k
    · rw [eraseA, if_pos hak]
      exact List.sublist_cons_self _ _
    · rw [eraseA, if_neg hak]
      exact ih.cons₂ _

theorem mem_eraseA {κ ν : Type} [DecidableEq κ] {l : List (κ × ν)} {k : κ}
    {p : κ × ν} (h : p ∈ eraseA l k) : p ∈ l :=
  (eraseA_sublist l k).mem h

theorem lookupA_eraseA_ne {κ ν : Type} [DecidableEq κ] (l : List (κ × ν))
    (k k' : κ) (hne : k' ≠ k) :
    lookupA (eraseA l k) k' = lookupA l k' := by
  induction l with
  | nil => simp [eraseA]
  | cons hd tl ih =>
    obtain ⟨a, b⟩ := hd
    by_cases hak : a = k
    · subst hak
      simp [eraseA, lookupA, Ne.symm hne]
    · by_cases h' : a = k'
      · subst h'
        simp [eraseA, lookupA, hak]
      · simp [eraseA, lookupA, hak, h', ih]

theorem lookupA_setdefaultA {κ ν : Type} [DecidableEq κ] (l : List (κ × ν))
    (k : κ) (v : ν) (k' : κ) :
    lookupA (setdefaultA l k v) k' =
      if k = k' then some ((lookupA l k).getD v) else lookupA l k' := by
  unfold setdefaultA
  cases hk : lookupA l k with
  | some w =>
    by_cases h : k = k'
    · subst h
      simp [hk]
    · simp [h]
  | none =>
    by_cases h : k = k'
    · subst h
      simp [hk]
      induction l with
      | nil => simp [lookupA]
      | cons hd tl ih =>
        obtain ⟨a, b⟩ := hd
        by_cases hak : a = k
        · simp [lookupA, hak] at hk
        · simp [lookupA, hak] at hk ⊢
          exact ih hk
    · induction l with
      | nil => simp [lookupA, h]
      | cons hd tl ih =>
        obtain ⟨a, b⟩ := hd
        by_cases hak : a = k
        · simp [lookupA, hak] at hk
        · by_cases hak' : a = k'
          · simp [lookupA, hak', h]
          · simp [lookupA, hak, hak'] at hk ⊢
            exact ih hk

theorem removeFirst_eq_erase {α : Type} [DecidableEq α] (a : α) (l : List α) :
    removeFirst a l = l.erase a := by
  induction l with
  | nil => simp [removeFirst]
  | cons x xs ih =>
    by_cases h : x = a
    · subst h
      simp [removeFirst, List.erase_cons_head]
    · have he : (x :: xs).erase a = x :: xs.erase a :=
        List.erase_cons_tail (by simpa using h)
      simp [removeFirst, h, he, ih]

theorem mem_insertEntry {now : Nat} {e x : DecEntry} {l : List DecEntry} :
    x ∈ insertEntry now e l ↔ x = e ∨ x ∈ l := by
  induction l with
  | nil => simp [insertEntry]
  | cons y ys ih =>
    by_cases h : entryKey now e ≤ entryKey now y
    · simp [insertEntry, h]
    · simp [insertEntry, h, ih]
      tauto

theorem mem_sortEntries {now : Nat} {x : DecEntry} {l : List DecEntry} :
    x ∈ sortEntries now l ↔ x ∈ l := by
  induction l with
  | nil => simp [sortEntries]
  | cons y ys ih =>
    simp [sortEntries, mem_insertEntry, ih]

theorem countP_insertEntry (now : Nat) (e : DecEntry) (l : List DecEntry)
    (P : DecEntry → Bool) :
    (insertEntry now e l).countP P = (if P e then 1 else 0) + l.countP P := by
  induction l with
  | nil => by_cases h : P e <;> simp [insertEntry, List.countP_cons, h]
  | cons y ys ih =>
    by_cases h : entryKey now e ≤ entryKey now y
    · by_cases hp : P e <;> simp [insertEntry, h, List.countP_cons, hp] <;> omega
    · by_cases hp : P y <;> simp [insertEntry, h, List.countP_cons, hp, ih] <;> omega

theorem countP_sortEntries (now : Nat) (l : List DecEntry) (P : DecEntry → Bool) :
    (sortEntries now l).countP P = l.countP P := by
  induction l with
  | nil => simp [sortEntries]
  | cons y ys ih =>
    simp [sortEntries, countP_insertEntry, ih, List.countP_cons]
    by_cases hp : P y <;> simp [hp] <;> omega

theorem countP_erase_of_mem {α : Type} [DecidableEq α] {a : α} {l : List α}
    (P : α → Bool) (hmem : a ∈ l) (hP : P a = true) :
    (l.erase a).countP P + 1 = l.countP P := by
  induction l with
  | nil => cases hmem
  | cons x xs ih =>
    by_cases h : x = a
    · subst h
      simp [List.erase_cons_head, List.countP_cons, hP]
    · have hmem' : a ∈ xs := by
        rcases List.mem_cons.mp hmem with h1 | h1
        · exact absurd h1.symm h
        · exact h1
      rw [List.erase_cons_tail (by simpa using h)]
      by_cases hp : P x <;> simp [List.countP_cons, hp, ih hmem'] <;> omega

theorem count_erase_other {α : Type} [DecidableEq α] {a b : α} {l : List α}
    (h : b ≠ a) : (l.erase a).count b = l.count b := by
  rw [List.count_erase]
  simp [Ne.symm h]

theorem countP_erase_le {α : Type} [DecidableEq α] (a : α) (l : List α)
    (P : α → Bool) : (l.erase a).countP P ≤ l.countP P :=
  (List.erase_sublist a l).countP_le P

/-! ### Inversion and characterization lemmas for the helpers -/

/-- The entry inserted by `_schedule_decision`. -/
def newDecEntry (now : Nat) (p : Pid) (st : Option Nat) (tm : Option Decision)
    (desc : WorkflowDesc) : DecEntry :=
  ⟨p, st, if tm.isSome then none else some (now + desc.decision_timeout), tm⟩

theorem lookupA_mem {κ ν : Type} [DecidableEq κ] {l : List (κ × ν)} {k : κ}
    {v : ν} (h : lookupA l k = some v) : (k, v) ∈ l := by
  induction l with
  | nil => simp [lookupA] at h
  | cons hd tl ih =>
    obtain ⟨a, b⟩ := hd
    by_cases hak : a = k
    · subst hak
      simp [lookupA] at h
      simp [h]
    · simp [lookupA, hak] at h
      exact List.mem_cons_of_mem _ (ih h)

theorem keys_setA_of_lookup {κ ν : Type} [DecidableEq κ] {l : List (κ × ν)}
    {k : κ} {w : ν} (h : lookupA l k = some w) (v : ν) :
    (setA l k v).map Prod.fst = l.map Prod.fst := by
  induction l with
  | nil => simp [lookupA] at h
  | cons hd tl ih =>
    obtain ⟨a, b⟩ := hd
    by_cases hak : a = k
    · simp [setA, hak]
    · simp [lookupA, hak] at h
      simp [setA, hak, ih h]

theorem lookup_of_mem_nodup {κ ν : Type} [DecidableEq κ] {l : List (κ × ν)}
    {k : κ} {v : ν} (hnd : (l.map Prod.fst).Nodup) (hm : (k, v) ∈ l) :
    lookupA l k = some v := by
  induction l with
  | nil => cases hm
  | cons hd tl ih =>
    obtain ⟨a, b⟩ := hd
    simp at hnd
    rcases List.mem_cons.mp hm with h1 | h1
    · rw [show k = a from (Prod.mk.injEq .. ▸ h1).1]
      rw [show v = b from (Prod.mk.injEq .. ▸ h1).2]
      simp [lookupA]
    · have hak : ¬ a = k := by
        intro hc
        subst hc
        exact hnd.1 v h1
      simp [lookupA, hak]
      exact ih hnd.2 h1

/-- `self.scheduled_decisions[category] = q`. -/
def withDecQueue (s : BState) (c : String) (q : List DecEntry) : BState :=
  { s with scheduled_decisions := setA s.scheduled_decisions c q }

/-- `self.scheduled_activities[category] = q`. -/
def withActQueue (s : BState) (c : String) (q : List ActEntry) : BState :=
  { s with scheduled_activities := setA s.scheduled_activities c q }

/-- Inversion of `_schedule_decision`: either the de-duplication made it a
no-op, or the new entry was appended and the queue re-sorted. -/
theorem schedule_decision_inv {s : BState} {now : Nat} {p : Pid}
    {st : Option Nat} {tm : Option Decision} {s' : BState}
    (h : _schedule_decision s now p st tm = .ok s') :
    s' = s ∨
    ∃ pr desc q,
      getProc s p = some pr ∧
      lookupA s.workflows pr.workflow = some desc ∧
      lookupA s.scheduled_decisions desc.category = some q ∧
      (tm.isSome ∨ (matchingOf now p st q).length = 0) ∧
      s' = withDecQueue s desc.category
            (sortEntries now (q ++ [newDecEntry now p st tm desc])) := by
  unfold _schedule_decision at h
  cases hpr : getProc s p with
  | none => simp [hpr] at h
  | some pr =>
    cases hdesc : lookupA s.workflows pr.workflow with
    | none => simp [hpr, hdesc] at h
    | some desc =>
      cases hq : lookupA s.scheduled_decisions desc.category with
      | none => simp [hpr, hdesc, hq] at h
      | some q =>
        simp only [hpr, hdesc, hq] at h
        by_cases hc : tm.isSome = true ∨ (matchingOf now p st q).length = 0
        · right
          refine ⟨pr, desc, q, rfl, hdesc, hq, hc, ?_⟩
          rw [if_pos hc] at h
          simp only [pure, Except.pure, Except.ok.injEq] at h
          rw [← h]
          simp [withDecQueue, newDecEntry]
        · left
          rw [if_neg hc] at h
          simp only [pure, Except.pure, Except.ok.injEq] at h
          exact h.symm

/-- Inversion of `_schedule_activity`. -/
theorem schedule_activity_inv {s : BState} {now : Nat} {p : Pid}
    {act id input : String} {cat? : Option String} {s' : BState}
    (h : _schedule_activity s now p act id input cat? = .ok s') :
    ∃ desc q,
      lookupA s.activities act = some desc ∧
      lookupA s.scheduled_activities (cat?.getD desc.category) = some q ∧
      s' = withActQueue s (cat?.getD desc.category)
            (q ++ [⟨⟨act, id, input⟩, p, now + desc.scheduled_timeout⟩]) := by
  unfold _schedule_activity at h
  cases hdesc : lookupA s.activities act with
  | none => simp [hdesc] at h
  | some desc =>
    cases hq : lookupA s.scheduled_activities (cat?.getD desc.category) with
    | none => simp [hdesc, hq] at h
    | some q =>
      refine ⟨desc, q, rfl, hq, ?_⟩
      simp only [hdesc, hq, pure, Except.pure, Except.ok.injEq] at h
      rw [← h]
      simp [withActQueue]

theorem queueOfD_withDecQueue (s : BState) (c : String) (q : List DecEntry)
    (c' : String) :
    queueOfD (withDecQueue s c q) c' = if c = c' then q else queueOfD s c' := by
  by_cases h : c = c' <;> simp [queueOfD, withDecQueue, lookupA_setA, h]

theorem queueOfA_withActQueue (s : BState) (c : String) (q : List ActEntry)
    (c' : String) :
    queueOfA (withActQueue s c q) c' = if c = c' then q else queueOfA s c' := by
  by_cases h : c = c' <;> simp [queueOfA, withActQueue, lookupA_setA, h]

theorem lookupA_map_pair {κ ν : Type} [DecidableEq κ] (l : List (κ × ν))
    (f : κ → ν → ν) (k : κ) :
    lookupA (l.map fun p => (p.1, f p.1 p.2)) k = (lookupA l k).map (f k) := by
  induction l with
  | nil => simp [lookupA]
  | cons hd tl ih =>
    obtain ⟨a, b⟩ := hd
    by_cases h : a = k
    · subst h
      simp [lookupA]
    · simp [lookupA, h, ih]

theorem appendHist_procs (s : BState) (pid : Pid) (ev : Event) :
    (appendHist s pid ev).procs = s.procs.map fun p =>
      (p.1, if p.1 = pid then { p.2 with history := p.2.history ++ [ev] } else p.2) := by
  have h0 : (appendHist s pid ev).procs = s.procs.map fun p =>
      if p.1 = pid then (p.1, { p.2 with history := p.2.history ++ [ev] }) else p := rfl
  rw [h0]
  apply List.map_congr_left
  intro p _
  by_cases h : p.1 = pid <;> simp [h]

theorem getProc_appendHist (s : BState) (pid : Pid) (ev : Event) (q : Pid) :
    getProc (appendHist s pid ev) q =
      (getProc s q).map fun p =>
        if q = pid then { p with history := p.history ++ [ev] } else p := by
  show lookupA (appendHist s pid ev).procs q = _
  rw [appendHist_procs]
  exact lookupA_map_pair s.procs
    (fun k v => if k = pid then { v with history := v.history ++ [ev] } else v) q

/-! ### Invariants and freshness predicates -/

/-- An overdue scheduled-decision entry (`d[2] and d[2] < now`). -/
def staleD (now : Nat) (e : DecEntry) : Bool :=
  match e.expiry with
  | some v => decide (v < now)
  | none => false

/-- Number of overdue entries in a category's decision queue. -/
def staleDCount (s : BState) (c : String) (now : Nat) : Nat :=
  (queueOfD s c).countP (staleD now)

/-- An overdue scheduled-activity entry (`a[2] < now`). -/
def staleA (now : Nat) (e : ActEntry) : Bool := decide (e.expiry < now)

/-- Number of overdue entries in a category's activity queue. -/
def staleACount (s : BState) (c : String) (now : Nat) : Nat :=
  (queueOfA s c).countP (staleA now)

/-- No scheduled activity whose expiry is past, and no running activity
whose execution or heartbeat expiry is past. -/
def actFresh (s : BState) (now : Nat) : Prop :=
  (∀ c, ∀ e ∈ queueOfA s c, now ≤ e.expiry) ∧
  (∀ p ∈ s.running_activities, now ≤ p.2.execExpiry ∧ now ≤ p.2.hbExpiry)

/-- A non-timer entry owned by `p`. -/
def ntOwn (p : Pid) (e : DecEntry) : Bool :=
  decide (e.process = p) && e.timer.isNone

/-- Shape invariant of one scheduled-decision queue: every non-timer entry
has a null start (non-timer entries are only ever inserted with
`start = None`), and each process owns at most one non-timer entry. -/
def QInv (q : List DecEntry) : Prop :=
  (∀ e ∈ q, e.timer = none → e.start = none) ∧
  (∀ p ∈ q.map DecEntry.process, q.countP (ntOwn p) ≤ 1)

/-- The scheduled-decision de-duplication invariant, over every queue in
the map. -/
def decInv (s : BState) : Prop := ∀ pr ∈ s.scheduled_decisions, QInv pr.2

instance (q : List DecEntry) : Decidable (QInv q) := by
  unfold QInv
  infer_instance

instance (s : BState) : Decidable (decInv s) := by
  unfold decInv
  infer_instance

theorem QInv_countP_all {q : List DecEntry} (h : QInv q) (p : Pid) :
    q.countP (ntOwn p) ≤ 1 := by
  by_cases hp : p ∈ q.map DecEntry.process
  · exact h.2 p hp
  · have : q.countP (ntOwn p) = 0 := by
      rw [List.countP_eq_zero]
      intro e he hc
      have : e.process = p := by
        have := (Bool.and_eq_true ..).mp hc
        simpa using this.1
      exact hp (this ▸ List.mem_map_of_mem DecEntry.process he)
    omega

theorem QInv_sublist {q q' : List DecEntry} (hs : List.Sublist q' q)
    (h : QInv q) : QInv q' := by
  constructor
  · intro e he
    exact h.1 e (hs.mem he) 
  · intro p _
    calc q'.countP (ntOwn p) ≤ q.countP (ntOwn p) := hs.countP_le _
    _ ≤ 1 := QInv_countP_all h p

/-! ### Facts about the cancellation cascade -/

/-- Is this event a `TimerEvent`? -/
def isTimerEv : Event → Bool
  | .timerEvent _ => true
  | _ => false

/-- What the cancellation cascade can and cannot do to the state: it never
touches the running tables, the scheduled activities or the id counter; it
only removes processes from the store and entries from the scheduled
decisions; process attributes other than the history are stable; no
`TimerEvent` is appended; a process it removed has no scheduled decision
left and no live child left. -/
structure CancelFacts (s s' : BState) : Prop where
  wf : s'.workflows = s.workflows
  acts : s'.activities = s.activities
  runActs : s'.running_activities = s.running_activities
  runDecs : s'.running_decisions = s.running_decisions
  schedActs : s'.scheduled_activities = s.scheduled_activities
  nid : s'.nextId = s.nextId
  liveSub : ∀ q, q ∈ s'.live → q ∈ s.live
  decSub : ∀ c, List.Sublist (queueOfD s' c) (queueOfD s c)
  parentEq : ∀ q, (getProc s' q).map Process.parent = (getProc s q).map Process.parent
  wfEq : ∀ q, (getProc s' q).map Process.workflow = (getProc s q).map Process.workflow
  tagsEq : ∀ q, (getProc s' q).map Process.tags = (getProc s q).map Process.tags
  timerEq : ∀ q, (getProc s' q).map (fun p => p.history.countP isTimerEv) =
      (getProc s q).map (fun p => p.history.countP isTimerEv)
  pairSub : ∀ pr ∈ s'.scheduled_decisions, ∃ pr0 ∈ s.scheduled_decisions,
      pr.1 = pr0.1 ∧ List.Sublist pr.2 pr0.2
  removedNoEntries : ∀ q, q ∈ s.live → q ∉ s'.live → ∀ c, ∀ e ∈ queueOfD s' c,
      e.process ≠ q
  removedNoChild : ∀ r, r ∈ s.live → r ∉ s'.live → ∀ q, q ∈ s'.live →
      ∀ p, getProc s' q = some p → p.parent ≠ some r

theorem CancelFacts.selfSame (s : BState) : CancelFacts s s where
  wf := rfl
  acts := rfl
  runActs := rfl
  runDecs := rfl
  schedActs := rfl
  nid := rfl
  liveSub := fun _ h => h
  decSub := fun _ => List.Sublist.refl _
  parentEq := fun _ => rfl
  wfEq := fun _ => rfl
  tagsEq := fun _ => rfl
  timerEq := fun _ => rfl
  pairSub := fun pr h => ⟨pr, h, rfl, List.Sublist.refl _⟩
  removedNoEntries := fun _ h1 h2 => absurd h1 h2
  removedNoChild := fun _ h1 h2 => absurd h1 h2

theorem CancelFacts.trans {s s1 s2 : BState} (f1 : CancelFacts s s1)
    (f2 : CancelFacts s1 s2) : CancelFacts s s2 where
  wf := f2.wf.trans f1.wf
  acts := f2.acts.trans f1.acts
  runActs := f2.runActs.trans f1.runActs
  runDecs := f2.runDecs.trans f1.runDecs
  schedActs := f2.schedActs.trans f1.schedActs
  nid := f2.nid.trans f1.nid
  liveSub := fun q h => f1.liveSub q (f2.liveSub q h)
  decSub := fun c => (f2.decSub c).trans (f1.decSub c)
  parentEq := fun q => (f2.parentEq q).trans (f1.parentEq q)
  wfEq := fun q => (f2.wfEq q).trans (f1.wfEq q)
  tagsEq := fun q => (f2.tagsEq q).trans (f1.tagsEq q)
  timerEq := fun q => (f2.timerEq q).trans (f1.timerEq q)
  pairSub := by
    intro pr hpr
    obtain ⟨pr1, hpr1, hk1, hs1⟩ := f2.pairSub pr hpr
    obtain ⟨pr0, hpr0, hk0, hs0⟩ := f1.pairSub pr1 hpr1
    exact ⟨pr0, hpr0, hk1.trans hk0, hs1.trans hs0⟩
  removedNoEntries := by
    intro q hq hq' c e he
    by_cases h1 : q ∈ s1.live
    · exact f2.removedNoEntries q h1 hq' c e he
    · exact f1.removedNoEntries q hq h1 c e ((f2.decSub c).mem he)
  removedNoChild := by
    intro r hr hr' q hq p hp hpar
    by_cases h1 : r ∈ s1.live
    · exact f2.removedNoChild r h1 hr' q hq p hp hpar
    · have hq1 : q ∈ s1.live := f2.liveSub q hq
      have := f2.parentEq q
      rw [hp] at this
      cases hp1 : getProc s1 q with
      | none => rw [hp1] at this; simp at this
      | some p1 =>
        rw [hp1] at this
        simp at this
        exact f1.removedNoChild r hr h1 q hq1 p1 hp1 (by rw [← this]; exact hpar)

theorem cancelFacts_appendHist (s : BState) (pid : Pid) (ev : Event)
    (hev : isTimerEv ev = false) : CancelFacts s (appendHist s pid ev) where
  wf := rfl
  acts := rfl
  runActs := rfl
  runDecs := rfl
  schedActs := rfl
  nid := rfl
  liveSub := fun _ h => h
  decSub := fun _ => List.Sublist.refl _
  parentEq := by
    intro q
    rw [getProc_appendHist]
    cases getProc s q with
    | none => rfl
    | some p => by_cases h : q = pid <;> simp [h]
  wfEq := by
    intro q
    rw [getProc_appendHist]
    cases getProc s q with
    | none => rfl
    | some p => by_cases h : q = pid <;> simp [h]
  tagsEq := by
    intro q
    rw [getProc_appendHist]
    cases getProc s q with
    | none => rfl
    | some p => by_cases h : q = pid <;> simp [h]
  timerEq := by
    intro q
    rw [getProc_appendHist]
    cases getProc s q with
    | none => rfl
    | some p =>
      by_cases h : q = pid <;> simp [h, List.countP_append, hev]
  pairSub := fun pr h => ⟨pr, h, rfl, List.Sublist.refl _⟩
  removedNoEntries := by
    intro q hq hq'
    exact absurd hq hq'
  removedNoChild := by
    intro r hr hr'
    exact absurd hr hr'

theorem queueOfD_cancel_decision (s : BState) (pid : Pid) (c : String) :
    queueOfD (_cancel_decision s pid) c =
      (queueOfD s c).filter fun e => ¬ e.process = pid := by
  unfold queueOfD
  show (lookupA (s.scheduled_decisions.map _) c).getD [] = _
  rw [lookupA_map_pair s.scheduled_decisions
    (fun _ q => q.filter fun e => ¬ e.process = pid) c]
  cases lookupA s.scheduled_decisions c <;> simp

theorem cancelFacts_cancel_decision (s : BState) (pid : Pid) :
    CancelFacts s (_cancel_decision s pid) where
  wf := rfl
  acts := rfl
  runActs := rfl
  runDecs := rfl
  schedActs := rfl
  nid := rfl
  liveSub := fun _ h => h
  decSub := by
    intro c
    rw [queueOfD_cancel_decision]
    exact List.filter_sublist _
  parentEq := fun _ => rfl
  wfEq := fun _ => rfl
  tagsEq := fun _ => rfl
  timerEq := fun _ => rfl
  pairSub := by
    intro pr hpr
    rcases List.mem_map.mp hpr with ⟨pr0, hpr0, hmap⟩
    refine ⟨pr0, hpr0, ?_, ?_⟩
    · rw [← hmap]
    · rw [← hmap]
      exact List.filter_sublist _
  removedNoEntries := by
    intro q hq hq'
    exact absurd hq hq'
  removedNoChild := by
    intro r hr hr'
    exact absurd hr hr'

/-- The combined induction over the cancellation recursion. -/
theorem cancel_facts_all (fuel : Nat) :
    (∀ s now pid dt s', cancelGo fuel s now pid dt = .ok s' →
      CancelFacts s s' ∧ pid ∈ s.live ∧ pid ∉ s'.live) ∧
    (∀ s now pid s', cancelInternalGo fuel s now pid = .ok s' →
      CancelFacts s s' ∧ pid ∈ s.live ∧ pid ∉ s'.live) ∧
    (∀ s now cs s', cancelListGo fuel s now cs = .ok s' →
      CancelFacts s s' ∧ ∀ c ∈ cs, c ∉ s'.live) := by
  induction fuel with
  | zero =>
    refine ⟨?_, ?_, ?_⟩
    · intro s now pid dt s' h
      simp [cancelGo, cancelRun] at h
    · intro s now pid s' h
      simp [cancelInternalGo, cancelRun] at h
    · intro s now cs s' h
      simp [cancelListGo, cancelRun] at h
  | succ n ih =>
    obtain ⟨ihG, ihI, ihL⟩ := ih
    refine ⟨?_, ?_, ?_⟩
    · -- cancel_process
      intro s now pid dt s' h
      simp only [cancelGo, cancelRun] at h
      cases hm : _managed_process s pid with
      | none => simp [hm] at h
      | some pr =>
        simp only [hm] at h
        obtain ⟨f2, _, hout⟩ := ihI _ now pid s' h
        have f1 := cancelFacts_appendHist s pid
          (.decisionEvent (.cancelProcess dt)) rfl
        have hlive : pid ∈ s.live := by
          unfold _managed_process at hm
          by_cases hl : pid ∈ s.live
          · exact hl
          · simp [hl] at hm
        exact ⟨f1.trans f2, hlive, hout⟩
    · -- _cancel_process_internal
      intro s now pid s' h
      simp only [cancelInternalGo, cancelRun] at h
      by_cases hc : pid ∈ (_cancel_decision s pid).live
      · rw [if_pos hc] at h
        obtain ⟨f3, hlist⟩ := ihL _ now _ s' h
        have f1 := cancelFacts_cancel_decision s pid
        have hlive : pid ∈ s.live := hc
        have hpid2 : pid ∉ ((_cancel_decision s pid).live.filter fun q => ¬ q = pid) := by
          simp
        refine ⟨?_, hlive, ?_⟩
        · refine ⟨f3.wf, f3.acts, f3.runActs, f3.runDecs, f3.schedActs, f3.nid,
            ?_, ?_, f3.parentEq, f3.wfEq, f3.tagsEq, f3.timerEq, ?_, ?_, ?_⟩
          · intro q hq
            have := f3.liveSub q hq
            simp at this
            exact this.1
          · intro c
            refine (f3.decSub c).trans ?_
            rw [show queueOfD
                { _cancel_decision s pid with
                  live := (_cancel_decision s pid).live.filter fun q => ¬ q = pid } c =
                queueOfD (_cancel_decision s pid) c from rfl,
              queueOfD_cancel_decision]
            exact List.filter_sublist _
          · intro pr hpr
            obtain ⟨pr1, hpr1, hk1, hs1⟩ := f3.pairSub pr hpr
            have hpr1' : pr1 ∈ (_cancel_decision s pid).scheduled_decisions := hpr1
            rcases List.mem_map.mp hpr1' with ⟨pr0, hpr0, hmap⟩
            refine ⟨pr0, hpr0, ?_, ?_⟩
            · rw [hk1, ← hmap]
            · refine hs1.trans ?_
              rw [← hmap]
              exact List.filter_sublist _
          · intro q hq hq' c e he
            by_cases hq2 : q ∈ ((_cancel_decision s pid).live.filter fun x => ¬ x = pid)
            · exact f3.removedNoEntries q hq2 hq' c e he
            · have hqpid : q = pid := by
                by_contra hne
                exact hq2 (by simpa [hne] using hq)
              subst hqpid
              have he2 := (f3.decSub c).mem he
              rw [show queueOfD
                  { _cancel_decision s q with
                    live := (_cancel_decision s q).live.filter fun x => ¬ x = q } c =
                  queueOfD (_cancel_decision s q) c from rfl,
                queueOfD_cancel_decision] at he2
              have := List.of_mem_filter he2
              simpa using this
          · intro r hr hr' q hq p hp hpar
            by_cases hr2 : r ∈ ((_cancel_decision s pid).live.filter fun x => ¬ x = pid)
            · exact f3.removedNoChild r hr2 hr' q hq p hp hpar
            · have hrpid : r = pid := by
                by_contra hne
                exact hr2 (by simpa [hne] using hr)
              subst hrpid
              have hq2 := f3.liveSub q hq
              have hpeq := f3.parentEq q
              rw [hp] at hpeq
              cases hp2 : getProc ({ _cancel_decision s r with
                  live := (_cancel_decision s r).live.filter fun x => ¬ x = r }) q with
              | none => rw [hp2] at hpeq; simp at hpeq
              | some p2 =>
                rw [hp2] at hpeq
                simp at hpeq
                have hchild : q ∈ childrenOf
                    { _cancel_decision s r with
                      live := (_cancel_decision s r).live.filter fun x => ¬ x = r } r := by
                  unfold childrenOf
                  refine List.mem_filter.mpr ⟨hq2, ?_⟩
                  rw [hp2]
                  simp
                  rw [← hpeq]
                  exact hpar
                have := hlist q hchild
                exact this hq
        · intro hc'
          have := f3.liveSub pid hc'
          simp at this
      · rw [if_neg hc] at h
        simp [throw, throwThe, MonadExceptOf.throw] at h
    · -- the children loop
      intro s now cs s' h
      cases cs with
      | nil =>
        simp only [cancelListGo, cancelRun] at h
        simp only [pure, Except.pure, Except.ok.injEq] at h
        subst h
        exact ⟨CancelFacts.selfSame s, by simp⟩
      | cons cHead cTail =>
        simp only [cancelListGo, cancelRun] at h
        cases hg : cancelRun n s now (.go cHead none) with
        | error e =>
          rw [hg] at h
          simp [Bind.bind, Except.bind] at h
        | ok s1 =>
          rw [hg] at h
          simp only [Bind.bind, Except.bind] at h
          obtain ⟨f1, _, hout⟩ := ihG _ now cHead none _ hg
          obtain ⟨f2, hrest⟩ := ihL _ now cTail s' h
          refine ⟨f1.trans f2, ?_⟩
          intro c hmem
          rcases List.mem_cons.mp hmem with h1 | h1
          · subst h1
            intro hcl
            exact hout (f2.liveSub c hcl)
          · exact hrest c h1

theorem cancel_process_facts {s : BState} {now : Nat} {pid : Pid}
    {dt : Option String} {s' : BState}
    (h : cancel_process s now pid dt = .ok s') :
    CancelFacts s s' ∧ pid ∈ s.live ∧ pid ∉ s'.live :=
  (cancel_facts_all (cancelFuel s)).1 s now pid dt s' h

theorem cancel_internal_facts {s : BState} {now : Nat} {pid : Pid}
    {s' : BState} (h : _cancel_process_internal s now pid = .ok s') :
    CancelFacts s s' ∧ pid ∈ s.live ∧ pid ∉ s'.live :=
  (cancel_facts_all (cancelFuel s)).2.1 s now pid s' h

/-! ### Concrete scenario states

A workflow `wf` (category `d`, workflow-timeout 10, decision-timeout 50)
and an activity `act` (category `a`, all activity timeouts 1000), driven
through the operations at `now = 0`. -/

def tmplW : ProcessTemplate := ⟨"wf", none, "x", [], none⟩

def exBase : BState :=
  register_activity (register_workflow initBackend "wf" "d" 10 50)
    "act" "a" 1000 1000 1000

def exStart : BState :=
  match start_process exBase 0 tmplW with
  | .ok (_, s) => s
  | .error (_, s) => s

def exPolled : BState :=
  match poll_decision_task exStart 0 "d" with
  | .ok (_, s) => s
  | .error (_, s) => s

/-- After the first decision schedules activities `a1`, `a2` and starts a
child process. -/
def exC1pre0 : BState :=
  match complete_decision_task exPolled 0 ⟨1, 2⟩
    [.scheduleActivity "act" "a1" "y" none, .scheduleActivity "act" "a2" "z" none,
     .startChildProcess ⟨"wf", none, "c", [], none⟩] with
  | .ok s => s
  | .error (_, s) => s

/-- `a1` dispatched to a worker (run id 4). -/
def exC1pre1 : BState :=
  match poll_activity_task exC1pre0 0 "a" with
  | .ok (_, s) => s
  | .error (_, s) => s

/-- A signal schedules a fresh decision. -/
def exC1pre2 : BState :=
  match signal_process exC1pre1 0 1 "sig" none with
  | .ok s => s
  | .error (_, s) => s

/-- The decision queue head (the child 3's entry, scheduled before the
signal re-scheduled process 1) is polled (run id 5), so process 1 still
has a scheduled activity (`a2`), a running activity (`a1`, run id 4) and a
scheduled decision, and the child 3 has a running decision (run id 5). -/
def exC1pre : BState :=
  match poll_decision_task exC1pre2 0 "d" with
  | .ok (_, s) => s
  | .error (_, s) => s

/-- The state after `cancel_process(1)`. -/
def exC1post : BState :=
  match cancel_process exC1pre 0 1 none with
  | .ok s => s
  | .error (_, s) => s

/-- C1, counterexample: after `cancel_process(1)` the scheduled-activity
queue and the running-activities table still hold entries referencing the
cancelled process 1, and the running-decisions table still holds an entry
referencing its cancelled descendant 3, contradicting the claim that no
queue references `p` or a descendant after cancellation. -/
theorem C1_counterexample :
    cancel_process exC1pre 0 1 none = .ok exC1post ∧
    exC1post.live = [] ∧
    lookupA exC1post.running_activities 4 =
      some ⟨⟨"act", "a1", "y"⟩, 1, 1000, 1000⟩ ∧
    lookupA exC1post.running_decisions 5 = some ⟨3, 10⟩ ∧
    queueOfA exC1post "a" = [⟨⟨"act", "a2", "z"⟩, 1, 1000⟩] := by
  decide

/-- C1, amended: after a successful `cancel_process(p)`, `p` is no longer
in the store, no *scheduled-decision* queue holds an entry for `p` or for
any process the call removed, and no surviving live process has a removed
process as parent (so all live descendants were removed as well).  The
scheduled-activity queues and the running tables are *not* purged (see the
counterexample). -/
theorem C1_amended_theorem {s : BState} {now : Nat} {pid : Pid}
    {dt : Option String} {s' : BState}
    (h : cancel_process s now pid dt = .ok s') :
    pid ∉ s'.live ∧
    (∀ q, q ∈ s.live → q ∉ s'.live → ∀ c, ∀ e ∈ queueOfD s' c, e.process ≠ q) ∧
    (∀ r, r ∈ s.live → r ∉ s'.live → ∀ q, q ∈ s'.live →
      ∀ p, getProc s' q = some p → p.parent ≠ some r) := by
  obtain ⟨f, _, hout⟩ := cancel_process_facts h
  exact ⟨hout, f.removedNoEntries, f.removedNoChild⟩

/-- C1, witness for the amended theorem at the concrete scenario. -/
theorem C1_amended_witness :
    1 ∉ exC1post.live ∧
    (∀ c, ∀ e ∈ queueOfD exC1post c, e.process ≠ 3) := by
  have h : cancel_process exC1pre 0 1 none = .ok exC1post := by decide
  have h3in : (3 : Pid) ∈ exC1pre.live := by decide
  have h3out : (3 : Pid) ∉ exC1post.live := by decide
  exact ⟨(C1_amended_theorem h).1, (C1_amended_theorem h).2.1 3 h3in h3out⟩

/-- The stale run id 4 is completed after the cancellation: the call
*succeeds* and mutates the state. -/
def exC5post : BState :=
  match complete_activity_task exC1post 1 ⟨⟨"act", "a1", "y"⟩, 1, 4⟩
      (.activityCompleted "z") with
  | .ok s => s
  | .error (_, s) => s

/-- C5, counterexample: after `cancel_process(1)`, the run id 4 dispatched
before the cancellation is still in the running-activities table, and
`complete_activity_task` with it does not raise `UnknownActivity` — it
succeeds and mutates state (appending to the removed record and scheduling
a decision for the removed process). -/
theorem C5_counterexample :
    (lookupA exC1post.running_activities 4).isSome = true ∧
    complete_activity_task exC1post 1 ⟨⟨"act", "a1", "y"⟩, 1, 4⟩
      (.activityCompleted "z") = .ok exC5post ∧
    exC5post ≠ exC1post ∧
    (∃ e ∈ queueOfD exC5post "d", e.process = 1) := by
  decide

/-- C5, amended: `cancel_process` leaves the running-activities table, the
running-decisions table and the scheduled-activity queues exactly
unchanged, so already-dispatched run ids stay known; a subsequent
completion or heartbeat with such a run id succeeds (as long as the entry
has not expired) instead of raising `UnknownActivity`. -/
theorem C5_amended_theorem {s : BState} {now : Nat} {pid : Pid}
    {dt : Option String} {s' : BState}
    (h : cancel_process s now pid dt = .ok s') :
    s'.running_activities = s.running_activities ∧
    s'.running_decisions = s.running_decisions ∧
    s'.scheduled_activities = s.scheduled_activities := by
  obtain ⟨f, _, _⟩ := cancel_process_facts h
  exact ⟨f.runActs, f.runDecs, f.schedActs⟩

/-- C5, witness at the concrete scenario. -/
theorem C5_amended_witness :
    exC1post.running_activities = exC1pre.running_activities ∧
    exC1post.running_decisions = exC1pre.running_decisions ∧
    exC1post.scheduled_activities = exC1pre.scheduled_activities :=
  @C5_amended_theorem exC1pre 0 1 none exC1post (by decide)

/-- C8: `heartbeat_activity_task` with a run id that is absent from the
running-activities table (after the activity sweep) raises `TypeError`
(subscripting `None`), not the graceful "yields none" of the spec; the
sweep may already have mutated state before the crash. -/
theorem C8_theorem {s : BState} {now : Nat} {task : ActivityTask}
    {s0 : BState} (hsweep : _time_out_activities s now = .ok s0)
    (habs : lookupA s0.running_activities task.run_id = none) :
    heartbeat_activity_task s now task = .error (.typeError, s0) := by
  unfold heartbeat_activity_task
  rw [hsweep]
  simp [Bind.bind, Except.bind, habs, throw, throwThe, MonadExceptOf.throw]

/-- C8, witness: an unknown run id at the base state. -/
theorem C8_witness :
    heartbeat_activity_task exBase 0 ⟨⟨"act", "a1", "y"⟩, 1, 99⟩ =
      .error (.typeError, exBase) :=
  C8_theorem (by decide) (by decide)

/-- C9, counterexample: looking up a pid that is not in the store raises a
plain `KeyError`, not a dedicated `UnknownProcess` error (no such error
exists anywhere in the backend). -/
theorem C9_counterexample :
    process_by_id initBackend 7 = .error (.keyError, initBackend) ∧
    BErr.keyError ≠ BErr.unknownProcess := by
  decide

/-- C9, amended: `process_by_id`, and the internal lookups of
`signal_process` and `cancel_process`, fail for a pid absent from the
store — but with Python's generic `KeyError` from the dict access, not
with a dedicated `UnknownProcess` error. -/
theorem C9_amended_theorem {s : BState} {pid : Pid} (h : pid ∉ s.live) :
    process_by_id s pid = .error (.keyError, s) ∧
    (∀ now sig data, signal_process s now pid sig data = .error (.keyError, s)) ∧
    (∀ now dt, cancel_process s now pid dt = .error (.keyError, s)) := by
  have hm : _managed_process s pid = none := by
    unfold _managed_process
    simp [h]
  refine ⟨?_, ?_, ?_⟩
  · unfold process_by_id
    rw [hm]
    rfl
  · intro now sig data
    unfold signal_process
    rw [hm]
    rfl
  · intro now dt
    unfold cancel_process
    have hf : cancelFuel s = (3 * s.live.length + 8) + 1 := by
      unfold cancelFuel
      omega
    rw [hf]
    simp only [cancelGo, cancelRun]
    rw [hm]
    rfl

/-- C9, witness. -/
theorem C9_amended_witness :
    process_by_id exBase 7 = .error (.keyError, exBase) ∧
    cancel_process exBase 0 7 none = .error (.keyError, exBase) := by
  have h := @C9_amended_theorem exBase 7 (by decide)
  exact ⟨h.1, h.2.2 0 none⟩

/-- The batch used for C10: a completion followed by further decisions. -/
def exC10batch : List Decision :=
  [.completeProcess "r", .scheduleActivity "act" "a1" "y" none,
   .completeProcess "r2"]

def exC10post : BState :=
  match complete_decision_task exPolled 0 ⟨1, 2⟩ exC10batch with
  | .ok s => s
  | .error (_, s) => s

/-- C10: after a `CompleteProcess` in a batch, the remaining decisions are
still applied — each appends its `DecisionEvent` to the removed record and
performs its side effect (here: a new scheduled activity referencing the
removed process) — and only a second completion decision becomes a no-op,
guarded by the `id in running_processes` check. -/
theorem C10_theorem :
    (∀ s now taskPid pid r, pid ∉ s.live →
      applyDecision s now taskPid pid (.completeProcess r) =
        .ok (appendHist s pid (.decisionEvent (.completeProcess r)))) ∧
    (complete_decision_task exPolled 0 ⟨1, 2⟩ exC10batch = .ok exC10post ∧
     exC10post.live = [] ∧
     ((getProc exC10post 1).map Process.history).getD [] =
       [.processStarted, .decisionStarted,
        .decisionEvent (.completeProcess "r"),
        .decisionEvent (.scheduleActivity "act" "a1" "y" none),
        .decisionEvent (.completeProcess "r2")] ∧
     queueOfA exC10post "a" = [⟨⟨"act", "a1", "y"⟩, 1, 1000⟩]) := by
  constructor
  · intro s now taskPid pid r h
    have hl : pid ∉ (appendHist s pid (.decisionEvent (.completeProcess r))).live := by
      simpa [appendHist] using h
    simp [applyDecision, hl]
    rfl
  · decide

/-- C10, witness for the guarded-no-op part. -/
theorem C10_witness :
    applyDecision initBackend 0 1 5 (.completeProcess "r") =
      .ok (appendHist initBackend 5 (.decisionEvent (.completeProcess "r"))) :=
  C10_theorem.1 initBackend 0 1 5 "r" (by decide)

/-! C2 scenario: activity with `scheduled-timeout = 1`, clock advanced to 2. -/

def exC2base : BState :=
  register_activity (register_workflow initBackend "wf" "d" 100 50)
    "act" "a" 1 60 30

def exC2start : BState :=
  match start_process exC2base 0 tmplW with
  | .ok (_, s) => s
  | .error (_, s) => s

def exC2polled : BState :=
  match poll_decision_task exC2start 0 "d" with
  | .ok (_, s) => s
  | .error (_, s) => s

/-- The activity `a1` is scheduled at time 0 with expiry 1. -/
def exC2sched : BState :=
  match complete_decision_task exC2polled 0 ⟨1, 2⟩
    [.scheduleActivity "act" "a1" "y" none] with
  | .ok s => s
  | .error (_, s) => s

/-- State after `poll_activity_task` at time 2 popped and discarded the
expired entry. -/
def exC2afterPollAct : BState :=
  match poll_activity_task exC2sched 2 "a" with
  | .ok (_, s) => s
  | .error (_, s) => s

def exC2afterPollDec : BState :=
  match poll_decision_task exC2afterPollAct 2 "d" with
  | .ok (_, s) => s
  | .error (_, s) => s

/-- State after calling `poll_decision_task` at time 2 *without* a prior
`poll_activity_task`: the sweep still finds the expired entry. -/
def exC2direct : BState :=
  match poll_decision_task exC2sched 2 "d" with
  | .ok (_, s) => s
  | .error (_, s) => s

/-- C2, counterexample: `poll_activity_task` at time 2 returns none and
*discards* the expired entry, so the subsequent `poll_decision_task`
returns none and appends no `ActivityTimedOut` — contradicting the claim
that the discarded entry is turned into a timeout by the sweeper on the
next pass. -/
theorem C2_counterexample :
    poll_activity_task exC2sched 2 "a" = .ok (none, exC2afterPollAct) ∧
    queueOfA exC2afterPollAct "a" = [] ∧
    poll_decision_task exC2afterPollAct 2 "d" = .ok (none, exC2afterPollDec) ∧
    ((getProc exC2afterPollDec 1).map Process.history).getD [] =
      [.processStarted, .decisionStarted,
       .decisionEvent (.scheduleActivity "act" "a1" "y" none)] := by
  decide

/-- C2, amended: `poll_activity_task` on the expired entry returns none and
permanently discards it (no timeout event is ever produced for it, and a
subsequent `poll_decision_task` returns none); only when
`poll_decision_task` runs while the entry is still queued does its sweep
remove the entry, append `ActivityEvent(execution, ActivityTimedOut)` and
deliver a decision task for the owning process. -/
theorem C2_amended_theorem :
    poll_activity_task exC2sched 2 "a" = .ok (none, exC2afterPollAct) ∧
    poll_decision_task exC2afterPollAct 2 "d" = .ok (none, exC2afterPollDec) ∧
    ((getProc exC2afterPollDec 1).map Process.history).getD [] =
      [.processStarted, .decisionStarted,
       .decisionEvent (.scheduleActivity "act" "a1" "y" none)] ∧
    poll_decision_task exC2sched 2 "d" = .ok (some ⟨1, 3⟩, exC2direct) ∧
    ((getProc exC2direct 1).map Process.history).getD [] =
      [.processStarted, .decisionStarted,
       .decisionEvent (.scheduleActivity "act" "a1" "y" none),
       .activityEvent (.exec ⟨"act", "a1", "y"⟩) .activityTimedOut,
       .decisionStarted] := by
  decide

/-! ### Behaviour of `_schedule_decision` -/

theorem schedule_decision_fieldsEq {s : BState} {now : Nat} {p : Pid}
    {st : Option Nat} {tm : Option Decision} {s' : BState}
    (h : _schedule_decision s now p st tm = .ok s') :
    s'.workflows = s.workflows ∧ s'.activities = s.activities ∧
    s'.procs = s.procs ∧ s'.live = s.live ∧
    s'.running_activities = s.running_activities ∧
    s'.running_decisions = s.running_decisions ∧
    s'.scheduled_activities = s.scheduled_activities ∧
    s'.nextId = s.nextId := by
  rcases schedule_decision_inv h with heq | ⟨pr, desc, q, _, _, _, _, heq⟩ <;>
    subst heq <;> simp [withDecQueue]

theorem staleD_newDecEntry (now : Nat) (p : Pid) (st : Option Nat)
    (tm : Option Decision) (desc : WorkflowDesc) :
    staleD now (newDecEntry now p st tm desc) = false := by
  unfold newDecEntry staleD
  by_cases h : tm.isSome
  · simp [h]
  · simp [h]

theorem schedule_decision_staleDCount {s : BState} {now : Nat} {p : Pid}
    {st : Option Nat} {tm : Option Decision} {s' : BState}
    (h : _schedule_decision s now p st tm = .ok s') (c : String) :
    staleDCount s' c now = staleDCount s c now := by
  rcases schedule_decision_inv h with heq | ⟨pr, desc, q, h1, h2, h3, _, heq⟩
  · subst heq; rfl
  · subst heq
    rw [staleDCount, staleDCount, queueOfD_withDecQueue]
    by_cases hc : desc.category = c
    · rw [if_pos hc, countP_sortEntries, List.countP_append]
      rw [show queueOfD s c = q from by rw [← hc]; simp [queueOfD, h3]]
      simp [staleD_newDecEntry]
    · rw [if_neg hc]

theorem count_sortEntries (now : Nat) (l : List DecEntry) (e : DecEntry) :
    (sortEntries now l).count e = l.count e := by
  show (sortEntries now l).countP _ = l.countP _
  exact countP_sortEntries now l _

theorem schedule_decision_count_stale {s : BState} {now : Nat} {p : Pid}
    {st : Option Nat} {tm : Option Decision} {s' : BState}
    (h : _schedule_decision s now p st tm = .ok s') (c : String) (e : DecEntry)
    (he : staleD now e = true) :
    (queueOfD s' c).count e = (queueOfD s c).count e := by
  rcases schedule_decision_inv h with heq | ⟨pr, desc, q, h1, h2, h3, _, heq⟩
  · subst heq; rfl
  · subst heq
    rw [queueOfD_withDecQueue]
    by_cases hc : desc.category = c
    · rw [if_pos hc, count_sortEntries, List.count_append]
      rw [show queueOfD s c = q from by rw [← hc]; simp [queueOfD, h3]]
      have hne2 : ¬ (e = newDecEntry now p st tm desc) := by
        intro hcontra
        rw [hcontra, staleD_newDecEntry] at he
        cases he
      simp [List.count_cons, hne2]
    · rw [if_neg hc]

theorem schedule_decision_decInv {s : BState} {now : Nat} {p : Pid}
    {st : Option Nat} {tm : Option Decision} {s' : BState}
    (h : _schedule_decision s now p st tm = .ok s')
    (hcond : tm = none → st = none) (hinv : decInv s) : decInv s' := by
  rcases schedule_decision_inv h with heq | ⟨pr, desc, q, h1, h2, h3, hc, heq⟩
  · subst heq; exact hinv
  · subst heq
    intro pr2 hpr2
    rcases mem_setA _ _ _ _ hpr2 with hold | hnew
    · exact hinv pr2 hold
    · subst hnew
      have hq : QInv q := hinv (desc.category, q) (lookupA_mem h3)
      constructor
      · intro e he htm
        rcases List.mem_append.mp (mem_sortEntries.mp he) with hmem | hnew
        · exact hq.1 e hmem htm
        · rw [List.mem_singleton] at hnew
          subst hnew
          have htm' : tm = none := by simpa [newDecEntry] using htm
          simpa [newDecEntry] using hcond htm'
      · intro p2 _
        rw [countP_sortEntries, List.countP_append]
        by_cases hmatch : ntOwn p2 (newDecEntry now p st tm desc) = true
        · have hp2 : p2 = p := by
            have h1' := (Bool.and_eq_true ..).mp hmatch
            exact (of_decide_eq_true h1'.1).symm
          subst hp2
          have htm : tm = none := by
            have h2' := ((Bool.and_eq_true ..).mp hmatch).2
            have h3' : tm.isNone = true := h2'
            simpa [Option.isNone_iff_eq_none] using h3'
          have hzero : q.countP (ntOwn p2) = 0 := by
            rw [List.countP_eq_zero]
            intro e hmem hnt
            have he1 : e.process = p2 := by
              have := (Bool.and_eq_true ..).mp hnt
              exact of_decide_eq_true this.1
            have he2 : e.timer = none := by
              have := ((Bool.and_eq_true ..).mp hnt).2
              simpa [Option.isNone_iff_eq_none] using this
            have he3 : e.start = none := hq.1 e hmem he2
            have hmem2 : e ∈ matchingOf now p2 st q := by
              unfold matchingOf
              refine List.mem_filter.mpr ⟨List.mem_filter.mpr ⟨hmem, by simp [he1]⟩, ?_⟩
              rw [he3]
            rcases hc with hc | hc
            · rw [htm] at hc
              simp at hc
            · rw [List.length_eq_zero] at hc
              rw [hc] at hmem2
              cases hmem2
          rw [hzero]
          simp [List.countP_cons, hmatch]
        · have hz1 : List.countP (ntOwn p2) [newDecEntry now p st tm desc] = 0 := by
            simp [List.countP_cons, hmatch]
          rw [hz1]
          simpa using QInv_countP_all hq p2

theorem schedule_decision_noop {s : BState} {now : Nat} {p : Pid}
    {st : Option Nat} {pr : Process} {desc : WorkflowDesc} {q : List DecEntry}
    (h1 : getProc s p = some pr)
    (h2 : lookupA s.workflows pr.workflow = some desc)
    (h3 : lookupA s.scheduled_decisions desc.category = some q)
    (hne : (matchingOf now p st q).length ≠ 0) :
    _schedule_decision s now p st none = .ok s := by
  unfold _schedule_decision
  rw [h1]
  simp only [h2, h3]
  rw [if_neg (by simp [hne])]
  rfl

theorem schedule_decision_insert {s : BState} {now : Nat} {p : Pid}
    {st : Option Nat} {pr : Process} {desc : WorkflowDesc} {q : List DecEntry}
    (h1 : getProc s p = some pr)
    (h2 : lookupA s.workflows pr.workflow = some desc)
    (h3 : lookupA s.scheduled_decisions desc.category = some q)
    (hz : (matchingOf now p st q).length = 0) :
    _schedule_decision s now p st none = .ok (withDecQueue s desc.category
      (sortEntries now (q ++ [⟨p, st, some (now + desc.decision_timeout), none⟩]))) := by
  unfold _schedule_decision
  rw [h1]
  simp only [h2, h3]
  rw [if_pos (by simp [hz])]
  rfl

theorem schedule_decision_timer {s : BState} {now : Nat} {p : Pid}
    {st : Option Nat} {d : Decision} {pr : Process} {desc : WorkflowDesc}
    {q : List DecEntry}
    (h1 : getProc s p = some pr)
    (h2 : lookupA s.workflows pr.workflow = some desc)
    (h3 : lookupA s.scheduled_decisions desc.category = some q) :
    _schedule_decision s now p st (some d) = .ok (withDecQueue s desc.category
      (sortEntries now (q ++ [⟨p, st, none, some d⟩]))) := by
  unfold _schedule_decision
  rw [h1]
  simp only [h2, h3]
  rw [if_pos (by simp)]
  rfl

/-! ### What the timeout sweeps eliminate -/

theorem lookupA_none_of_not_mem {κ ν : Type} [DecidableEq κ]
    {l : List (κ × ν)} {k : κ} (h : k ∉ l.map Prod.fst) : lookupA l k = none := by
  induction l with
  | nil => rfl
  | cons hd tl ih =>
    obtain ⟨a, b⟩ := hd
    simp at h
    rw [lookupA, if_neg (fun hc => h.1 hc.symm)]
    exact ih (by simpa using h.2)

theorem not_mem_eraseA_self {κ ν : Type} [DecidableEq κ] {l : List (κ × ν)}
    {k : κ} {v : ν} (hnd : (l.map Prod.fst).Nodup)
    (h : (k, v) ∈ eraseA l k) : False := by
  induction l with
  | nil => cases h
  | cons hd tl ih =>
    obtain ⟨a, b⟩ := hd
    simp at hnd
    by_cases hak : a = k
    · rw [eraseA, if_pos hak] at h
      subst hak
      exact hnd.1 v h
    · rw [eraseA, if_neg hak] at h
      rcases List.mem_cons.mp h with h1 | h1
      · exact hak (congrArg Prod.fst h1).symm
      · exact ih hnd.2 h1

theorem keys_eraseA_sublist {κ ν : Type} [DecidableEq κ] (l : List (κ × ν))
    (k : κ) :
    List.Sublist ((eraseA l k).map Prod.fst) (l.map Prod.fst) :=
  (eraseA_sublist l k).map _

theorem updSchedAct_some {s : BState} {cat : String} {q : List ActEntry}
    (f : List ActEntry → List ActEntry)
    (h : lookupA s.scheduled_activities cat = some q) :
    updSchedAct s cat f = withActQueue s cat (f q) := by
  unfold updSchedAct
  rw [h]
  rfl

theorem updSchedDec_some {s : BState} {cat : String} {q : List DecEntry}
    (f : List DecEntry → List DecEntry)
    (h : lookupA s.scheduled_decisions cat = some q) :
    updSchedDec s cat f = withDecQueue s cat (f q) := by
  unfold updSchedDec
  rw [h]
  rfl

theorem queueOfA_congr {s s' : BState}
    (h : s'.scheduled_activities = s.scheduled_activities) (c : String) :
    queueOfA s' c = queueOfA s c := by
  unfold queueOfA
  rw [h]

theorem queueOfD_congr {s s' : BState}
    (h : s'.scheduled_decisions = s.scheduled_decisions) (c : String) :
    queueOfD s' c = queueOfD s c := by
  unfold queueOfD
  rw [h]

/-- Effect of one run of the scheduled-activities sweep loop over one
category. -/
theorem sweepSchedActs_stale (now : Nat) (cat : String) :
    ∀ (es : List ActEntry) (s s' : BState),
      sweepSchedActs now cat es s = .ok s' →
      (∀ e ∈ es, staleA now e = true) →
      (∀ e ∈ es, es.count e ≤ (queueOfA s cat).count e) →
      staleACount s' cat now + es.length = staleACount s cat now ∧
      (∀ c, c ≠ cat → staleACount s' c now = staleACount s c now) ∧
      s'.running_activities = s.running_activities ∧
      s'.running_decisions = s.running_decisions := by
  intro es
  induction es with
  | nil =>
    intro s s' h _ _
    simp only [sweepSchedActs, pure, Except.pure, Except.ok.injEq] at h
    subst h
    exact ⟨by simp, fun _ _ => rfl, rfl, rfl⟩
  | cons e rest ih =>
    intro s s' h hst hsub
    simp only [sweepSchedActs] at h
    have hcount : 1 ≤ (queueOfA s cat).count e := by
      have := hsub e (List.mem_cons_self e rest)
      have h1 : 1 ≤ (e :: rest).count e := by simp [List.count_cons]
      omega
    have hmem : e ∈ queueOfA s cat := by
      rw [← List.count_pos_iff_mem]
      omega
    have hq : lookupA s.scheduled_activities cat = some (queueOfA s cat) := by
      cases hl : lookupA s.scheduled_activities cat with
      | none =>
        rw [show queueOfA s cat = [] from by simp [queueOfA, hl]] at hmem
        cases hmem
      | some q => simp [queueOfA, hl]
    rw [updSchedAct_some _ hq, removeFirst_eq_erase] at h
    cases hs2 : _schedule_decision (withActQueue s cat ((queueOfA s cat).erase e))
        now e.process none none with
    | error err =>
      rw [hs2] at h
      simp [Bind.bind, Except.bind] at h
    | ok s2 =>
      rw [hs2] at h
      simp only [Bind.bind, Except.bind] at h
      set s3 := appendHist s2 e.process
        (.activityEvent (.exec e.execution) .activityTimedOut) with hs3def
      obtain ⟨ihA, ihB, ihC, ihD⟩ := ih s3 s' h
        (fun x hx => hst x (List.mem_cons_of_mem _ hx))
        (by
          intro x hx
          have hfields := schedule_decision_fieldsEq hs2
          have hq3 : queueOfA s3 cat = (queueOfA s cat).erase e := by
            rw [show queueOfA s3 cat = queueOfA s2 cat from rfl,
              queueOfA_congr hfields.2.2.2.2.2.2.1 cat, queueOfA_withActQueue,
              if_pos rfl]
          rw [hq3, List.count_erase]
          have hx2 := hsub x (List.mem_cons_of_mem _ hx)
          simp only [beq_iff_eq]
          by_cases hxe : e = x
          · rw [if_pos hxe]
            have hx3 : (e :: rest).count x = rest.count x + 1 := by
              simp [List.count_cons, beq_iff_eq, hxe]
            omega
          · rw [if_neg hxe]
            have hx3 : (e :: rest).count x = rest.count x := by
              simp [List.count_cons, beq_iff_eq,
                (show ¬ x = e from fun hc => hxe hc.symm)]
            omega)
      have hfields := schedule_decision_fieldsEq hs2
      have hq3 : queueOfA s3 cat = (queueOfA s cat).erase e := by
        rw [show queueOfA s3 cat = queueOfA s2 cat from rfl,
          queueOfA_congr hfields.2.2.2.2.2.2.1 cat, queueOfA_withActQueue,
          if_pos rfl]
      refine ⟨?_, ?_, ?_, ?_⟩
      · have h1 : staleACount s3 cat now + 1 = staleACount s cat now := by
          show (queueOfA s3 cat).countP (staleA now) + 1 = _
          rw [hq3]
          exact countP_erase_of_mem _ hmem (hst e (List.mem_cons_self e rest))
        simp only [List.length_cons]
        omega
      · intro c hc
        rw [ihB c hc]
        show (queueOfA s3 c).countP _ = _
        rw [show queueOfA s3 c = queueOfA s2 c from rfl,
          queueOfA_congr hfields.2.2.2.2.2.2.1 c, queueOfA_withActQueue,
          if_neg (fun hcc => hc hcc.symm)]
        rfl
      · rw [ihC]
        show s2.running_activities = _
        rw [hfields.2.2.2.2.1]
        rfl
      · rw [ihD]
        show s2.running_decisions = _
        rw [hfields.2.2.2.2.2.1]
        rfl

/-- Effect of the scheduled-activities sweep over a list of categories. -/
theorem sweepSchedActsAll_stale (now : Nat) :
    ∀ (cs : List String) (s s' : BState),
      sweepSchedActsAll now cs s = .ok s' →
      (∀ c ∈ cs, staleACount s' c now = 0) ∧
      (∀ c, staleACount s' c now ≤ staleACount s c now) ∧
      s'.running_activities = s.running_activities ∧
      s'.running_decisions = s.running_decisions := by
  intro cs
  induction cs with
  | nil =>
    intro s s' h
    simp only [sweepSchedActsAll, pure, Except.pure, Except.ok.injEq] at h
    subst h
    exact ⟨by simp, fun _ => Nat.le.refl, rfl, rfl⟩
  | cons c0 rest ih =>
    intro s s' h
    simp only [sweepSchedActsAll] at h
    cases h1 : sweepSchedActs now c0
        (((lookupA s.scheduled_activities c0).getD []).filter
          fun e => decide (e.expiry < now)) s with
    | error err =>
      rw [h1] at h
      simp [Bind.bind, Except.bind] at h
    | ok s1 =>
      rw [h1] at h
      simp only [Bind.bind, Except.bind] at h
      have hst : ∀ e ∈ ((lookupA s.scheduled_activities c0).getD []).filter
          (fun e => decide (e.expiry < now)), staleA now e = true := by
        intro e he
        exact List.of_mem_filter he
      have hsub : ∀ e ∈ ((lookupA s.scheduled_activities c0).getD []).filter
          (fun e => decide (e.expiry < now)),
          (((lookupA s.scheduled_activities c0).getD []).filter
            (fun e => decide (e.expiry < now))).count e ≤
            (queueOfA s c0).count e := by
        intro e _
        exact (List.filter_sublist _).count_le e
      obtain ⟨hA, hB, hC, hD⟩ := sweepSchedActs_stale now c0 _ s s1 h1 hst hsub
      have hlen : (((lookupA s.scheduled_activities c0).getD []).filter
          (fun e => decide (e.expiry < now))).length = staleACount s c0 now := by
        show _ = (queueOfA s c0).countP (staleA now)
        exact (List.countP_eq_length_filter _ _).symm
      obtain ⟨ih1, ih2, ih3, ih4⟩ := ih s1 s' h
      refine ⟨?_, ?_, ih3.trans hC, ih4.trans hD⟩
      · intro c hc
        rcases List.mem_cons.mp hc with hc0 | hcr
        · subst hc0
          have := ih2 c
          omega
        · exact ih1 c hcr
      · intro c
        by_cases hcc : c = c0
        · subst hcc
          have := ih2 c
          omega
        · have := ih2 c
          have := hB c hcc
          omega

/-- Effect of the running-activities sweep. -/
theorem sweepRunActs_fresh (now : Nat) :
    ∀ (es : List (RunId × RunAct)) (s s' : BState),
      sweepRunActs now es s = .ok s' →
      (s.running_activities.map Prod.fst).Nodup →
      (∀ p ∈ s.running_activities,
        (now ≤ p.2.execExpiry ∧ now ≤ p.2.hbExpiry) ∨ p ∈ es) →
      (∀ p ∈ s'.running_activities, now ≤ p.2.execExpiry ∧ now ≤ p.2.hbExpiry) ∧
      s'.scheduled_activities = s.scheduled_activities := by
  intro es
  induction es with
  | nil =>
    intro s s' h hnd hcov
    simp only [sweepRunActs, pure, Except.pure, Except.ok.injEq] at h
    subst h
    refine ⟨?_, rfl⟩
    intro p hp
    rcases hcov p hp with hfresh | habs
    · exact hfresh
    · cases habs
  | cons ia rest ih =>
    obtain ⟨i, a⟩ := ia
    intro s s' h hnd hcov
    simp only [sweepRunActs] at h
    cases hs2 : _schedule_decision
        { s with running_activities := eraseA s.running_activities i }
        now a.process none none with
    | error err =>
      rw [hs2] at h
      simp [Bind.bind, Except.bind] at h
    | ok s2 =>
      rw [hs2] at h
      simp only [Bind.bind, Except.bind] at h
      have hfields := schedule_decision_fieldsEq hs2
      have hra : (appendHist s2 a.process
          (.activityEvent (.exec a.execution) .activityTimedOut)).running_activities =
          eraseA s.running_activities i := by
        show s2.running_activities = _
        rw [hfields.2.2.2.2.1]
      obtain ⟨ih1, ih2⟩ := ih _ s' h
        (by
          rw [hra]
          exact ((keys_eraseA_sublist s.running_activities i).nodup hnd))
        (by
          rw [hra]
          intro p hp
          rcases hcov p (mem_eraseA hp) with hfresh | hmem
          · exact Or.inl hfresh
          · rcases List.mem_cons.mp hmem with hpe | hpr
            · exfalso
              subst hpe
              exact not_mem_eraseA_self hnd hp
            · exact Or.inr hpr)
      refine ⟨ih1, ?_⟩
      rw [ih2]
      show s2.scheduled_activities = _
      rw [hfields.2.2.2.2.2.2.1]

/-- The postcondition of `_time_out_activities`: afterwards no scheduled
activity is overdue and every running activity is within both deadlines. -/
theorem time_out_activities_post {s : BState} {now : Nat} {s' : BState}
    (hnd : (s.running_activities.map Prod.fst).Nodup)
    (h : _time_out_activities s now = .ok s') :
    (∀ c, staleACount s' c now = 0) ∧
    (∀ p ∈ s'.running_activities, now ≤ p.2.execExpiry ∧ now ≤ p.2.hbExpiry) := by
  unfold _time_out_activities at h
  cases h1 : sweepSchedActsAll now (s.scheduled_activities.map Prod.fst) s with
  | error err =>
    rw [h1] at h
    simp [Bind.bind, Except.bind] at h
  | ok s1 =>
    rw [h1] at h
    simp only [Bind.bind, Except.bind] at h
    obtain ⟨hA, hB, hC, _⟩ := sweepSchedActsAll_stale now _ s s1 h1
    obtain ⟨hF, hG⟩ := sweepRunActs_fresh now _ s1 s' h
      (by rw [hC]; exact hnd)
      (by
        intro p hp
        by_cases hfresh : now ≤ p.2.execExpiry ∧ now ≤ p.2.hbExpiry
        · exact Or.inl hfresh
        · refine Or.inr (List.mem_filter.mpr ⟨hp, ?_⟩)
          simp only [decide_eq_true_eq]
          omega)
    refine ⟨?_, hF⟩
    intro c
    have heq : staleACount s' c now = staleACount s1 c now := by
      show (queueOfA s' c).countP _ = _
      rw [queueOfA_congr hG c]
      rfl
    rw [heq]
    by_cases hmem : c ∈ s.scheduled_activities.map Prod.fst
    · exact hA c hmem
    · have hzero : staleACount s c now = 0 := by
        show (queueOfA s c).countP _ = 0
        rw [show queueOfA s c = [] from by
          simp [queueOfA, lookupA_none_of_not_mem hmem]]
        rfl
      have := hB c
      omega

/-- The dict-side effect of a sweep-internal reschedule is exactly a
`_schedule_decision(process)` call with null start and timer. -/
theorem schedDecAliased_proj {al : AliasTab} {s : BState} {now : Nat}
    {p : Pid} {al2 : AliasTab} {s2 : BState}
    (h : schedDecAliased al s now p = .ok (al2, s2)) :
    _schedule_decision s now p none none = .ok s2 := by
  simp only [schedDecAliased] at h
  split at h
  · rename_i pr hpr
    split at h
    · rename_i desc hdesc
      split at h
      · rename_i q hq
        by_cases hm : (matchingOf now p none q).length = 0
        · rw [if_pos hm] at h
          simp only [pure, Except.pure, Except.ok.injEq, Prod.mk.injEq] at h
          obtain ⟨_, hs⟩ := h
          subst hs
          simp only [_schedule_decision, hpr, hdesc, hq]
          rw [if_pos (Or.inr hm)]
          rfl
        · rw [if_neg hm] at h
          simp only [pure, Except.pure, Except.ok.injEq, Prod.mk.injEq] at h
          obtain ⟨_, hs⟩ := h
          subst hs
          simp only [_schedule_decision, hpr, hdesc, hq]
          rw [if_neg (by simp [hm])]
          rfl
      · simp [throw, throwThe, MonadExceptOf.throw] at h
    · simp [throw, throwThe, MonadExceptOf.throw] at h
  · simp [throw, throwThe, MonadExceptOf.throw] at h

/-- `updSchedDec` changes nothing but the scheduled decisions. -/
theorem updSchedDec_fields (s : BState) (cat : String)
    (f : List DecEntry → List DecEntry) :
    (updSchedDec s cat f).workflows = s.workflows ∧
    (updSchedDec s cat f).activities = s.activities ∧
    (updSchedDec s cat f).procs = s.procs ∧
    (updSchedDec s cat f).live = s.live ∧
    (updSchedDec s cat f).running_activities = s.running_activities ∧
    (updSchedDec s cat f).running_decisions = s.running_decisions ∧
    (updSchedDec s cat f).scheduled_activities = s.scheduled_activities ∧
    (updSchedDec s cat f).nextId = s.nextId := by
  unfold updSchedDec
  cases lookupA s.scheduled_decisions cat with
  | none => exact ⟨rfl, rfl, rfl, rfl, rfl, rfl, rfl, rfl⟩
  | some q => exact ⟨rfl, rfl, rfl, rfl, rfl, rfl, rfl, rfl⟩

/-- The aliased removal changes nothing but the scheduled decisions. -/
theorem removeAliasedSt_fields (al : AliasTab) (s : BState) (cat : String)
    (e : DecEntry) :
    (removeAliasedSt al s cat e).workflows = s.workflows ∧
    (removeAliasedSt al s cat e).activities = s.activities ∧
    (removeAliasedSt al s cat e).procs = s.procs ∧
    (removeAliasedSt al s cat e).live = s.live ∧
    (removeAliasedSt al s cat e).running_activities = s.running_activities ∧
    (removeAliasedSt al s cat e).running_decisions = s.running_decisions ∧
    (removeAliasedSt al s cat e).scheduled_activities = s.scheduled_activities ∧
    (removeAliasedSt al s cat e).nextId = s.nextId := by
  unfold removeAliasedSt
  split
  · exact updSchedDec_fields s cat (removeFirst e)
  · exact ⟨rfl, rfl, rfl, rfl, rfl, rfl, rfl, rfl⟩

/-- The scheduled-decisions sweep over one category changes nothing but
the scheduled decisions. -/
theorem sweepSchedDecs_frame (now : Nat) (cat : String) :
    ∀ (es : List DecEntry) (al : AliasTab) (s : BState) (al2 : AliasTab)
      (s2 : BState),
      sweepSchedDecs now cat es al s = .ok (al2, s2) →
      s2.workflows = s.workflows ∧
      s2.activities = s.activities ∧
      s2.procs = s.procs ∧
      s2.live = s.live ∧
      s2.running_activities = s.running_activities ∧
      s2.running_decisions = s.running_decisions ∧
      s2.scheduled_activities = s.scheduled_activities ∧
      s2.nextId = s.nextId := by
  intro es
  induction es with
  | nil =>
    intro al s al2 s2 h
    simp only [sweepSchedDecs, pure, Except.pure, Except.ok.injEq,
      Prod.mk.injEq] at h
    obtain ⟨_, hs⟩ := h
    subst hs
    exact ⟨rfl, rfl, rfl, rfl, rfl, rfl, rfl, rfl⟩
  | cons e es ih =>
    intro al s al2 s2 h
    simp only [sweepSchedDecs, Bind.bind, Except.bind] at h
    cases hsa : schedDecAliased (removeAliasedTab al cat e)
        (removeAliasedSt al s cat e) now e.process with
    | error err => rw [hsa] at h; simp at h
    | ok pr =>
      obtain ⟨al1, s1⟩ := pr
      rw [hsa] at h
      have h0 := removeAliasedSt_fields al s cat e
      have h1 := schedule_decision_fieldsEq (schedDecAliased_proj hsa)
      have h2 := ih al1 s1 al2 s2 h
      exact ⟨h2.1.trans (h1.1.trans h0.1),
        h2.2.1.trans (h1.2.1.trans h0.2.1),
        h2.2.2.1.trans (h1.2.2.1.trans h0.2.2.1),
        h2.2.2.2.1.trans (h1.2.2.2.1.trans h0.2.2.2.1),
        h2.2.2.2.2.1.trans (h1.2.2.2.2.1.trans h0.2.2.2.2.1),
        h2.2.2.2.2.2.1.trans (h1.2.2.2.2.2.1.trans h0.2.2.2.2.2.1),
        h2.2.2.2.2.2.2.1.trans (h1.2.2.2.2.2.2.1.trans h0.2.2.2.2.2.2.1),
        h2.2.2.2.2.2.2.2.trans (h1.2.2.2.2.2.2.2.trans h0.2.2.2.2.2.2.2)⟩

/-- The scheduled-decisions sweep over all snapshot categories changes
nothing but the scheduled decisions. -/
theorem sweepSchedDecsAll_frame (now : Nat) :
    ∀ (cs : List String) (al : AliasTab) (s : BState) (al2 : AliasTab)
      (s2 : BState),
      sweepSchedDecsAll now cs al s = .ok (al2, s2) →
      s2.workflows = s.workflows ∧
      s2.activities = s.activities ∧
      s2.procs = s.procs ∧
      s2.live = s.live ∧
      s2.running_activities = s.running_activities ∧
      s2.running_decisions = s.running_decisions ∧
      s2.scheduled_activities = s.scheduled_activities ∧
      s2.nextId = s.nextId := by
  intro cs
  induction cs with
  | nil =>
    intro al s al2 s2 h
    simp only [sweepSchedDecsAll, pure, Except.pure, Except.ok.injEq,
      Prod.mk.injEq] at h
    obtain ⟨_, hs⟩ := h
    subst hs
    exact ⟨rfl, rfl, rfl, rfl, rfl, rfl, rfl, rfl⟩
  | cons c cs ih =>
    intro al s al2 s2 h
    simp only [sweepSchedDecsAll, Bind.bind, Except.bind] at h
    cases hsw : sweepSchedDecs now c
        ((aliasContents al c).filter
          fun e => match e.expiry with | some v => v < now | none => false)
        al s with
    | error err => rw [hsw] at h; simp at h
    | ok pr =>
      obtain ⟨al1, s1⟩ := pr
      rw [hsw] at h
      have h1 := sweepSchedDecs_frame now c _ al s al1 s1 hsw
      have h2 := ih al1 s1 al2 s2 h
      exact ⟨h2.1.trans h1.1,
        h2.2.1.trans h1.2.1,
        h2.2.2.1.trans h1.2.2.1,
        h2.2.2.2.1.trans h1.2.2.2.1,
        h2.2.2.2.2.1.trans h1.2.2.2.2.1,
        h2.2.2.2.2.2.1.trans h1.2.2.2.2.2.1,
        h2.2.2.2.2.2.2.1.trans h1.2.2.2.2.2.2.1,
        h2.2.2.2.2.2.2.2.trans h1.2.2.2.2.2.2.2⟩


/-- Effect of the running-decisions sweep. -/
theorem sweepRunDecs_fresh (now : Nat) :
    ∀ (es : List (RunId × RunDec)) (s s' : BState),
      sweepRunDecs now es s = .ok s' →
      (s.running_decisions.map Prod.fst).Nodup →
      (∀ p ∈ s.running_decisions, now ≤ p.2.expiry ∨ p ∈ es) →
      (∀ p ∈ s'.running_decisions, now ≤ p.2.expiry) := by
  intro es
  induction es with
  | nil =>
    intro s s' h hnd hcov
    simp only [sweepRunDecs, pure, Except.pure, Except.ok.injEq] at h
    subst h
    intro p hp
    rcases hcov p hp with hfresh | habs
    · exact hfresh
    · cases habs
  | cons ia rest ih =>
    obtain ⟨i, a⟩ := ia
    intro s s' h hnd hcov
    simp only [sweepRunDecs] at h
    cases hs2 : _schedule_decision
        { s with running_decisions := eraseA s.running_decisions i }
        now a.process none none with
    | error err =>
      rw [hs2] at h
      simp [Bind.bind, Except.bind] at h
    | ok s2 =>
      rw [hs2] at h
      simp only [Bind.bind, Except.bind] at h
      have hfields := schedule_decision_fieldsEq hs2
      have hrd : s2.running_decisions = eraseA s.running_decisions i := by
        rw [hfields.2.2.2.2.2.1]
      exact ih s2 s' h
        (by
          rw [hrd]
          exact ((keys_eraseA_sublist s.running_decisions i).nodup hnd))
        (by
          rw [hrd]
          intro p hp
          rcases hcov p (mem_eraseA hp) with hfresh | hmem
          · exact Or.inl hfresh
          · rcases List.mem_cons.mp hmem with hpe | hpr
            · exfalso
              subst hpe
              exact not_mem_eraseA_self hnd hp
            · exact Or.inr hpr)

/-- The postcondition of `_time_out_decisions`: afterwards every running
decision is within its deadline.  (Nothing of the kind holds for the
scheduled queues: once an insert rebinds a category's slot, the loop's
removals land on the dead snapshot object — see the C3 scenario.) -/
theorem time_out_decisions_post {s : BState} {now : Nat} {s' : BState}
    (hnd : (s.running_decisions.map Prod.fst).Nodup)
    (h : _time_out_decisions s now = .ok s') :
    ∀ p ∈ s'.running_decisions, now ≤ p.2.expiry := by
  simp only [_time_out_decisions] at h
  cases h1 : sweepRunDecs now
      (s.running_decisions.filter fun p => decide (p.2.expiry < now)) s with
  | error err =>
    rw [h1] at h
    simp [Bind.bind, Except.bind] at h
  | ok s1 =>
    rw [h1] at h
    simp only [Bind.bind, Except.bind] at h
    have hfresh1 := sweepRunDecs_fresh now _ s s1 h1 hnd
      (by
        intro p hp
        by_cases hf : now ≤ p.2.expiry
        · exact Or.inl hf
        · refine Or.inr (List.mem_filter.mpr ⟨hp, ?_⟩)
          simp only [decide_eq_true_eq]
          omega)
    cases hall : sweepSchedDecsAll now (s1.scheduled_decisions.map Prod.fst)
        (s1.scheduled_decisions.map fun pr => (pr.1, pr.2, true)) s1 with
    | error err => rw [hall] at h; simp at h
    | ok pr =>
      obtain ⟨al2, s2⟩ := pr
      rw [hall] at h
      simp only [pure, Except.pure, Except.ok.injEq] at h
      subst h
      have hC := (sweepSchedDecsAll_frame now _ _ s1 al2 s2 hall).2.2.2.2.2.1
      intro p hp
      rw [hC] at hp
      exact hfresh1 p hp

/-! ### Freshness after the sweeping operations (for C3) -/

theorem actFresh_intro {s : BState} {now : Nat}
    (h1 : ∀ c, staleACount s c now = 0)
    (h2 : ∀ p ∈ s.running_activities, now ≤ p.2.execExpiry ∧ now ≤ p.2.hbExpiry) :
    actFresh s now := by
  constructor
  · intro c e he
    have hz := List.countP_eq_zero.mp (h1 c) e he
    simpa [staleA] using hz
  · exact h2

/-- The running-activities sweep never touches the running decisions. -/
theorem sweepRunActs_frameD (now : Nat) :
    ∀ (es : List (RunId × RunAct)) (s s' : BState),
      sweepRunActs now es s = .ok s' →
      s'.running_decisions = s.running_decisions := by
  intro es
  induction es with
  | nil =>
    intro s s' h
    simp only [sweepRunActs, pure, Except.pure, Except.ok.injEq] at h
    subst h
    rfl
  | cons hd tl ih =>
    obtain ⟨i, a⟩ := hd
    intro s s' h
    simp only [sweepRunActs, Bind.bind, Except.bind] at h
    cases hsch : _schedule_decision
        { s with running_activities := eraseA s.running_activities i }
        now a.process none none with
    | error e => rw [hsch] at h; simp at h
    | ok s2 =>
      rw [hsch] at h
      have h1 := ih _ _ h
      have h2 := (schedule_decision_fieldsEq hsch).2.2.2.2.2.1
      rw [h1]
      exact h2

/-- `_time_out_activities` never touches the running decisions. -/
theorem time_out_activities_runDecs {s : BState} {now : Nat} {s' : BState}
    (h : _time_out_activities s now = .ok s') :
    s'.running_decisions = s.running_decisions := by
  unfold _time_out_activities at h
  cases h1 : sweepSchedActsAll now (s.scheduled_activities.map Prod.fst) s with
  | error err => rw [h1] at h; simp [Bind.bind, Except.bind] at h
  | ok s1 =>
    rw [h1] at h
    simp only [Bind.bind, Except.bind] at h
    have ha := (sweepSchedActsAll_stale now _ s s1 h1).2.2.2
    have hb := sweepRunActs_frameD now _ s1 s' h
    rw [hb, ha]

/-- The running-decisions sweep never touches the activity tables. -/
theorem sweepRunDecs_frameA (now : Nat) :
    ∀ (es : List (RunId × RunDec)) (s s' : BState),
      sweepRunDecs now es s = .ok s' →
      s'.scheduled_activities = s.scheduled_activities ∧
      s'.running_activities = s.running_activities := by
  intro es
  induction es with
  | nil =>
    intro s s' h
    simp only [sweepRunDecs, pure, Except.pure, Except.ok.injEq] at h
    subst h
    exact ⟨rfl, rfl⟩
  | cons hd tl ih =>
    obtain ⟨i, d⟩ := hd
    intro s s' h
    simp only [sweepRunDecs, Bind.bind, Except.bind] at h
    cases hsch : _schedule_decision
        { s with running_decisions := eraseA s.running_decisions i }
        now d.process none none with
    | error e => rw [hsch] at h; simp at h
    | ok s2 =>
      rw [hsch] at h
      have h1 := ih _ _ h
      have h2 := schedule_decision_fieldsEq hsch
      exact ⟨h1.1.trans h2.2.2.2.2.2.2.1, h1.2.trans h2.2.2.2.2.1⟩

/-- `_time_out_decisions` never touches the activity tables. -/
theorem time_out_decisions_frameA {s : BState} {now : Nat} {s' : BState}
    (h : _time_out_decisions s now = .ok s') :
    s'.scheduled_activities = s.scheduled_activities ∧
    s'.running_activities = s.running_activities := by
  simp only [_time_out_decisions] at h
  cases h1 : sweepRunDecs now
      (s.running_decisions.filter fun p => decide (p.2.expiry < now)) s with
  | error err => rw [h1] at h; simp [Bind.bind, Except.bind] at h
  | ok s1 =>
    rw [h1] at h
    simp only [Bind.bind, Except.bind] at h
    have ha := sweepRunDecs_frameA now _ s s1 h1
    cases hall : sweepSchedDecsAll now (s1.scheduled_decisions.map Prod.fst)
        (s1.scheduled_decisions.map fun pr => (pr.1, pr.2, true)) s1 with
    | error err => rw [hall] at h; simp at h
    | ok pr =>
      obtain ⟨al2, s2⟩ := pr
      rw [hall] at h
      simp only [pure, Except.pure, Except.ok.injEq] at h
      subst h
      have hf := sweepSchedDecsAll_frame now _ _ s1 al2 s2 hall
      exact ⟨hf.2.2.2.2.2.2.1.trans ha.1, hf.2.2.2.2.1.trans ha.2⟩

/-- One iteration of the decision loop of `complete_decision_task` never
adds an overdue scheduled decision and never touches the
running-decisions table. -/
theorem applyDecision_decPost {s : BState} {now : Nat} {taskPid mp : Pid}
    {d : Decision} {s' : BState}
    (h : applyDecision s now taskPid mp d = .ok s') :
    (∀ c, staleDCount s' c now ≤ staleDCount s c now) ∧
    s'.running_decisions = s.running_decisions := by
  cases d with
  | scheduleActivity act id input cat =>
    simp only [applyDecision] at h
    obtain ⟨desc, q, hdesc, hq, heq⟩ := schedule_activity_inv h
    subst heq
    exact ⟨fun c => Nat.le_refl _, rfl⟩
  | cancelActivity id =>
    simp only [applyDecision] at h
    split at h
    · simp [throw, throwThe, MonadExceptOf.throw] at h
    · simp only [pure, Except.pure, Except.ok.injEq] at h
      subst h
      exact ⟨fun c => Nat.le_refl _, rfl⟩
  | startChildProcess t =>
    simp only [applyDecision] at h
    refine ⟨fun c => ?_, ?_⟩
    · rw [schedule_decision_staleDCount h c]
      refine le_of_eq ?_
      split <;> rfl
    · rw [(schedule_decision_fieldsEq h).2.2.2.2.2.1]
      split <;> rfl
  | timer delay =>
    simp only [applyDecision] at h
    exact ⟨fun c => le_of_eq (schedule_decision_staleDCount h c),
      (schedule_decision_fieldsEq h).2.2.2.2.2.1⟩
  | completeProcess result =>
    simp only [applyDecision, Bind.bind, Except.bind] at h
    split at h
    · split at h
      · simp at h
      · rename_i s1 hcpi
        obtain ⟨cf, _, _⟩ := cancel_internal_facts hcpi
        split at h
        · split at h
          · split at h
            · have hcnt := fun c => schedule_decision_staleDCount h c
              have hfr := (schedule_decision_fieldsEq h).2.2.2.2.2.1
              refine ⟨fun c => ?_, ?_⟩
              · rw [hcnt c]
                exact List.Sublist.countP_le _ (cf.decSub c)
              · rw [hfr]
                exact cf.runDecs
            · simp [throw, throwThe, MonadExceptOf.throw] at h
          · simp only [pure, Except.pure, Except.ok.injEq] at h
            subst h
            exact ⟨fun c => List.Sublist.countP_le _ (cf.decSub c), cf.runDecs⟩
        · simp [throw, throwThe, MonadExceptOf.throw] at h
    · simp only [pure, Except.pure, Except.ok.injEq] at h
      subst h
      exact ⟨fun c => Nat.le_refl _, rfl⟩
  | cancelProcess details =>
    simp only [applyDecision, Bind.bind, Except.bind] at h
    split at h
    · split at h
      · simp at h
      · rename_i s1 hcpi
        obtain ⟨cf, _, _⟩ := cancel_internal_facts hcpi
        split at h
        · split at h
          · split at h
            · have hcnt := fun c => schedule_decision_staleDCount h c
              have hfr := (schedule_decision_fieldsEq h).2.2.2.2.2.1
              refine ⟨fun c => ?_, ?_⟩
              · rw [hcnt c]
                exact List.Sublist.countP_le _ (cf.decSub c)
              · rw [hfr]
                exact cf.runDecs
            · simp [throw, throwThe, MonadExceptOf.throw] at h
          · simp only [pure, Except.pure, Except.ok.injEq] at h
            subst h
            exact ⟨fun c => List.Sublist.countP_le _ (cf.decSub c), cf.runDecs⟩
        · simp [throw, throwThe, MonadExceptOf.throw] at h
    · simp only [pure, Except.pure, Except.ok.injEq] at h
      subst h
      exact ⟨fun c => Nat.le_refl _, rfl⟩

/-- The decision loop of `complete_decision_task` never adds an overdue
scheduled decision and never touches the running-decisions table. -/
theorem decisionLoop_decPost (now : Nat) (taskPid mp : Pid) :
    ∀ (ds : List Decision) (s s' : BState),
      decisionLoop now taskPid mp ds s = .ok s' →
      (∀ c, staleDCount s' c now ≤ staleDCount s c now) ∧
      s'.running_decisions = s.running_decisions := by
  intro ds
  induction ds with
  | nil =>
    intro s s' h
    simp only [decisionLoop, pure, Except.pure, Except.ok.injEq] at h
    subst h
    exact ⟨fun c => Nat.le_refl _, rfl⟩
  | cons d rest ih =>
    intro s s' h
    simp only [decisionLoop, Bind.bind, Except.bind] at h
    cases hd : applyDecision s now taskPid mp d with
    | error e => rw [hd] at h; simp at h
    | ok s1 =>
      rw [hd] at h
      obtain ⟨h1, h2⟩ := applyDecision_decPost hd
      obtain ⟨h3, h4⟩ := ih s1 s' h
      exact ⟨fun c => Nat.le_trans (h3 c) (h1 c), h4.trans h2⟩

/-- A successful heartbeat leaves no overdue activity anywhere (the sweep
has run and the refreshed entry is fresh). -/
theorem heartbeat_fresh {s : BState} {now : Nat} {task : ActivityTask}
    {s' : BState}
    (hnd : (s.running_activities.map Prod.fst).Nodup)
    (h : heartbeat_activity_task s now task = .ok s') :
    actFresh s' now := by
  simp only [heartbeat_activity_task, Bind.bind, Except.bind] at h
  cases hsw : _time_out_activities s now with
  | error e => rw [hsw] at h; simp at h
  | ok s0 =>
    simp only [hsw] at h
    obtain ⟨hz, hfr⟩ := time_out_activities_post hnd hsw
    split at h
    · simp [throw, throwThe, MonadExceptOf.throw] at h
    · rename_i a hlook
      split at h
      · rename_i desc hdesc
        simp only [pure, Except.pure, Except.ok.injEq] at h
        subst h
        refine actFresh_intro (fun c => hz c) ?_
        intro p hp
        rcases mem_setA _ _ _ _ hp with hmem | heq
        · exact hfr p hmem
        · subst heq
          exact ⟨(hfr (task.run_id, a) (lookupA_mem hlook)).1,
            Nat.le_add_right now desc.heartbeat_timeout⟩
      · simp [throw, throwThe, MonadExceptOf.throw] at h

/-- A successful activity completion leaves no overdue activity anywhere. -/
theorem complete_activity_fresh {s : BState} {now : Nat}
    {task : ActivityTask} {result : Outcome} {s' : BState}
    (hnd : (s.running_activities.map Prod.fst).Nodup)
    (h : complete_activity_task s now task result = .ok s') :
    actFresh s' now := by
  simp only [complete_activity_task, Bind.bind, Except.bind] at h
  cases hsw : _time_out_activities s now with
  | error e => rw [hsw] at h; simp at h
  | ok s0 =>
    simp only [hsw] at h
    obtain ⟨hz, hfr⟩ := time_out_activities_post hnd hsw
    split at h
    · simp [throw, throwThe, MonadExceptOf.throw] at h
    · rename_i a hlook
      have hflds := schedule_decision_fieldsEq h
      constructor
      · intro c e he
        have hqe : queueOfA s' c = queueOfA s0 c :=
          queueOfA_congr hflds.2.2.2.2.2.2.1 c
        rw [hqe] at he
        have := List.countP_eq_zero.mp (hz c) e he
        simpa [staleA] using this
      · intro p hp
        rw [hflds.2.2.2.2.1] at hp
        exact hfr p (mem_eraseA hp)

/-- A successful decision completion leaves no overdue *running*
decision.  (The scheduled queues get no such guarantee: the sweep's
removals go through the dead snapshot object once a reschedule has
rebound the slot.) -/
theorem complete_decision_fresh {s : BState} {now : Nat}
    {task : DecisionTask} {decisions : List Decision} {s' : BState}
    (hnd : (s.running_decisions.map Prod.fst).Nodup)
    (h : complete_decision_task s now task decisions = .ok s') :
    ∀ p ∈ s'.running_decisions, now ≤ p.2.expiry := by
  simp only [complete_decision_task, Bind.bind, Except.bind] at h
  cases hsw : _time_out_decisions s now with
  | error e => rw [hsw] at h; simp at h
  | ok s0 =>
    simp only [hsw] at h
    have hfr := time_out_decisions_post hnd hsw
    split at h
    · simp [throw, throwThe, MonadExceptOf.throw] at h
    · rename_i rd hlook
      obtain ⟨h1, h2⟩ := decisionLoop_decPost now task.process_id rd.process
        decisions _ s' h
      intro p hp
      rw [h2] at hp
      exact hfr p (mem_eraseA hp)

theorem updSchedDec_ite_some {s : BState} {b : Prop} [Decidable b]
    {p : Pid} {ev : Event} {cat : String} {q : List DecEntry}
    (f : List DecEntry → List DecEntry)
    (hq : lookupA s.scheduled_decisions cat = some q) :
    updSchedDec (if b then appendHist s p ev else s) cat f =
      withDecQueue (if b then appendHist s p ev else s) cat (f q) := by
  split
  · exact updSchedDec_some f hq
  · exact updSchedDec_some f hq

/-- The post-sweep part of `poll_decision_task` only removes scheduled
decisions, inserts at most one fresh running decision, and leaves the
activity tables alone. -/
theorem pollDecisionCore_post {s : BState} {now : Nat} {category : String}
    {r : Option DecisionTask} {s' : BState}
    (h : pollDecisionCore s now category = .ok (r, s')) :
    (∀ c, staleDCount s' c now ≤ staleDCount s c now) ∧
    (∀ p ∈ s'.running_decisions, p ∈ s.running_decisions ∨ now ≤ p.2.expiry) ∧
    s'.running_activities = s.running_activities ∧
    s'.scheduled_activities = s.scheduled_activities := by
  simp only [pollDecisionCore, Bind.bind, Except.bind] at h
  split at h
  · rename_i q hq
    split at h
    · simp only [pure, Except.pure, Except.ok.injEq, Prod.mk.injEq] at h
      obtain ⟨hr, hs⟩ := h
      subst hs
      exact ⟨fun c => Nat.le_refl _, fun p hp => Or.inl hp, rfl, rfl⟩
    · rename_i e hfe
      rw [updSchedDec_ite_some (removeFirst e) hq] at h
      split at h
      · rename_i pr hpr
        split at h
        · rename_i desc hdesc
          simp only [pure, Except.pure, Except.ok.injEq, Prod.mk.injEq] at h
          obtain ⟨hr, hs⟩ := h
          subst hs
          refine ⟨fun c => ?_, fun p hp => ?_, by split; rfl; rfl, by split; rfl; rfl⟩
          · have hle : List.Sublist (removeFirst e q) q := by
              rw [removeFirst_eq_erase]
              exact List.erase_sublist e q
            by_cases hcc : category = c
            · subst hcc
              simp only [staleDCount,
                show queueOfD s category = q from by simp [queueOfD, hq]]
              split
              · simp only [queueOfD, withDecQueue, appendHist, lookupA_setA,
                  if_pos rfl, Option.getD_some]
                exact hle.countP_le _
              · simp only [queueOfD, withDecQueue, appendHist, lookupA_setA,
                  if_pos rfl, Option.getD_some]
                exact hle.countP_le _
            · simp only [staleDCount]
              split
              · simp [queueOfD, withDecQueue, appendHist, lookupA_setA, hcc]
              · simp [queueOfD, withDecQueue, appendHist, lookupA_setA, hcc]
          · split at hp
            · rcases mem_setA _ _ _ _ hp with hm | heqp
              · exact Or.inl hm
              · right
                rw [heqp]
                exact Nat.le_add_right now desc.timeout
            · rcases mem_setA _ _ _ _ hp with hm | heqp
              · exact Or.inl hm
              · right
                rw [heqp]
                exact Nat.le_add_right now desc.timeout
        · simp [throw, throwThe, MonadExceptOf.throw] at h
      · simp [throw, throwThe, MonadExceptOf.throw] at h
  · simp [throw, throwThe, MonadExceptOf.throw] at h

/-- A successful decision poll leaves no overdue activity and no overdue
*running* decision.  (Overdue scheduled decisions can survive the sweep's
dead-alias removals.) -/
theorem poll_decision_fresh {s : BState} {now : Nat} {category : String}
    {r : Option DecisionTask} {s' : BState}
    (hndA : (s.running_activities.map Prod.fst).Nodup)
    (hndD : (s.running_decisions.map Prod.fst).Nodup)
    (h : poll_decision_task s now category = .ok (r, s')) :
    actFresh s' now ∧ ∀ p ∈ s'.running_decisions, now ≤ p.2.expiry := by
  simp only [poll_decision_task, Bind.bind, Except.bind] at h
  cases hsw1 : _time_out_activities s now with
  | error e => rw [hsw1] at h; simp at h
  | ok s1 =>
    simp only [hsw1] at h
    cases hsw2 : _time_out_decisions s1 now with
    | error e => rw [hsw2] at h; simp at h
    | ok s2 =>
      simp only [hsw2] at h
      obtain ⟨hzA, hfrA⟩ := time_out_activities_post hndA hsw1
      have hfr1 : s1.running_decisions = s.running_decisions :=
        time_out_activities_runDecs hsw1
      have hfrD := time_out_decisions_post (hfr1 ▸ hndD) hsw2
      obtain ⟨hfA2, hrA2⟩ := time_out_decisions_frameA hsw2
      obtain ⟨c1, c2, c3, c4⟩ := pollDecisionCore_post h
      constructor
      · refine actFresh_intro (fun c => ?_) ?_
        · show (queueOfA s' c).countP _ = 0
          rw [queueOfA_congr c4 c, queueOfA_congr hfA2 c]
          exact hzA c
        · intro p hp
          rw [c3, hrA2] at hp
          exact hfrA p hp
      · intro p hp
        rcases c2 p hp with hm | hfre
        · exact hfrD p hm
        · exact hfre

/-! ### C3: the sweep at the entry of the four operations -/

/-- The first decision schedules one activity `a1`. -/
def exC3a : BState :=
  match complete_decision_task exPolled 0 ⟨1, 2⟩
    [.scheduleActivity "act" "a1" "y" none] with
  | .ok s => s
  | .error (_, s) => s

/-- `a1` dispatched to a worker (run id 3). -/
def exC3b : BState :=
  match poll_activity_task exC3a 0 "a" with
  | .ok (_, s) => s
  | .error (_, s) => s

/-- A signal schedules a fresh decision for process 1. -/
def exC3c : BState :=
  match signal_process exC3b 0 1 "sig" none with
  | .ok s => s
  | .error (_, s) => s

/-- The decision is polled (run id 4), so the running-decisions table holds
`(4, (1, expiry 10))`. -/
def exC3d : BState :=
  match poll_decision_task exC3c 0 "d" with
  | .ok (_, s) => s
  | .error (_, s) => s

/-- A heartbeat for run id 3 at `now = 50`, long after the running
decision's expiry 10 has passed. -/
def exC3post : BState :=
  match heartbeat_activity_task exC3d 50 ⟨⟨"act", "a1", "y"⟩, 1, 3⟩ with
  | .ok s => s
  | .error (_, s) => s

/-- C3, counterexample: the claim says every one of the four operations
runs the *full* timeout sweep, removing overdue running decisions among
others.  But `heartbeat_activity_task` (like `complete_activity_task`)
only calls `_time_out_activities`: at `now = 50` the heartbeat succeeds
while the running decision `(4, (1, expiry 10))`, overdue since time 10,
stays in the running-decisions table untouched. -/
theorem C3_counterexample :
    heartbeat_activity_task exC3d 50 ⟨⟨"act", "a1", "y"⟩, 1, 3⟩ =
      .ok exC3post ∧
    lookupA exC3d.running_decisions 4 = some ⟨1, 10⟩ ∧
    10 < 50 ∧
    lookupA exC3post.running_decisions 4 = some ⟨1, 10⟩ := by
  decide

/-- A workflow with a long workflow-timeout 1000 and a short
decision-timeout 5. -/
def exW0 : BState := register_workflow initBackend "wf" "d" 1000 5

/-- Process 1 started at time 0. -/
def exW1 : BState :=
  match start_process exW0 0 tmplW with
  | .ok (_, s) => s
  | .error (_, s) => s

/-- Process 1's decision polled (run id 2, running expiry 1000). -/
def exW2 : BState :=
  match poll_decision_task exW1 0 "d" with
  | .ok (_, s) => s
  | .error (_, s) => s

/-- Process 3 started: queue `d` holds its decision, expiry 5. -/
def exW3 : BState :=
  match start_process exW2 0 tmplW with
  | .ok (_, s) => s
  | .error (_, s) => s

/-- Process 4 started: queue `d` holds two decisions, both expiry 5. -/
def exW4 : BState :=
  match start_process exW3 0 tmplW with
  | .ok (_, s) => s
  | .error (_, s) => s

/-- Process 1's decision completed at time 10, after both scheduled
entries have expired. -/
def exWpost : BState :=
  match complete_decision_task exW4 10 ⟨1, 2⟩ [] with
  | .ok s => s
  | .error (_, s) => s

/-- C3, amended: each operation runs only the sweep matching its own kind
— `heartbeat_activity_task` and `complete_activity_task` call only
`_time_out_activities`, `complete_decision_task` calls only
`_time_out_decisions`, and `poll_decision_task` calls both.  The activity
sweep is complete: for running tables with distinct keys, after a
successful heartbeat or activity completion no scheduled or running
activity anywhere is overdue, and likewise after a decision poll.  The
decision sweep is complete only for *running* decisions: after a
successful decision completion or poll no running decision is overdue.
Overdue *scheduled* decisions are only removed until `_schedule_decision`
first rebinds the category's queue to a fresh sorted list: from then on
the loop removes from the dead snapshot object, so a second expired entry
survives overdue in the real queue and its owner is dedup-blocked — the
final concrete conjunct exhibits this leak. -/
theorem C3_amended_theorem :
    (∀ (s : BState) (now : Nat) (task : ActivityTask) (s' : BState),
      (s.running_activities.map Prod.fst).Nodup →
      heartbeat_activity_task s now task = .ok s' → actFresh s' now) ∧
    (∀ (s : BState) (now : Nat) (task : ActivityTask) (result : Outcome)
      (s' : BState),
      (s.running_activities.map Prod.fst).Nodup →
      complete_activity_task s now task result = .ok s' → actFresh s' now) ∧
    (∀ (s : BState) (now : Nat) (task : DecisionTask) (ds : List Decision)
      (s' : BState),
      (s.running_decisions.map Prod.fst).Nodup →
      complete_decision_task s now task ds = .ok s' →
      ∀ p ∈ s'.running_decisions, now ≤ p.2.expiry) ∧
    (∀ (s : BState) (now : Nat) (category : String) (r : Option DecisionTask)
      (s' : BState),
      (s.running_activities.map Prod.fst).Nodup →
      (s.running_decisions.map Prod.fst).Nodup →
      poll_decision_task s now category = .ok (r, s') →
      actFresh s' now ∧ ∀ p ∈ s'.running_decisions, now ≤ p.2.expiry) ∧
    (queueOfD exW4 "d" =
      [⟨3, none, some 5, none⟩, ⟨4, none, some 5, none⟩] ∧
     complete_decision_task exW4 10 ⟨1, 2⟩ [] = .ok exWpost ∧
     queueOfD exWpost "d" =
      [⟨4, none, some 5, none⟩, ⟨3, none, some 15, none⟩] ∧
     staleD 10 ⟨4, none, some 5, none⟩ = true) :=
  ⟨fun _ _ _ _ hnd h => heartbeat_fresh hnd h,
   fun _ _ _ _ _ hnd h => complete_activity_fresh hnd h,
   fun _ _ _ _ _ hnd h => complete_decision_fresh hnd h,
   fun _ _ _ _ _ hndA hndD h => poll_decision_fresh hndA hndD h,
   by decide⟩

/-- C3, witness: the amended theorem applied to the concrete heartbeat at
time 50, the concrete decision poll at time 0, and the concrete decision
completion at time 10. -/
theorem C3_amended_witness :
    actFresh exC3post 50 ∧
    (actFresh exC3d 0 ∧ ∀ p ∈ exC3d.running_decisions, (0 : Nat) ≤ p.2.expiry) ∧
    (∀ p ∈ exWpost.running_decisions, 10 ≤ p.2.expiry) := by
  have h1 := C3_amended_theorem.1 exC3d 50 ⟨⟨"act", "a1", "y"⟩, 1, 3⟩ exC3post
    (by decide) (by decide)
  have h4 := C3_amended_theorem.2.2.2.1 exC3c 0 "d" (some ⟨1, 4⟩) exC3d
    (by decide) (by decide) (by decide)
  have h3 := C3_amended_theorem.2.2.1 exW4 10 ⟨1, 2⟩ [] exWpost
    (by decide) (by decide)
  exact ⟨h1, ⟨h4.1, h4.2⟩, h3⟩

/-! ### C6: preservation of the de-duplication invariant -/

theorem decInv_congr {s s' : BState}
    (h : s'.scheduled_decisions = s.scheduled_decisions) (hi : decInv s) :
    decInv s' := by
  intro pr hpr
  exact hi pr (h ▸ hpr)

theorem decInv_pairSub {s s' : BState}
    (h : ∀ pr ∈ s'.scheduled_decisions, ∃ pr0 ∈ s.scheduled_decisions,
      pr.1 = pr0.1 ∧ List.Sublist pr.2 pr0.2) (hi : decInv s) : decInv s' := by
  intro pr hpr
  obtain ⟨pr0, hpr0, _, hsub⟩ := h pr hpr
  exact QInv_sublist hsub (hi pr0 hpr0)

theorem mem_setdefaultA {κ ν : Type} [DecidableEq κ] {l : List (κ × ν)}
    {key : κ} {v : ν} {p : κ × ν} (h : p ∈ setdefaultA l key v) :
    p ∈ l ∨ p = (key, v) := by
  unfold setdefaultA at h
  cases hk : lookupA l key with
  | some w => rw [hk] at h; exact Or.inl h
  | none =>
    rw [hk] at h
    rcases List.mem_append.mp h with h1 | h1
    · exact Or.inl h1
    · exact Or.inr (List.mem_singleton.mp h1)

theorem decInv_updSchedDec_removeFirst {s : BState} {cat : String}
    {e : DecEntry} (hi : decInv s) :
    decInv (updSchedDec s cat (removeFirst e)) := by
  unfold updSchedDec
  cases hq : lookupA s.scheduled_decisions cat with
  | none => exact hi
  | some q =>
    intro pr hpr
    rcases mem_setA _ _ _ _ hpr with hold | hnew
    · exact hi pr hold
    · subst hnew
      have hsub : List.Sublist (removeFirst e q) q := by
        rw [removeFirst_eq_erase]
        exact List.erase_sublist e q
      exact QInv_sublist hsub (hi (cat, q) (lookupA_mem hq))

theorem register_workflow_decInv {s : BState} {name cat : String}
    {t dt : Nat} (hi : decInv s) :
    decInv (register_workflow s name cat t dt) := by
  intro pr hpr
  rcases mem_setdefaultA hpr with hold | hnew
  · exact hi pr hold
  · subst hnew
    exact ⟨fun e he => absurd he (List.not_mem_nil e), fun p hp => by simp⟩

theorem schedule_nn_decInv {s : BState} {now : Nat} {p : Pid} {s' : BState}
    (h : _schedule_decision s now p none none = .ok s') (hi : decInv s) :
    decInv s' :=
  schedule_decision_decInv h (fun _ => rfl) hi

theorem schedule_timer_decInv {s : BState} {now : Nat} {p : Pid}
    {st : Option Nat} {d : Decision} {s' : BState}
    (h : _schedule_decision s now p st (some d) = .ok s') (hi : decInv s) :
    decInv s' :=
  schedule_decision_decInv h (fun hc => absurd hc (by simp)) hi

theorem applyDecision_decInv {s : BState} {now : Nat} {taskPid mp : Pid}
    {d : Decision} {s' : BState}
    (h : applyDecision s now taskPid mp d = .ok s') (hi : decInv s) :
    decInv s' := by
  have hi0 : ∀ pid ev, decInv (appendHist s pid ev) := fun pid ev =>
    decInv_congr rfl hi
  cases d with
  | scheduleActivity act id input cat =>
    simp only [applyDecision] at h
    obtain ⟨desc, q, hdesc, hq, heq⟩ := schedule_activity_inv h
    subst heq
    exact decInv_congr rfl hi
  | cancelActivity id =>
    simp only [applyDecision] at h
    split at h
    · simp [throw, throwThe, MonadExceptOf.throw] at h
    · simp only [pure, Except.pure, Except.ok.injEq] at h
      subst h
      exact decInv_congr rfl hi
  | startChildProcess t =>
    simp only [applyDecision] at h
    refine schedule_nn_decInv h ?_
    refine decInv_congr ?_ hi
    split <;> rfl
  | timer delay =>
    simp only [applyDecision] at h
    exact schedule_timer_decInv h (decInv_congr rfl hi)
  | completeProcess result =>
    simp only [applyDecision, Bind.bind, Except.bind] at h
    split at h
    · split at h
      · simp at h
      · rename_i s1 hcpi
        obtain ⟨cf, _, _⟩ := cancel_internal_facts hcpi
        have hi1 : decInv s1 := decInv_pairSub cf.pairSub (decInv_congr rfl hi)
        split at h
        · split at h
          · split at h
            · exact schedule_nn_decInv h (decInv_congr rfl hi1)
            · simp [throw, throwThe, MonadExceptOf.throw] at h
          · simp only [pure, Except.pure, Except.ok.injEq] at h
            subst h
            exact hi1
        · simp [throw, throwThe, MonadExceptOf.throw] at h
    · simp only [pure, Except.pure, Except.ok.injEq] at h
      subst h
      exact decInv_congr rfl hi
  | cancelProcess details =>
    simp only [applyDecision, Bind.bind, Except.bind] at h
    split at h
    · split at h
      · simp at h
      · rename_i s1 hcpi
        obtain ⟨cf, _, _⟩ := cancel_internal_facts hcpi
        have hi1 : decInv s1 := decInv_pairSub cf.pairSub (decInv_congr rfl hi)
        split at h
        · split at h
          · split at h
            · exact schedule_nn_decInv h (decInv_congr rfl hi1)
            · simp [throw, throwThe, MonadExceptOf.throw] at h
          · simp only [pure, Except.pure, Except.ok.injEq] at h
            subst h
            exact hi1
        · simp [throw, throwThe, MonadExceptOf.throw] at h
    · simp only [pure, Except.pure, Except.ok.injEq] at h
      subst h
      exact decInv_congr rfl hi

theorem decisionLoop_decInv (now : Nat) (taskPid mp : Pid) :
    ∀ (ds : List Decision) (s s' : BState),
      decisionLoop now taskPid mp ds s = .ok s' → decInv s → decInv s' := by
  intro ds
  induction ds with
  | nil =>
    intro s s' h hi
    simp only [decisionLoop, pure, Except.pure, Except.ok.injEq] at h
    subst h
    exact hi
  | cons d rest ih =>
    intro s s' h hi
    simp only [decisionLoop, Bind.bind, Except.bind] at h
    cases hd : applyDecision s now taskPid mp d with
    | error e => rw [hd] at h; simp at h
    | ok s1 => rw [hd] at h; exact ih s1 s' h (applyDecision_decInv hd hi)

theorem updSchedAct_decInv {s : BState} {cat : String}
    (f : List ActEntry → List ActEntry) (hi : decInv s) :
    decInv (updSchedAct s cat f) := by
  unfold updSchedAct
  cases lookupA s.scheduled_activities cat with
  | none => exact hi
  | some q => exact decInv_congr rfl hi

theorem sweepSchedActs_decInv (now : Nat) (cat : String) :
    ∀ (es : List ActEntry) (s s' : BState),
      sweepSchedActs now cat es s = .ok s' → decInv s → decInv s' := by
  intro es
  induction es with
  | nil =>
    intro s s' h hi
    simp only [sweepSchedActs, pure, Except.pure, Except.ok.injEq] at h
    subst h
    exact hi
  | cons e es ih =>
    intro s s' h hi
    simp only [sweepSchedActs, Bind.bind, Except.bind] at h
    cases hsch : _schedule_decision (updSchedAct s cat (removeFirst e))
        now e.process none none with
    | error err => rw [hsch] at h; simp at h
    | ok s2 =>
      rw [hsch] at h
      exact ih _ _ h (decInv_congr (s := s2) rfl
        (schedule_nn_decInv hsch (updSchedAct_decInv _ hi)))

theorem sweepSchedActsAll_decInv (now : Nat) :
    ∀ (cs : List String) (s s' : BState),
      sweepSchedActsAll now cs s = .ok s' → decInv s → decInv s' := by
  intro cs
  induction cs with
  | nil =>
    intro s s' h hi
    simp only [sweepSchedActsAll, pure, Except.pure, Except.ok.injEq] at h
    subst h
    exact hi
  | cons c cs ih =>
    intro s s' h hi
    simp only [sweepSchedActsAll, Bind.bind, Except.bind] at h
    cases hsw : sweepSchedActs now c
        (((lookupA s.scheduled_activities c).getD []).filter
          fun e => decide (e.expiry < now)) s with
    | error err => rw [hsw] at h; simp at h
    | ok s1 =>
      rw [hsw] at h
      exact ih _ _ h (sweepSchedActs_decInv now c _ s s1 hsw hi)

theorem sweepRunActs_decInv (now : Nat) :
    ∀ (es : List (RunId × RunAct)) (s s' : BState),
      sweepRunActs now es s = .ok s' → decInv s → decInv s' := by
  intro es
  induction es with
  | nil =>
    intro s s' h hi
    simp only [sweepRunActs, pure, Except.pure, Except.ok.injEq] at h
    subst h
    exact hi
  | cons hd tl ih =>
    obtain ⟨i, a⟩ := hd
    intro s s' h hi
    simp only [sweepRunActs, Bind.bind, Except.bind] at h
    cases hsch : _schedule_decision
        { s with running_activities := eraseA s.running_activities i }
        now a.process none none with
    | error err => rw [hsch] at h; simp at h
    | ok s2 =>
      rw [hsch] at h
      exact ih _ _ h (decInv_congr (s := s2) rfl
        (schedule_nn_decInv hsch (decInv_congr rfl hi)))

theorem time_out_activities_decInv {s : BState} {now : Nat} {s' : BState}
    (h : _time_out_activities s now = .ok s') (hi : decInv s) : decInv s' := by
  unfold _time_out_activities at h
  cases h1 : sweepSchedActsAll now (s.scheduled_activities.map Prod.fst) s with
  | error err => rw [h1] at h; simp [Bind.bind, Except.bind] at h
  | ok s1 =>
    rw [h1] at h
    simp only [Bind.bind, Except.bind] at h
    exact sweepRunActs_decInv now _ s1 s' h
      (sweepSchedActsAll_decInv now _ s s1 h1 hi)

theorem sweepRunDecs_decInv (now : Nat) :
    ∀ (es : List (RunId × RunDec)) (s s' : BState),
      sweepRunDecs now es s = .ok s' → decInv s → decInv s' := by
  intro es
  induction es with
  | nil =>
    intro s s' h hi
    simp only [sweepRunDecs, pure, Except.pure, Except.ok.injEq] at h
    subst h
    exact hi
  | cons hd tl ih =>
    obtain ⟨i, d⟩ := hd
    intro s s' h hi
    simp only [sweepRunDecs, Bind.bind, Except.bind] at h
    cases hsch : _schedule_decision
        { s with running_decisions := eraseA s.running_decisions i }
        now d.process none none with
    | error err => rw [hsch] at h; simp at h
    | ok s2 =>
      rw [hsch] at h
      exact ih _ _ h (schedule_nn_decInv hsch (decInv_congr rfl hi))

theorem removeAliasedSt_decInv {al : AliasTab} {s : BState} {cat : String}
    {e : DecEntry} (hi : decInv s) : decInv (removeAliasedSt al s cat e) := by
  unfold removeAliasedSt
  split
  · exact decInv_updSchedDec_removeFirst hi
  · exact hi

theorem sweepSchedDecs_decInv (now : Nat) (cat : String) :
    ∀ (es : List DecEntry) (al : AliasTab) (s : BState) (al2 : AliasTab)
      (s2 : BState),
      sweepSchedDecs now cat es al s = .ok (al2, s2) → decInv s →
      decInv s2 := by
  intro es
  induction es with
  | nil =>
    intro al s al2 s2 h hi
    simp only [sweepSchedDecs, pure, Except.pure, Except.ok.injEq,
      Prod.mk.injEq] at h
    obtain ⟨_, hs⟩ := h
    subst hs
    exact hi
  | cons e es ih =>
    intro al s al2 s2 h hi
    simp only [sweepSchedDecs, Bind.bind, Except.bind] at h
    cases hsa : schedDecAliased (removeAliasedTab al cat e)
        (removeAliasedSt al s cat e) now e.process with
    | error err => rw [hsa] at h; simp at h
    | ok pr =>
      obtain ⟨al1, s1⟩ := pr
      rw [hsa] at h
      exact ih al1 s1 al2 s2 h
        (schedule_nn_decInv (schedDecAliased_proj hsa)
          (removeAliasedSt_decInv hi))

theorem sweepSchedDecsAll_decInv (now : Nat) :
    ∀ (cs : List String) (al : AliasTab) (s : BState) (al2 : AliasTab)
      (s2 : BState),
      sweepSchedDecsAll now cs al s = .ok (al2, s2) → decInv s →
      decInv s2 := by
  intro cs
  induction cs with
  | nil =>
    intro al s al2 s2 h hi
    simp only [sweepSchedDecsAll, pure, Except.pure, Except.ok.injEq,
      Prod.mk.injEq] at h
    obtain ⟨_, hs⟩ := h
    subst hs
    exact hi
  | cons c cs ih =>
    intro al s al2 s2 h hi
    simp only [sweepSchedDecsAll, Bind.bind, Except.bind] at h
    cases hsw : sweepSchedDecs now c
        ((aliasContents al c).filter
          fun e => match e.expiry with | some v => v < now | none => false)
        al s with
    | error err => rw [hsw] at h; simp at h
    | ok pr =>
      obtain ⟨al1, s1⟩ := pr
      rw [hsw] at h
      exact ih al1 s1 al2 s2 h (sweepSchedDecs_decInv now c _ al s al1 s1 hsw hi)

theorem time_out_decisions_decInv {s : BState} {now : Nat} {s' : BState}
    (h : _time_out_decisions s now = .ok s') (hi : decInv s) : decInv s' := by
  simp only [_time_out_decisions] at h
  cases h1 : sweepRunDecs now
      (s.running_decisions.filter fun p => decide (p.2.expiry < now)) s with
  | error err => rw [h1] at h; simp [Bind.bind, Except.bind] at h
  | ok s1 =>
    rw [h1] at h
    simp only [Bind.bind, Except.bind] at h
    cases hall : sweepSchedDecsAll now (s1.scheduled_decisions.map Prod.fst)
        (s1.scheduled_decisions.map fun pr => (pr.1, pr.2, true)) s1 with
    | error err => rw [hall] at h; simp at h
    | ok pr =>
      obtain ⟨al2, s2⟩ := pr
      rw [hall] at h
      simp only [pure, Except.pure, Except.ok.injEq] at h
      subst h
      exact sweepSchedDecsAll_decInv now _ _ s1 al2 s2 hall
        (sweepRunDecs_decInv now _ s s1 h1 hi)

theorem start_process_decInv {s : BState} {now : Nat} {t : ProcessTemplate}
    {p : Pid} {s' : BState}
    (h : start_process s now t = .ok (p, s')) (hi : decInv s) : decInv s' := by
  simp only [start_process, Bind.bind, Except.bind] at h
  cases hsch : _schedule_decision
      (installProc { s with nextId := s.nextId + 1 }
        ⟨s.nextId, t.workflow, t.input, t.tags, t.parent, [.processStarted]⟩)
      now s.nextId none none with
  | error err => rw [hsch] at h; simp at h
  | ok s2 =>
    rw [hsch] at h
    simp only [pure, Except.pure, Except.ok.injEq, Prod.mk.injEq] at h
    obtain ⟨_, hs⟩ := h
    subst hs
    exact schedule_nn_decInv hsch (decInv_congr rfl hi)

theorem signal_process_decInv {s : BState} {now : Nat} {pid : Pid}
    {sig : String} {data : Option String} {s' : BState}
    (h : signal_process s now pid sig data = .ok s') (hi : decInv s) :
    decInv s' := by
  simp only [signal_process] at h
  split at h
  · exact schedule_nn_decInv h (decInv_congr rfl hi)
  · simp [throw, throwThe, MonadExceptOf.throw] at h

theorem cancel_process_decInv {s : BState} {now : Nat} {pid : Pid}
    {dt : Option String} {s' : BState}
    (h : cancel_process s now pid dt = .ok s') (hi : decInv s) : decInv s' :=
  decInv_pairSub (cancel_process_facts h).1.pairSub hi

theorem poll_activity_decInv {s : BState} {now : Nat} {category : String}
    {r : Option ActivityTask} {s' : BState}
    (h : poll_activity_task s now category = .ok (r, s')) (hi : decInv s) :
    decInv s' := by
  simp only [poll_activity_task] at h
  split at h
  · simp only [pure, Except.pure, Except.ok.injEq, Prod.mk.injEq] at h
    obtain ⟨_, hs⟩ := h
    subst hs
    exact hi
  · split at h
    · simp only [pure, Except.pure, Except.ok.injEq, Prod.mk.injEq] at h
      obtain ⟨_, hs⟩ := h
      subst hs
      exact decInv_congr rfl hi
    · split at h
      · rename_i desc hdesc
        simp only [pure, Except.pure, Except.ok.injEq, Prod.mk.injEq] at h
        obtain ⟨_, hs⟩ := h
        subst hs
        exact decInv_congr rfl hi
      · simp [throw, throwThe, MonadExceptOf.throw] at h

theorem pollDecisionCore_decInv {s : BState} {now : Nat} {category : String}
    {r : Option DecisionTask} {s' : BState}
    (h : pollDecisionCore s now category = .ok (r, s')) (hi : decInv s) :
    decInv s' := by
  simp only [pollDecisionCore, Bind.bind, Except.bind] at h
  split at h
  · rename_i q hq
    split at h
    · simp only [pure, Except.pure, Except.ok.injEq, Prod.mk.injEq] at h
      obtain ⟨_, hs⟩ := h
      subst hs
      exact hi
    · rename_i e hfe
      split at h
      · rename_i pr hpr
        split at h
        · rename_i desc hdesc
          simp only [pure, Except.pure, Except.ok.injEq, Prod.mk.injEq] at h
          obtain ⟨_, hs⟩ := h
          subst hs
          refine decInv_congr rfl (decInv_congr rfl ?_)
          split
          · exact decInv_updSchedDec_removeFirst (decInv_congr rfl hi)
          · exact decInv_updSchedDec_removeFirst hi
        · simp [throw, throwThe, MonadExceptOf.throw] at h
      · simp [throw, throwThe, MonadExceptOf.throw] at h
  · simp [throw, throwThe, MonadExceptOf.throw] at h

theorem poll_decision_decInv {s : BState} {now : Nat} {category : String}
    {r : Option DecisionTask} {s' : BState}
    (h : poll_decision_task s now category = .ok (r, s')) (hi : decInv s) :
    decInv s' := by
  simp only [poll_decision_task, Bind.bind, Except.bind] at h
  cases hsw1 : _time_out_activities s now with
  | error e => rw [hsw1] at h; simp at h
  | ok s1 =>
    simp only [hsw1] at h
    cases hsw2 : _time_out_decisions s1 now with
    | error e => rw [hsw2] at h; simp at h
    | ok s2 =>
      simp only [hsw2] at h
      exact pollDecisionCore_decInv h
        (time_out_decisions_decInv hsw2 (time_out_activities_decInv hsw1 hi))

theorem heartbeat_decInv {s : BState} {now : Nat} {task : ActivityTask}
    {s' : BState}
    (h : heartbeat_activity_task s now task = .ok s') (hi : decInv s) :
    decInv s' := by
  simp only [heartbeat_activity_task, Bind.bind, Except.bind] at h
  cases hsw : _time_out_activities s now with
  | error e => rw [hsw] at h; simp at h
  | ok s0 =>
    simp only [hsw] at h
    split at h
    · simp [throw, throwThe, MonadExceptOf.throw] at h
    · split at h
      · simp only [pure, Except.pure, Except.ok.injEq] at h
        subst h
        exact decInv_congr (s := s0) rfl (time_out_activities_decInv hsw hi)
      · simp [throw, throwThe, MonadExceptOf.throw] at h

theorem complete_activity_decInv {s : BState} {now : Nat}
    {task : ActivityTask} {result : Outcome} {s' : BState}
    (h : complete_activity_task s now task result = .ok s') (hi : decInv s) :
    decInv s' := by
  simp only [complete_activity_task, Bind.bind, Except.bind] at h
  cases hsw : _time_out_activities s now with
  | error e => rw [hsw] at h; simp at h
  | ok s0 =>
    simp only [hsw] at h
    split at h
    · simp [throw, throwThe, MonadExceptOf.throw] at h
    · exact schedule_nn_decInv h
        (decInv_congr (s := s0) rfl (time_out_activities_decInv hsw hi))

theorem complete_decision_decInv {s : BState} {now : Nat}
    {task : DecisionTask} {decisions : List Decision} {s' : BState}
    (h : complete_decision_task s now task decisions = .ok s') (hi : decInv s) :
    decInv s' := by
  simp only [complete_decision_task, Bind.bind, Except.bind] at h
  cases hsw : _time_out_decisions s now with
  | error e => rw [hsw] at h; simp at h
  | ok s0 =>
    simp only [hsw] at h
    split at h
    · simp [throw, throwThe, MonadExceptOf.throw] at h
    · exact decisionLoop_decInv now task.process_id _ decisions _ s' h
        (decInv_congr (s := s0) rfl (time_out_decisions_decInv hsw hi))

/-- C6: `_schedule_decision` de-duplicates — it is a no-op when the
process already has an entry whose start is null or has been reached,
otherwise it inserts an entry with expiry `now + decision_timeout`, and a
timer is always inserted with null expiry.  The invariant `decInv` (every
non-timer entry has a null start and every process owns at most one
non-timer entry per queue) is preserved by every operation; consequently
every process has at most one non-timer scheduled decision, whose
earliest-start-time is trivially in the past. -/
theorem C6_theorem :
    (∀ (s : BState) (now : Nat) (p : Pid) (st : Option Nat) (pr : Process)
      (desc : WorkflowDesc) (q : List DecEntry),
      getProc s p = some pr →
      lookupA s.workflows pr.workflow = some desc →
      lookupA s.scheduled_decisions desc.category = some q →
      (matchingOf now p st q).length ≠ 0 →
      _schedule_decision s now p st none = .ok s) ∧
    (∀ (s : BState) (now : Nat) (p : Pid) (st : Option Nat) (pr : Process)
      (desc : WorkflowDesc) (q : List DecEntry),
      getProc s p = some pr →
      lookupA s.workflows pr.workflow = some desc →
      lookupA s.scheduled_decisions desc.category = some q →
      (matchingOf now p st q).length = 0 →
      _schedule_decision s now p st none = .ok (withDecQueue s desc.category
        (sortEntries now
          (q ++ [⟨p, st, some (now + desc.decision_timeout), none⟩])))) ∧
    (∀ (s : BState) (now : Nat) (p : Pid) (st : Option Nat) (d : Decision)
      (pr : Process) (desc : WorkflowDesc) (q : List DecEntry),
      getProc s p = some pr →
      lookupA s.workflows pr.workflow = some desc →
      lookupA s.scheduled_decisions desc.category = some q →
      _schedule_decision s now p st (some d) = .ok (withDecQueue s
        desc.category (sortEntries now (q ++ [⟨p, st, none, some d⟩])))) ∧
    (∀ (s : BState) (name cat : String) (t dt : Nat), decInv s →
      decInv (register_workflow s name cat t dt)) ∧
    (∀ (s : BState) (name cat : String) (a b c : Nat), decInv s →
      decInv (register_activity s name cat a b c)) ∧
    (∀ (s : BState) (now : Nat) (t : ProcessTemplate) (p : Pid) (s' : BState),
      decInv s → start_process s now t = .ok (p, s') → decInv s') ∧
    (∀ (s : BState) (now : Nat) (pid : Pid) (sig : String)
      (data : Option String) (s' : BState),
      decInv s → signal_process s now pid sig data = .ok s' → decInv s') ∧
    (∀ (s : BState) (now : Nat) (pid : Pid) (dt : Option String) (s' : BState),
      decInv s → cancel_process s now pid dt = .ok s' → decInv s') ∧
    (∀ (s : BState) (now : Nat) (cat : String) (r : Option ActivityTask)
      (s' : BState),
      decInv s → poll_activity_task s now cat = .ok (r, s') → decInv s') ∧
    (∀ (s : BState) (now : Nat) (cat : String) (r : Option DecisionTask)
      (s' : BState),
      decInv s → poll_decision_task s now cat = .ok (r, s') → decInv s') ∧
    (∀ (s : BState) (now : Nat) (task : ActivityTask) (s' : BState),
      decInv s → heartbeat_activity_task s now task = .ok s' → decInv s') ∧
    (∀ (s : BState) (now : Nat) (task : ActivityTask) (result : Outcome)
      (s' : BState),
      decInv s → complete_activity_task s now task result = .ok s' →
      decInv s') ∧
    (∀ (s : BState) (now : Nat) (task : DecisionTask) (ds : List Decision)
      (s' : BState),
      decInv s → complete_decision_task s now task ds = .ok s' → decInv s') ∧
    (∀ s : BState, decInv s → ∀ (c : String) (p : Pid),
      (queueOfD s c).countP (ntOwn p) ≤ 1) := by
  refine ⟨?_, ?_, ?_, ?_, ?_, ?_, ?_, ?_, ?_, ?_, ?_, ?_, ?_, ?_⟩
  · intro s now p st pr desc q h1 h2 h3 h4
    exact schedule_decision_noop h1 h2 h3 h4
  · intro s now p st pr desc q h1 h2 h3 h4
    exact schedule_decision_insert h1 h2 h3 h4
  · intro s now p st d pr desc q h1 h2 h3
    exact schedule_decision_timer h1 h2 h3
  · intro s name cat t dt hi
    exact register_workflow_decInv hi
  · intro s name cat a b c hi
    exact decInv_congr rfl hi
  · intro s now t p s' hi h
    exact start_process_decInv h hi
  · intro s now pid sig data s' hi h
    exact signal_process_decInv h hi
  · intro s now pid dt s' hi h
    exact cancel_process_decInv h hi
  · intro s now cat r s' hi h
    exact poll_activity_decInv h hi
  · intro s now cat r s' hi h
    exact poll_decision_decInv h hi
  · intro s now task s' hi h
    exact heartbeat_decInv h hi
  · intro s now task result s' hi h
    exact complete_activity_decInv h hi
  · intro s now task ds s' hi h
    exact complete_decision_decInv h hi
  · intro s hi c p
    unfold queueOfD
    cases hq : lookupA s.scheduled_decisions c with
    | none => simp
    | some q => simpa using QInv_countP_all (hi (c, q) (lookupA_mem hq)) p

/-- C6, witness: the de-duplicating no-op, the timer insertion and the
invariant propagation at concrete states. -/
theorem C6_witness :
    _schedule_decision exStart 0 1 none none = .ok exStart ∧
    _schedule_decision exStart 0 1 (some 5) (some (.timer 5)) =
      .ok (withDecQueue exStart "d" (sortEntries 0
        ([⟨1, none, some 50, none⟩] ++ [⟨1, some 5, none, some (.timer 5)⟩]))) ∧
    decInv exPolled ∧
    (queueOfD exPolled "d").countP (ntOwn 1) ≤ 1 := by
  have hdec : decInv exPolled :=
    C6_theorem.2.2.2.2.2.2.2.2.2.1 exStart 0 "d" (some ⟨1, 2⟩) exPolled
      (by decide) (by decide)
  refine ⟨?_, ?_, hdec, ?_⟩
  · exact C6_theorem.1 exStart 0 1 none
      ⟨1, "wf", "x", [], none, [.processStarted]⟩ ⟨"d", 10, 50⟩
      [⟨1, none, some 50, none⟩] (by decide) (by decide) (by decide) (by decide)
  · exact C6_theorem.2.2.1 exStart 0 1 (some 5) (.timer 5)
      ⟨1, "wf", "x", [], none, [.processStarted]⟩ ⟨"d", 10, 50⟩
      [⟨1, none, some 50, none⟩] (by decide) (by decide) (by decide)
  · exact C6_theorem.2.2.2.2.2.2.2.2.2.2.2.2.2 exPolled hdec "d" 1

/-! ### C7: timer events -/

/-- Number of `TimerEvent`s in a process's history (0 for an unknown id). -/
def histTimer (s : BState) (r : Pid) : Nat :=
  ((getProc s r).map fun p => p.history.countP isTimerEv).getD 0

theorem histTimer_congr {s s' : BState} (h : s'.procs = s.procs) (r : Pid) :
    histTimer s' r = histTimer s r := by
  unfold histTimer getProc
  rw [h]

theorem histTimer_appendHist_nonTimer {s : BState} {p : Pid} {e : Event}
    (hev : isTimerEv e = false) (r : Pid) :
    histTimer (appendHist s p e) r = histTimer s r := by
  unfold histTimer
  rw [getProc_appendHist]
  cases hg : getProc s r with
  | none => rfl
  | some pr =>
    by_cases hrp : r = p
    · simp [hrp, List.countP_append, List.countP_cons, hev]
    · simp [hrp]

theorem histTimer_appendHist_timer {s : BState} {p : Pid} {tm : Option Decision}
    {pr : Process} (hg : getProc s p = some pr) :
    histTimer (appendHist s p (.timerEvent tm)) p = histTimer s p + 1 := by
  unfold histTimer
  rw [getProc_appendHist, hg]
  simp [List.countP_append, List.countP_cons, isTimerEv]

theorem histTimer_appendHist_other {s : BState} {p : Pid} {ev : Event}
    {r : Pid} (hne : r ≠ p) :
    histTimer (appendHist s p ev) r = histTimer s r := by
  unfold histTimer
  rw [getProc_appendHist]
  cases hg : getProc s r with
  | none => rfl
  | some pr => simp [hne]

theorem histTimer_installProc_le (s : BState) {p : Process}
    (hz : p.history.countP isTimerEv = 0) (r : Pid) :
    histTimer (installProc s p) r ≤ histTimer s r := by
  unfold histTimer getProc installProc
  by_cases hrp : p.id = r
  · subst hrp
    simp [lookupA_setA, hz]
  · simp only [lookupA_setA, if_neg hrp]
    exact Nat.le_refl _

theorem cancelFacts_histTimer {s s' : BState} (cf : CancelFacts s s')
    (r : Pid) : histTimer s' r = histTimer s r := by
  unfold histTimer
  rw [cf.timerEq r]

theorem schedule_histTimer {s : BState} {now : Nat} {p : Pid}
    {st : Option Nat} {tm : Option Decision} {s' : BState}
    (h : _schedule_decision s now p st tm = .ok s') (r : Pid) :
    histTimer s' r = histTimer s r :=
  histTimer_congr (schedule_decision_fieldsEq h).2.2.1 r

theorem applyDecision_histTimer {s : BState} {now : Nat} {taskPid mp : Pid}
    {d : Decision} {s' : BState}
    (h : applyDecision s now taskPid mp d = .ok s') (r : Pid) :
    histTimer s' r ≤ histTimer s r := by
  have hde : ∀ d0 : Decision, isTimerEv (.decisionEvent d0) = false :=
    fun d0 => rfl
  cases d with
  | scheduleActivity act id input cat =>
    simp only [applyDecision] at h
    obtain ⟨desc, q, hdesc, hq, heq⟩ := schedule_activity_inv h
    subst heq
    refine le_of_eq ?_
    exact histTimer_appendHist_nonTimer (hde _) r
  | cancelActivity id =>
    simp only [applyDecision] at h
    split at h
    · simp [throw, throwThe, MonadExceptOf.throw] at h
    · rename_i ref href
      simp only [pure, Except.pure, Except.ok.injEq] at h
      subst h
      refine le_of_eq ?_
      rw [histTimer_appendHist_nonTimer
        (e := Event.activityEvent ref Outcome.activityCanceled) rfl r]
      exact Eq.trans (histTimer_congr rfl r)
        (histTimer_appendHist_nonTimer (hde _) r)
  | startChildProcess t =>
    simp only [applyDecision] at h
    have h1 := schedule_histTimer h r
    rw [h1]
    refine Nat.le_trans ?_
      (le_of_eq (histTimer_appendHist_nonTimer (p := mp)
        (hde (.startChildProcess t)) r))
    split
    · refine histTimer_installProc_le _ ?_ r
      rfl
    · refine histTimer_installProc_le _ ?_ r
      rfl
  | timer delay =>
    simp only [applyDecision] at h
    rw [schedule_histTimer h r]
    exact le_of_eq (histTimer_appendHist_nonTimer (hde _) r)
  | completeProcess result =>
    simp only [applyDecision, Bind.bind, Except.bind] at h
    split at h
    · split at h
      · simp at h
      · rename_i s1 hcpi
        obtain ⟨cf, _, _⟩ := cancel_internal_facts hcpi
        have hstep : histTimer s1 r ≤ histTimer s r := by
          rw [cancelFacts_histTimer cf r]
          exact le_of_eq (histTimer_appendHist_nonTimer (hde _) r)
        split at h
        · split at h
          · split at h
            · rw [schedule_histTimer h r]
              refine Nat.le_trans (le_of_eq (histTimer_appendHist_nonTimer ?_ r))
                hstep
              rfl
            · simp [throw, throwThe, MonadExceptOf.throw] at h
          · simp only [pure, Except.pure, Except.ok.injEq] at h
            subst h
            exact hstep
        · simp [throw, throwThe, MonadExceptOf.throw] at h
    · simp only [pure, Except.pure, Except.ok.injEq] at h
      subst h
      exact le_of_eq (histTimer_appendHist_nonTimer (hde _) r)
  | cancelProcess details =>
    simp only [applyDecision, Bind.bind, Except.bind] at h
    split at h
    · split at h
      · simp at h
      · rename_i s1 hcpi
        obtain ⟨cf, _, _⟩ := cancel_internal_facts hcpi
        have hstep : histTimer s1 r ≤ histTimer s r := by
          rw [cancelFacts_histTimer cf r]
          exact le_of_eq (histTimer_appendHist_nonTimer (hde _) r)
        split at h
        · split at h
          · split at h
            · rw [schedule_histTimer h r]
              refine Nat.le_trans (le_of_eq (histTimer_appendHist_nonTimer ?_ r))
                hstep
              rfl
            · simp [throw, throwThe, MonadExceptOf.throw] at h
          · simp only [pure, Except.pure, Except.ok.injEq] at h
            subst h
            exact hstep
        · simp [throw, throwThe, MonadExceptOf.throw] at h
    · simp only [pure, Except.pure, Except.ok.injEq] at h
      subst h
      exact le_of_eq (histTimer_appendHist_nonTimer (hde _) r)

theorem decisionLoop_histTimer (now : Nat) (taskPid mp : Pid) :
    ∀ (ds : List Decision) (s s' : BState),
      decisionLoop now taskPid mp ds s = .ok s' →
      ∀ r, histTimer s' r ≤ histTimer s r := by
  intro ds
  induction ds with
  | nil =>
    intro s s' h r
    simp only [decisionLoop, pure, Except.pure, Except.ok.injEq] at h
    subst h
    exact Nat.le_refl _
  | cons d rest ih =>
    intro s s' h r
    simp only [decisionLoop, Bind.bind, Except.bind] at h
    cases hd : applyDecision s now taskPid mp d with
    | error e => rw [hd] at h; simp at h
    | ok s1 =>
      rw [hd] at h
      exact Nat.le_trans (ih s1 s' h r) (applyDecision_histTimer hd r)

theorem sweepSchedActs_histTimer (now : Nat) (cat : String) :
    ∀ (es : List ActEntry) (s s' : BState),
      sweepSchedActs now cat es s = .ok s' →
      ∀ r, histTimer s' r = histTimer s r := by
  intro es
  induction es with
  | nil =>
    intro s s' h r
    simp only [sweepSchedActs, pure, Except.pure, Except.ok.injEq] at h
    subst h
    rfl
  | cons e es ih =>
    intro s s' h r
    simp only [sweepSchedActs, Bind.bind, Except.bind] at h
    cases hsch : _schedule_decision (updSchedAct s cat (removeFirst e))
        now e.process none none with
    | error err => rw [hsch] at h; simp at h
    | ok s2 =>
      rw [hsch] at h
      rw [ih _ _ h r]
      rw [histTimer_appendHist_nonTimer
        (e := Event.activityEvent (ExecRef.exec e.execution)
          Outcome.activityTimedOut) rfl r, schedule_histTimer hsch r]
      exact histTimer_congr (by
        unfold updSchedAct
        cases lookupA s.scheduled_activities cat <;> rfl) r

theorem sweepRunActs_histTimer (now : Nat) :
    ∀ (es : List (RunId × RunAct)) (s s' : BState),
      sweepRunActs now es s = .ok s' →
      ∀ r, histTimer s' r = histTimer s r := by
  intro es
  induction es with
  | nil =>
    intro s s' h r
    simp only [sweepRunActs, pure, Except.pure, Except.ok.injEq] at h
    subst h
    rfl
  | cons hd tl ih =>
    obtain ⟨i, a⟩ := hd
    intro s s' h r
    simp only [sweepRunActs, Bind.bind, Except.bind] at h
    cases hsch : _schedule_decision
        { s with running_activities := eraseA s.running_activities i }
        now a.process none none with
    | error err => rw [hsch] at h; simp at h
    | ok s2 =>
      rw [hsch] at h
      rw [ih _ _ h r]
      rw [histTimer_appendHist_nonTimer
        (e := Event.activityEvent (ExecRef.exec a.execution)
          Outcome.activityTimedOut) rfl r, schedule_histTimer hsch r]
      exact histTimer_congr rfl r

theorem sweepSchedActsAll_histTimer (now : Nat) :
    ∀ (cs : List String) (s s' : BState),
      sweepSchedActsAll now cs s = .ok s' →
      ∀ r, histTimer s' r = histTimer s r := by
  intro cs
  induction cs with
  | nil =>
    intro s s' h r
    simp only [sweepSchedActsAll, pure, Except.pure, Except.ok.injEq] at h
    subst h
    rfl
  | cons c cs ih =>
    intro s s' h r
    simp only [sweepSchedActsAll, Bind.bind, Except.bind] at h
    cases hsw : sweepSchedActs now c
        (((lookupA s.scheduled_activities c).getD []).filter
          fun e => decide (e.expiry < now)) s with
    | error err => rw [hsw] at h; simp at h
    | ok s1 =>
      rw [hsw] at h
      rw [ih _ _ h r]
      exact sweepSchedActs_histTimer now c _ s s1 hsw r

theorem time_out_activities_histTimer {s : BState} {now : Nat} {s' : BState}
    (h : _time_out_activities s now = .ok s') (r : Pid) :
    histTimer s' r = histTimer s r := by
  unfold _time_out_activities at h
  cases h1 : sweepSchedActsAll now (s.scheduled_activities.map Prod.fst) s with
  | error err => rw [h1] at h; simp [Bind.bind, Except.bind] at h
  | ok s1 =>
    rw [h1] at h
    simp only [Bind.bind, Except.bind] at h
    rw [sweepRunActs_histTimer now _ s1 s' h r]
    exact sweepSchedActsAll_histTimer now _ s s1 h1 r

theorem sweepRunDecs_histTimer (now : Nat) :
    ∀ (es : List (RunId × RunDec)) (s s' : BState),
      sweepRunDecs now es s = .ok s' →
      ∀ r, histTimer s' r = histTimer s r := by
  intro es
  induction es with
  | nil =>
    intro s s' h r
    simp only [sweepRunDecs, pure, Except.pure, Except.ok.injEq] at h
    subst h
    rfl
  | cons hd tl ih =>
    obtain ⟨i, d⟩ := hd
    intro s s' h r
    simp only [sweepRunDecs, Bind.bind, Except.bind] at h
    cases hsch : _schedule_decision
        { s with running_decisions := eraseA s.running_decisions i }
        now d.process none none with
    | error err => rw [hsch] at h; simp at h
    | ok s2 =>
      rw [hsch] at h
      rw [ih _ _ h r, schedule_histTimer hsch r]
      exact histTimer_congr rfl r

theorem time_out_decisions_histTimer {s : BState} {now : Nat} {s' : BState}
    (h : _time_out_decisions s now = .ok s') (r : Pid) :
    histTimer s' r = histTimer s r := by
  simp only [_time_out_decisions] at h
  cases h1 : sweepRunDecs now
      (s.running_decisions.filter fun p => decide (p.2.expiry < now)) s with
  | error err => rw [h1] at h; simp [Bind.bind, Except.bind] at h
  | ok s1 =>
    rw [h1] at h
    simp only [Bind.bind, Except.bind] at h
    cases hall : sweepSchedDecsAll now (s1.scheduled_decisions.map Prod.fst)
        (s1.scheduled_decisions.map fun pr => (pr.1, pr.2, true)) s1 with
    | error err => rw [hall] at h; simp at h
    | ok pr =>
      obtain ⟨al2, s2⟩ := pr
      rw [hall] at h
      simp only [pure, Except.pure, Except.ok.injEq] at h
      subst h
      rw [histTimer_congr
        (sweepSchedDecsAll_frame now _ _ s1 al2 s2 hall).2.2.1 r]
      exact sweepRunDecs_histTimer now _ s s1 h1 r

theorem complete_decision_histTimer {s : BState} {now : Nat}
    {task : DecisionTask} {decisions : List Decision} {s' : BState}
    (h : complete_decision_task s now task decisions = .ok s') (r : Pid) :
    histTimer s' r ≤ histTimer s r := by
  simp only [complete_decision_task, Bind.bind, Except.bind] at h
  cases hsw : _time_out_decisions s now with
  | error e => rw [hsw] at h; simp at h
  | ok s0 =>
    simp only [hsw] at h
    split at h
    · simp [throw, throwThe, MonadExceptOf.throw] at h
    · rename_i rd hlook
      have h1 := decisionLoop_histTimer now task.process_id rd.process
        decisions _ s' h r
      exact Nat.le_trans h1 (le_of_eq (Eq.trans (histTimer_congr (s := s0) rfl r)
        (time_out_decisions_histTimer hsw r)))

theorem findEligible_some (now : Nat) :
    ∀ (q : List DecEntry) (e : DecEntry), findEligible now q = some e →
      e ∈ q ∧ (∀ st, e.start = some st → st ≤ now) ∧
      (∀ v, e.expiry = some v → now ≤ v) := by
  intro q
  induction q with
  | nil =>
    intro e h
    simp [findEligible] at h
  | cons x xs ih =>
    intro e h
    simp only [findEligible] at h
    cases hst : x.start with
    | some st =>
      simp only [hst] at h
      by_cases hlt : now < st
      · rw [if_pos hlt] at h
        obtain ⟨hmem, h2, h3⟩ := ih e h
        exact ⟨List.mem_cons_of_mem _ hmem, h2, h3⟩
      · rw [if_neg hlt] at h
        by_cases hexp : x.expiry.getD now ≥ now
        · rw [if_pos hexp] at h
          have he : x = e := by simpa using h
          subst he
          refine ⟨List.mem_cons_self _ _, ?_, ?_⟩
          · intro st2 hst2
            rw [hst] at hst2
            have : st = st2 := by simpa using hst2
            omega
          · intro v hv
            rw [hv] at hexp
            simpa using hexp
        · rw [if_neg hexp] at h
          obtain ⟨hmem, h2, h3⟩ := ih e h
          exact ⟨List.mem_cons_of_mem _ hmem, h2, h3⟩
    | none =>
      simp only [hst] at h
      by_cases hexp : x.expiry.getD now ≥ now
      · rw [if_pos hexp] at h
        have he : x = e := by simpa using h
        subst he
        refine ⟨List.mem_cons_self _ _, ?_, ?_⟩
        · intro st2 hst2
          rw [hst] at hst2
          cases hst2
        · intro v hv
          rw [hv] at hexp
          simpa using hexp
      · rw [if_neg hexp] at h
        obtain ⟨hmem, h2, h3⟩ := ih e h
        exact ⟨List.mem_cons_of_mem _ hmem, h2, h3⟩

theorem findEligible_all_future (now : Nat) :
    ∀ q : List DecEntry,
      (∀ e ∈ q, ∃ st, e.start = some st ∧ now < st) →
      findEligible now q = none := by
  intro q
  induction q with
  | nil => intro _; rfl
  | cons x xs ih =>
    intro hall
    obtain ⟨st, hst, hlt⟩ := hall x (List.mem_cons_self _ _)
    simp only [findEligible, hst]
    rw [if_pos hlt]
    exact ih fun e he => hall e (List.mem_cons_of_mem _ he)

theorem pollDecisionCore_some {s : BState} {now : Nat} {category : String}
    {t : DecisionTask} {s' : BState}
    (h : pollDecisionCore s now category = .ok (some t, s')) :
    ∃ q e, lookupA s.scheduled_decisions category = some q ∧
      findEligible now q = some e ∧
      t.process_id = e.process ∧
      (∀ r, r ≠ e.process → histTimer s' r = histTimer s r) ∧
      ((e.start = none ∧ histTimer s' e.process = histTimer s e.process) ∨
       (∃ st, e.start = some st ∧ st ≤ now ∧
         histTimer s' e.process = histTimer s e.process + 1)) := by
  simp only [pollDecisionCore, Bind.bind, Except.bind] at h
  split at h
  · rename_i q hq
    split at h
    · simp [pure, Except.pure] at h
    · rename_i e hfe
      obtain ⟨hmem, hstle, _⟩ := findEligible_some now q e hfe
      cases hst : e.start with
      | none =>
        simp only [hst, Option.isSome_none] at h
        rw [if_neg (by simp)] at h
        rw [updSchedDec_some (removeFirst e) hq] at h
        split at h
        · rename_i pr hpr
          split at h
          · rename_i desc hdesc
            simp only [pure, Except.pure, Except.ok.injEq, Prod.mk.injEq] at h
            obtain ⟨hr, hs⟩ := h
            subst hs
            have ht : t = ⟨e.process, (withDecQueue s category
                (removeFirst e q)).nextId⟩ := by
              exact (by simpa using hr : _ = t).symm
            refine ⟨q, e, hq, hfe, by rw [ht], fun r hne => ?_,
              Or.inl ⟨hst, ?_⟩⟩
            · rw [histTimer_appendHist_nonTimer (e := Event.decisionStarted)
                rfl r]
              exact histTimer_congr rfl r
            · rw [histTimer_appendHist_nonTimer (e := Event.decisionStarted)
                rfl e.process]
              exact histTimer_congr rfl e.process
          · simp [throw, throwThe, MonadExceptOf.throw] at h
        · simp [throw, throwThe, MonadExceptOf.throw] at h
      | some st =>
        simp only [hst, Option.isSome_some] at h
        rw [if_pos trivial] at h
        have hq2 : lookupA (appendHist s e.process
            (Event.timerEvent e.timer)).scheduled_decisions category =
            some q := hq
        rw [updSchedDec_some (removeFirst e) hq2] at h
        split at h
        · rename_i pr hpr
          split at h
          · rename_i desc hdesc
            simp only [pure, Except.pure, Except.ok.injEq, Prod.mk.injEq] at h
            obtain ⟨hr, hs⟩ := h
            subst hs
            have ht : t = ⟨e.process, (withDecQueue (appendHist s e.process
                (Event.timerEvent e.timer)) category
                (removeFirst e q)).nextId⟩ := by
              exact (by simpa using hr : _ = t).symm
            have hpr' : getProc (appendHist s e.process
                (Event.timerEvent e.timer)) e.process = some pr := hpr
            rw [getProc_appendHist] at hpr'
            cases hg : getProc s e.process with
            | none => rw [hg] at hpr'; simp at hpr'
            | some pr0 =>
              refine ⟨q, e, hq, hfe, by rw [ht], fun r hne => ?_, Or.inr
                ⟨st, hst, hstle st hst, ?_⟩⟩
              · rw [histTimer_appendHist_nonTimer (e := Event.decisionStarted)
                  rfl r]
                exact Eq.trans (histTimer_congr rfl r)
                  (histTimer_appendHist_other hne)
              · rw [histTimer_appendHist_nonTimer (e := Event.decisionStarted)
                  rfl e.process]
                exact Eq.trans (histTimer_congr rfl e.process)
                  (histTimer_appendHist_timer hg)
          · simp [throw, throwThe, MonadExceptOf.throw] at h
        · simp [throw, throwThe, MonadExceptOf.throw] at h
  · simp [throw, throwThe, MonadExceptOf.throw] at h

theorem pollDecisionCore_none_eligible {s : BState} {now : Nat}
    {category : String} {q : List DecEntry}
    (hq : lookupA s.scheduled_decisions category = some q)
    (hfe : findEligible now q = none) :
    pollDecisionCore s now category = .ok (none, s) := by
  simp only [pollDecisionCore, Bind.bind, Except.bind, hq, hfe]
  rfl

theorem applyDecision_timer_inv {s : BState} {now : Nat} {taskPid mp : Pid}
    {delay : Nat} {s' : BState}
    (h : applyDecision s now taskPid mp (.timer delay) = .ok s') :
    (∀ r, histTimer s' r = histTimer s r) ∧
    ∃ pr desc q,
      getProc s mp = some pr ∧
      lookupA s.workflows pr.workflow = some desc ∧
      lookupA s.scheduled_decisions desc.category = some q ∧
      s' = withDecQueue (appendHist s mp (.decisionEvent (.timer delay)))
        desc.category (sortEntries now
          (q ++ [⟨mp, some (now + delay), none, some (.timer delay)⟩])) := by
  simp only [applyDecision] at h
  constructor
  · intro r
    rw [schedule_histTimer h r]
    exact histTimer_appendHist_nonTimer
      (e := Event.decisionEvent (Decision.timer delay)) rfl r
  · simp only [_schedule_decision] at h
    split at h
    · rename_i pr1 hpr1
      split at h
      · rename_i desc hdesc1
        split at h
        · rename_i q hq1
          rw [if_pos (Or.inl (by simp))] at h
          simp only [pure, Except.pure, Except.ok.injEq] at h
          subst h
          rw [getProc_appendHist] at hpr1
          cases hg : getProc s mp with
          | none => rw [hg] at hpr1; simp at hpr1
          | some pr0 =>
            rw [hg] at hpr1
            have hpr1' : { pr0 with history := pr0.history ++
                [Event.decisionEvent (Decision.timer delay)] } = pr1 := by
              simpa using hpr1
            subst hpr1'
            exact ⟨pr0, desc, q, rfl, hdesc1, hq1, rfl⟩
        · simp [throw, throwThe, MonadExceptOf.throw] at h
      · simp [throw, throwThe, MonadExceptOf.throw] at h
    · simp [throw, throwThe, MonadExceptOf.throw] at h

/-! Concrete timer scenario: the first decision returns a single
`Timer 5`. -/

/-- The state after the timer decision is applied directly. -/
def exC7appl : BState :=
  match applyDecision exPolled 0 1 1 (.timer 5) with
  | .ok s => s
  | .error (_, s) => s

/-- After `complete_decision_task` with the batch `[Timer 5]`: the queue
`d` holds `(1, start 5, expiry none, Timer 5)`. -/
def exC7a : BState :=
  match complete_decision_task exPolled 0 ⟨1, 2⟩ [.timer 5] with
  | .ok s => s
  | .error (_, s) => s

/-- The poll at time 5 takes the timer entry (run id 3) and appends the
`TimerEvent`. -/
def exC7b : BState :=
  match pollDecisionCore exC7a 5 "d" with
  | .ok (_, s) => s
  | .error (_, s) => s

/-- C7: a `Timer{delay}` decision appends no `TimerEvent` when it is
scheduled — only the `DecisionEvent` — and inserts the queue entry
`(process, now + delay, null expiry, timer)`; `complete_decision_task` as
a whole never increases any process's `TimerEvent` count, and neither
sweep does; the post-sweep poll returns none when every entry's start is
in the future, and when it returns a task it appends the `TimerEvent`
exactly once, to the polled entry's process, and only when the entry's
start has been reached (`start ≤ now`). -/
theorem C7_theorem :
    (∀ (s : BState) (now : Nat) (taskPid mp : Pid) (delay : Nat)
      (s' : BState),
      applyDecision s now taskPid mp (.timer delay) = .ok s' →
      (∀ r, histTimer s' r = histTimer s r) ∧
      ∃ pr desc q,
        getProc s mp = some pr ∧
        lookupA s.workflows pr.workflow = some desc ∧
        lookupA s.scheduled_decisions desc.category = some q ∧
        s' = withDecQueue (appendHist s mp (.decisionEvent (.timer delay)))
          desc.category (sortEntries now
            (q ++ [⟨mp, some (now + delay), none, some (.timer delay)⟩]))) ∧
    (∀ (s : BState) (now : Nat) (task : DecisionTask) (ds : List Decision)
      (s' : BState),
      complete_decision_task s now task ds = .ok s' →
      ∀ r, histTimer s' r ≤ histTimer s r) ∧
    (∀ (s : BState) (now : Nat) (s' : BState),
      _time_out_activities s now = .ok s' →
      ∀ r, histTimer s' r = histTimer s r) ∧
    (∀ (s : BState) (now : Nat) (s' : BState),
      _time_out_decisions s now = .ok s' →
      ∀ r, histTimer s' r = histTimer s r) ∧
    (∀ (s : BState) (now : Nat) (c : String) (q : List DecEntry),
      lookupA s.scheduled_decisions c = some q →
      (∀ e ∈ q, ∃ st, e.start = some st ∧ now < st) →
      pollDecisionCore s now c = .ok (none, s)) ∧
    (∀ (s : BState) (now : Nat) (c : String) (t : DecisionTask) (s' : BState),
      pollDecisionCore s now c = .ok (some t, s') →
      ∃ q e, lookupA s.scheduled_decisions c = some q ∧
        findEligible now q = some e ∧
        t.process_id = e.process ∧
        (∀ r, r ≠ e.process → histTimer s' r = histTimer s r) ∧
        ((e.start = none ∧ histTimer s' e.process = histTimer s e.process) ∨
         (∃ st, e.start = some st ∧ st ≤ now ∧
           histTimer s' e.process = histTimer s e.process + 1))) := by
  refine ⟨?_, ?_, ?_, ?_, ?_, ?_⟩
  · intro s now taskPid mp delay s' h
    exact applyDecision_timer_inv h
  · intro s now task ds s' h r
    exact complete_decision_histTimer h r
  · intro s now s' h r
    exact time_out_activities_histTimer h r
  · intro s now s' h r
    exact time_out_decisions_histTimer h r
  · intro s now c q hq hall
    exact pollDecisionCore_none_eligible hq (findEligible_all_future now q hall)
  · intro s now c t s' h
    exact pollDecisionCore_some h

/-- C7, witness: at the concrete timer scenario — scheduling the timer
appends no `TimerEvent`, the poll at time 3 (before the start 5) returns
none leaving the state unchanged, and the poll at time 5 appends exactly
one `TimerEvent` to process 1. -/
theorem C7_witness :
    histTimer exC7appl 1 = histTimer exPolled 1 ∧
    pollDecisionCore exC7a 3 "d" = .ok (none, exC7a) ∧
    histTimer exC7b 1 = histTimer exC7a 1 + 1 := by
  refine ⟨?_, ?_, ?_⟩
  · exact (C7_theorem.1 exPolled 0 1 1 5 exC7appl (by decide)).1 1
  · exact C7_theorem.2.2.2.2.1 exC7a 3 "d"
      [⟨1, some 5, none, some (.timer 5)⟩] (by decide) (by decide)
  · have h5 := C7_theorem.2.2.2.2.2 exC7a 5 "d" ⟨1, 3⟩ exC7b (by decide)
    obtain ⟨q, e, hq, hfe, hpid, hoth, hcase⟩ := h5
    have hq2 : lookupA exC7a.scheduled_decisions "d" =
        some [⟨1, some 5, none, some (.timer 5)⟩] := by decide
    rw [hq2] at hq
    have hqv : ([⟨1, some 5, none, some (.timer 5)⟩] : List DecEntry) = q := by
      simpa using hq
    subst hqv
    have hev : (⟨1, some 5, none, some (.timer 5)⟩ : DecEntry) = e := by
      have hfe2 : findEligible 5 [(⟨1, some 5, none, some (.timer 5)⟩ : DecEntry)] =
          some ⟨1, some 5, none, some (.timer 5)⟩ := by decide
      rw [hfe2] at hfe
      simpa using hfe
    subst hev
    rcases hcase with ⟨hnone, _⟩ | ⟨st, hst, hle, hplus⟩
    · simp at hnone
    · exact hplus

/-! ### C4: completing a process -/

theorem applyDecision_completeProcess {s : BState} {now : Nat}
    {taskPid mp : Pid} {res : String} {s' : BState}
    (h : applyDecision s now taskPid mp (.completeProcess res) = .ok s')
    (hlive : mp ∈ s.live) :
    mp ∉ s'.live ∧
    ∀ pr par, getProc s' mp = some pr → pr.parent = some par →
      (∃ pp, getProc s' par = some pp ∧ pp.history ≠ [] ∧
        pp.history.getLast? = some (.childProcessEvent mp pr.workflow pr.tags
          (.processCompleted res))) ∧
      (∃ c, ∃ e ∈ queueOfD s' c, e.process = par) := by
  simp only [applyDecision, Bind.bind, Except.bind] at h
  split at h
  · split at h
    · simp at h
    · rename_i s1 hcpi
      obtain ⟨cf, _, hout⟩ := cancel_internal_facts hcpi
      split at h
      · rename_i pr1 hpr1
        split at h
        · rename_i par1 hpar1
          split at h
          · rename_i w hw
            have hflds := schedule_decision_fieldsEq h
            have hlive' : s'.live = s1.live := hflds.2.2.2.1
            have hprocs : s'.procs = (appendHist s1 par1
                (.childProcessEvent mp pr1.workflow pr1.tags
                  (.processCompleted res))).procs := hflds.2.2.1
            constructor
            · rw [hlive']
              exact hout
            · intro pr par hpr hpar
              have hg' : getProc s' mp = (getProc s1 mp).map fun p =>
                  if mp = par1 then { p with history := p.history ++
                    [Event.childProcessEvent mp pr1.workflow pr1.tags
                      (.processCompleted res)] } else p := by
                show lookupA s'.procs mp = _
                rw [hprocs]
                exact getProc_appendHist s1 par1 _ mp
              rw [hg', hpr1] at hpr
              have hpr' : pr.workflow = pr1.workflow ∧ pr.tags = pr1.tags ∧
                  pr.parent = pr1.parent := by
                by_cases hmp : mp = par1 <;> simp [hmp] at hpr <;>
                  rw [← hpr] <;> exact ⟨rfl, rfl, rfl⟩
              have hparv : par = par1 := by
                rw [hpr'.2.2, hpar1] at hpar
                simpa using hpar.symm
              subst hparv
              have hgw : getProc s1 par = some w := by
                unfold _managed_process at hw
                split at hw
                · exact hw
                · cases hw
              constructor
              · refine ⟨{ w with history := w.history ++
                  [Event.childProcessEvent mp pr1.workflow pr1.tags
                    (.processCompleted res)] }, ?_, by simp, ?_⟩
                · have hgp : getProc s' par = getProc (appendHist s1 par
                      (Event.childProcessEvent mp pr1.workflow pr1.tags
                        (ChildResult.processCompleted res))) par := by
                    show lookupA s'.procs par = _
                    rw [hprocs]
                    rfl
                  rw [hgp, getProc_appendHist, hgw]
                  simp
                · rw [hpr'.1, hpr'.2.1]
                  simp
              · -- the final `_schedule_decision` call for the parent
                simp only [_schedule_decision] at h
                split at h
                · rename_i pr2 hpr2
                  split at h
                  · rename_i desc hdesc
                    split at h
                    · rename_i q hq
                      split at h
                      · simp only [pure, Except.pure, Except.ok.injEq] at h
                        subst h
                        refine ⟨desc.category, ⟨par, none, some (now +
                          desc.decision_timeout), none⟩, ?_, rfl⟩
                        simp [queueOfD, lookupA_setA, mem_sortEntries]
                      · rename_i hcond
                        simp only [pure, Except.pure, Except.ok.injEq] at h
                        subst h
                        have hne : (matchingOf now par none q).length ≠ 0 := by
                          intro hz
                          exact hcond (Or.inr hz)
                        have hex : ∃ e, e ∈ matchingOf now par none q := by
                          cases hm : matchingOf now par none q with
                          | nil => rw [hm] at hne; simp at hne
                          | cons a l => exact ⟨a, hm ▸ List.mem_cons_self a l⟩
                        obtain ⟨e, he⟩ := hex
                        have he1 : e ∈ q ∧ e.process = par := by
                          unfold matchingOf at he
                          have h1 := List.mem_filter.mp he
                          have h2 := List.mem_filter.mp h1.1
                          exact ⟨h2.1, by simpa using h2.2⟩
                        refine ⟨desc.category, e, ?_, he1.2⟩
                        simpa [queueOfD, hq] using he1.1
                    · simp [throw, throwThe, MonadExceptOf.throw] at h
                  · simp [throw, throwThe, MonadExceptOf.throw] at h
                · simp [throw, throwThe, MonadExceptOf.throw] at h
          · simp [throw, throwThe, MonadExceptOf.throw] at h
        · -- `pr1.parent = none`
          simp only [pure, Except.pure, Except.ok.injEq] at h
          subst h
          rename_i hpar1
          refine ⟨hout, ?_⟩
          intro pr par hpr hpar
          rw [show getProc s1 mp = some pr1 from hpr1] at hpr
          have : pr = pr1 := by simpa using hpr.symm
          subst this
          rw [hpar1] at hpar
          cases hpar
      · simp [throw, throwThe, MonadExceptOf.throw] at h
  · rename_i hnl
    exact absurd hlive hnl

/-- A child template: workflow `wf`, parent process 1. -/
def tmplC : ProcessTemplate := ⟨"wf", none, "c", [], some 1⟩

/-- Child process 2 started under parent 1. -/
def v1 : BState :=
  match start_process exStart 0 tmplC with
  | .ok (_, s) => s
  | .error (_, s) => s

/-- Parent's initial decision polled (run id 3). -/
def v2 : BState :=
  match poll_decision_task v1 0 "d" with
  | .ok (_, s) => s
  | .error (_, s) => s

/-- Child's initial decision polled (run id 4). -/
def v3 : BState :=
  match poll_decision_task v2 0 "d" with
  | .ok (_, s) => s
  | .error (_, s) => s

/-- Child 2 completed through `complete_decision_task`. -/
def v4 : BState :=
  match complete_decision_task v3 0 ⟨2, 4⟩ [.completeProcess "ok"] with
  | .ok s => s
  | .error (_, s) => s

/-- Child 2 completed through the decision-loop step directly. -/
def vApply : BState :=
  match applyDecision v3 0 2 2 (.completeProcess "ok") with
  | .ok s => s
  | .error (_, s) => s

/-- C4: applying `CompleteProcess(r)` to a live process removes it from
the store; and if its record names a parent, the call succeeded only with
the parent found in the store, the parent's history then ends with
`ChildProcessEvent(child, workflow, tags, ProcessCompleted(r))`, and some
queue holds a scheduled decision for the parent.  The concrete round-trip
`start_process → poll_decision_task → complete_decision_task` at the
child scenario exhibits exactly this. -/
theorem C4_theorem :
    (∀ (s : BState) (now : Nat) (taskPid mp : Pid) (res : String)
      (s' : BState),
      applyDecision s now taskPid mp (.completeProcess res) = .ok s' →
      mp ∈ s.live →
      mp ∉ s'.live ∧
      ∀ pr par, getProc s' mp = some pr → pr.parent = some par →
        (∃ pp, getProc s' par = some pp ∧ pp.history ≠ [] ∧
          pp.history.getLast? = some (.childProcessEvent mp pr.workflow
            pr.tags (.processCompleted res))) ∧
        (∃ c, ∃ e ∈ queueOfD s' c, e.process = par)) ∧
    (start_process exStart 0 tmplC = .ok (2, v1) ∧
     poll_decision_task v1 0 "d" = .ok (some ⟨1, 3⟩, v2) ∧
     poll_decision_task v2 0 "d" = .ok (some ⟨2, 4⟩, v3) ∧
     complete_decision_task v3 0 ⟨2, 4⟩ [.completeProcess "ok"] = .ok v4 ∧
     v4.live = [1] ∧
     (getProc v4 1).map (fun p => p.history.getLast?) =
       some (some (.childProcessEvent 2 "wf" [] (.processCompleted "ok"))) ∧
     queueOfD v4 "d" = [⟨1, none, some 50, none⟩]) := by
  constructor
  · intro s now taskPid mp res s' h hlive
    exact applyDecision_completeProcess h hlive
  · decide

/-- C4, witness: the general part applied at the concrete decision-loop
step completing child 2. -/
theorem C4_witness :
    2 ∉ vApply.live ∧
    (∃ pp, getProc vApply 1 = some pp ∧ pp.history ≠ [] ∧
      pp.history.getLast? = some (.childProcessEvent 2 "wf" []
        (.processCompleted "ok"))) ∧
    (∃ c, ∃ e ∈ queueOfD vApply c, e.process = 1) := by
  have h := C4_theorem.1 v3 0 2 2 "ok" vApply (by decide) (by decide)
  refine ⟨h.1, ?_⟩
  have h2 := h.2 ⟨2, "wf", "c", [], some 1,
    [.processStarted, .decisionStarted,
     .decisionEvent (.completeProcess "ok")]⟩ 1 (by decide) (by decide)
  exact h2
